import Mathlib

/-!
Tuya light: datapoint synchronisation.

A shallow embedding of `esphome/components/tuya/light/tuya_light.cpp`
(`TuyaLight::setup`, its two datapoint listeners, and `TuyaLight::write_state`)
together with the IEEE-754 arithmetic the code performs on `float` and `double`.

Conventions of the embedding.

* A floating-point value is a `Flt`: a finite rational, an infinity or NaN.  Every
  arithmetic operation computes the exact rational result and rounds it to the
  target format (round to nearest, ties to even), as the hardware does with one
  rounding per operation.  Negative zero is identified with zero.  The sign of a
  zero can only show in `1.0 / gamma` at `gamma = -0.0` (the code's exponent is
  then `-inf`, while the reciprocal of the one zero of `Flt` is `+inf`) and in
  `powf` at a zero base with a negative exponent: the embedding describes the
  code for gamma > 0, which is what the statements on the listener's brightness
  assume.
* `int32_t` values are integers; subtraction wraps to 32 bits (`wrapInt32`).
* `powf` belongs to the C library, not to this repository: it is a parameter of
  the dimmer listener.
* The external collaborators (`light::LightState`, the `Tuya` parent) appear
  through what the code reads from them (`LightState`) and what it sends to
  them (lists of `TuyaDatapoint` writes and of `LightCall` requests).
-/

namespace Tuya

/-! ## Floating point -/

/-- A `float` or `double` value: finite, infinite (`neg` tells the sign) or NaN. -/
inductive Flt where
  | fin (q : ℚ)
  | inf (neg : Bool)
  | nan
  deriving DecidableEq

namespace Flt

/-- Round a rational to the nearest integer, ties to the even one. -/
def rne (q : ℚ) : ℤ :=
  if Int.fract q < 1 / 2 then ⌊q⌋
  else if 1 / 2 < Int.fract q then ⌊q⌋ + 1
  else if ⌊q⌋ % 2 = 0 then ⌊q⌋ else ⌊q⌋ + 1

/-- Binary exponent used to round `q`: `floor (log2 |q|)`, but never below the
smallest normal exponent `emin` (subnormal numbers share the exponent `emin`). -/
def binade (emin : ℤ) (q : ℚ) : ℤ := max (Int.log 2 |q|) emin

/-- Spacing of the format's values around `q`, for a significand of `prec` bits. -/
def ulp (prec : ℕ) (emin : ℤ) (q : ℚ) : ℚ := 2 ^ (binade emin q - ((prec : ℤ) - 1))

/-- Round a rational to the nearest multiple of the spacing around it, ties to
the even multiple: the rounding of a format with unbounded exponents above. -/
def roundQ (prec : ℕ) (emin : ℤ) (q : ℚ) : ℚ :=
  (rne (q / ulp prec emin q) : ℚ) * ulp prec emin q

/-- Round a rational to a binary floating-point format with a `prec`-bit
significand and normal exponents `emin .. emax`: nearest value, ties to even,
overflow to infinity. -/
def round (prec : ℕ) (emin emax : ℤ) (q : ℚ) : Flt :=
  let r : ℚ := roundQ prec emin q
  if (2 : ℚ) ^ (emax + 1) ≤ |r| then inf (decide (r < 0)) else fin r

/-- Addition with the result rounded by `rnd`. -/
def add (rnd : ℚ → Flt) : Flt → Flt → Flt
  | nan, _ => nan
  | _, nan => nan
  | inf a, inf b => if a = b then inf a else nan
  | inf a, fin _ => inf a
  | fin _, inf b => inf b
  | fin a, fin b => rnd (a + b)

/-- Multiplication with the result rounded by `rnd`. -/
def mul (rnd : ℚ → Flt) : Flt → Flt → Flt
  | nan, _ => nan
  | _, nan => nan
  | inf a, inf b => inf (a != b)
  | inf a, fin b => if b = 0 then nan else inf (a != decide (b < 0))
  | fin a, inf b => if a = 0 then nan else inf (decide (a < 0) != b)
  | fin a, fin b => rnd (a * b)

/-- Division with the result rounded by `rnd`. -/
def div (rnd : ℚ → Flt) : Flt → Flt → Flt
  | nan, _ => nan
  | _, nan => nan
  | inf _, inf _ => nan
  | inf a, fin b => inf (a != decide (b < 0))
  | fin _, inf _ => fin 0
  | fin a, fin b =>
    if b = 0 then (if a = 0 then nan else inf (decide (a < 0))) else rnd (a / b)

/-- Function `std::ceil`: the result is an integer, hence needs no rounding. -/
def ceil : Flt → Flt
  | fin q => fin (⌈q⌉ : ℤ)
  | x => x

/-- Comparison `x == 0.0f`. -/
def isZero : Flt → Bool
  | fin q => decide (q = 0)
  | _ => false

/-- Strictly positive: a positive finite value or `+inf`; NaN is not. -/
def isPos : Flt → Bool
  | fin q => decide (0 < q)
  | inf neg => !neg
  | nan => false

/-- Not negative: a finite value that is at least zero, or `+inf`; NaN is not. -/
def isNonneg : Flt → Bool
  | fin q => decide (0 ≤ q)
  | inf neg => !neg
  | nan => false

/-- Comparison `x <= y` of floating-point values; false when either is NaN. -/
def le : Flt → Flt → Bool
  | fin a, fin b => decide (a ≤ b)
  | fin _, inf n => !n
  | inf n, fin _ => n
  | inf a, inf b => a || !b
  | nan, _ => false
  | _, nan => false

/-- Conversion of a floating-point value to `uint32_t`: the fractional part is
discarded.  C++ defines the result only when the truncated value fits the type;
outside of that the embedding reduces it modulo 2^32 (and yields 0 for an
infinity or NaN). -/
def toUInt32 : Flt → ℕ
  | fin q => ((if 0 ≤ q then ⌊q⌋ else ⌈q⌉) % 2 ^ 32).toNat
  | _ => 0

end Flt

/-- Rounding to `float` (IEEE-754 binary32). -/
def F32.round (q : ℚ) : Flt := Flt.round 24 (-126) 127 q

/-- Rounding to `double` (IEEE-754 binary64). -/
def F64.round (q : ℚ) : Flt := Flt.round 53 (-1022) 1023 q

/-- Conversion of an integer to `float`. -/
def F32.ofInt (n : ℤ) : Flt := F32.round n

/-- Conversion of an integer to `double`. -/
def F64.ofInt (n : ℤ) : Flt := F64.round n

/-- Conversion of a `double` to `float`. -/
def F32.ofFlt : Flt → Flt
  | Flt.fin q => F32.round q
  | x => x

/-- Operation `float * float`. -/
def F32.mul (a b : Flt) : Flt := Flt.mul F32.round a b

/-- Operation `float + float`. -/
def F32.add (a b : Flt) : Flt := Flt.add F32.round a b

/-- Operation `float / float`. -/
def F32.div (a b : Flt) : Flt := Flt.div F32.round a b

/-- Operation `double / double`. -/
def F64.div (a b : Flt) : Flt := Flt.div F64.round a b

/-! ## Machine integers -/

/-- Two's-complement reduction of an integer to `int32_t`. -/
def wrapInt32 (z : ℤ) : ℤ := (z + 2 ^ 31) % 2 ^ 32 - 2 ^ 31

/-- Values of type `int32_t`. -/
def isInt32 (z : ℤ) : Prop := -2 ^ 31 ≤ z ∧ z < 2 ^ 31

instance (z : ℤ) : Decidable (isInt32 z) := by
  unfold isInt32; infer_instance

/-! ## Data model -/

/-- Datapoint types the light uses. -/
inductive TuyaDatapointType where
  | BOOLEAN
  | INTEGER
  deriving DecidableEq, Repr

/-- A datapoint.  The 32-bit payload is kept as the unsigned word `value_uint`;
`value_int` is the same word read as `int`.  `TuyaDatapoint datapoint{}` is the
all-zero value `TuyaDatapoint.zero`. -/
structure TuyaDatapoint where
  id : ℕ
  type : TuyaDatapointType
  value_bool : Bool
  value_uint : ℕ
  deriving DecidableEq

/-- Member `value_int`: the payload word read as a signed integer. -/
def TuyaDatapoint.value_int (dp : TuyaDatapoint) : ℤ := wrapInt32 dp.value_uint

/-- A state-mutation request: `make_call()`, the setters used, `perform()`. -/
structure LightCall where
  brightness : Option Flt
  state : Option Bool
  deriving DecidableEq

/-- What the code reads from `light::LightState`. -/
structure LightState where
  /-- Field `current_values.is_on()`. -/
  is_on : Bool
  /-- Method `has_transformer()`. -/
  has_transformer : Bool
  /-- Method `get_gamma_correct()`. -/
  gamma_correct : Flt
  /-- The value `current_values_as_brightness` stores. -/
  brightness : Flt

/-- The members of `TuyaLight`. -/
structure TuyaLight where
  dimmer_id_ : Option ℕ
  switch_id_ : Option ℕ
  min_value_datapoint_id_ : Option ℕ
  min_value_ : ℤ
  max_value_ : ℤ
  zero_brightness_when_off_ : Bool
  inhibit_next_send_ : Bool
  deriving DecidableEq

/-- The value `TuyaDatapoint datapoint{}`: every member zero. -/
def TuyaDatapoint.zero : TuyaDatapoint :=
  { id := 0, type := TuyaDatapointType.BOOLEAN, value_bool := false, value_uint := 0 }

/-- The value `make_call()` returns: a request with nothing set. -/
def LightCall.empty : LightCall := { brightness := none, state := none }

/-! ## The operations of `tuya_light.cpp` -/

/-- The brightness the dimmer listener computes from the received word
`value_uint` (lines 20-33 of `tuya_light.cpp`); `gamma` is
`state_->get_gamma_correct()`.  At `gamma = -0.0` the code's exponent
`1.0 / gamma` is `-inf`; `Flt` has a single zero, whose reciprocal is `+inf`,
so that value of gamma is outside the embedding. -/
def to_brightness (powf : Flt → Flt → Flt) (self : TuyaLight) (gamma : Flt) (value_uint : ℕ) :
    Flt :=
  let lower := min self.min_value_ self.max_value_
  let upper := max self.min_value_ self.max_value_
  let value := min upper (max lower (wrapInt32 value_uint))
  let brightness :=
    F32.div (F32.ofInt (wrapInt32 (value - self.min_value_)))
      (F32.ofInt (wrapInt32 (self.max_value_ - self.min_value_)))
  let brightness := powf brightness (F32.ofFlt (F64.div (Flt.fin 1) gamma))
  if 0 < lower ∧ brightness.isZero = true then
    F32.ofFlt (F64.div (Flt.fin 1) (F64.ofInt (wrapInt32 (upper - lower))))
  else
    brightness

/-- The listener `setup` registers for `dimmer_id_`: the new members of the
light and the requests performed. -/
def dimmer_listener (powf : Flt → Flt → Flt) (self : TuyaLight) (state : LightState)
    (datapoint : TuyaDatapoint) : TuyaLight × List LightCall :=
  if !state.is_on || state.has_transformer then
    (self, [])
  else
    ({ self with inhibit_next_send_ := true },
      [{ LightCall.empty with
          brightness := some (to_brightness powf self state.gamma_correct datapoint.value_uint) }])

/-- The listener `setup` registers for `switch_id_`. -/
def switch_listener (self : TuyaLight) (state : LightState) (datapoint : TuyaDatapoint) :
    TuyaLight × List LightCall :=
  if state.has_transformer then
    (self, [])
  else
    ({ self with inhibit_next_send_ := true },
      [{ LightCall.empty with state := some datapoint.value_bool }])

/-- A registered listener: the code run on a matching datapoint. -/
abbrev Listener := TuyaLight → LightState → TuyaDatapoint → TuyaLight × List LightCall

/-- Method `TuyaLight::setup`: the listeners it registers, with their datapoint
ids and in registration order, and the datapoint writes it sends. -/
def setup (powf : Flt → Flt → Flt) (self : TuyaLight) :
    List (ℕ × Listener) × List TuyaDatapoint :=
  ((match self.dimmer_id_ with
      | some d => [(d, dimmer_listener powf)]
      | none => []) ++
    (match self.switch_id_ with
      | some s => [(s, switch_listener)]
      | none => []),
   match self.min_value_datapoint_id_ with
    | some m =>
      [{ TuyaDatapoint.zero with
          id := m, type := TuyaDatapointType.INTEGER,
          value_uint := (self.min_value_ % 2 ^ 32).toNat }]
    | none => [])

/-- The dimmer value of `write_state` (lines 90-91): `brightness_int`. -/
def to_raw (self : TuyaLight) (brightness : Flt) : ℕ :=
  let is_on := !brightness.isZero
  Flt.toUInt32
    (if is_on then
      Flt.ceil
        (F32.add
          (F32.mul brightness (F32.ofInt (wrapInt32 (self.max_value_ - self.min_value_))))
          (F32.ofInt self.min_value_))
    else F32.ofInt 0)

/-- Method `TuyaLight::write_state`: the new members of the light and the
datapoint writes sent, in order. -/
def write_state (self : TuyaLight) (state : LightState) : TuyaLight × List TuyaDatapoint :=
  if self.inhibit_next_send_ then
    ({ self with inhibit_next_send_ := false }, [])
  else
    let brightness := state.brightness
    let is_on := !brightness.isZero
    let dimmer : List TuyaDatapoint :=
      match self.dimmer_id_ with
      | some d =>
        if is_on || self.zero_brightness_when_off_ then
          [{ TuyaDatapoint.zero with
              id := d, type := TuyaDatapointType.INTEGER,
              value_uint := to_raw self brightness }]
        else []
      | none => []
    let switch : List TuyaDatapoint :=
      match self.switch_id_ with
      | some s =>
        [{ TuyaDatapoint.zero with
            id := s, type := TuyaDatapointType.BOOLEAN, value_bool := is_on }]
      | none => []
    (self, dimmer ++ switch)

/-! ## The scenario of the specification -/

/-- The light of the scenario `dimmer_id=1, min=10, max=1000`. -/
def scenarioLight : TuyaLight :=
  { dimmer_id_ := some 1, switch_id_ := none, min_value_datapoint_id_ := none,
    min_value_ := 10, max_value_ := 1000, zero_brightness_when_off_ := false,
    inhibit_next_send_ := false }

/-- The light state of the scenario: on, brightness 0.5, and gamma 2.2 (the
`float` nearest to 2.2 is 9227469 / 2^22). -/
def scenarioState : LightState :=
  { is_on := true, has_transformer := false, gamma_correct := Flt.fin (9227469 / 4194304),
    brightness := Flt.fin (1 / 2) }

/-- The light of the boundary case `min_value=0, max_value=1000`. -/
def boundaryLight : TuyaLight :=
  { dimmer_id_ := some 1, switch_id_ := none, min_value_datapoint_id_ := none,
    min_value_ := 0, max_value_ := 1000, zero_brightness_when_off_ := false,
    inhibit_next_send_ := false }

/-- A light whose range is configured in inverted order: `min_value=10`,
`max_value=0`. -/
def invertedLight : TuyaLight :=
  { dimmer_id_ := some 1, switch_id_ := none, min_value_datapoint_id_ := none,
    min_value_ := 10, max_value_ := 0, zero_brightness_when_off_ := false,
    inhibit_next_send_ := false }

/-- A light whose range has more than `2^24` steps: `min_value=1`,
`max_value=16777220`. -/
def wideLight : TuyaLight :=
  { dimmer_id_ := some 1, switch_id_ := none, min_value_datapoint_id_ := none,
    min_value_ := 1, max_value_ := 16777220, zero_brightness_when_off_ := false,
    inhibit_next_send_ := false }

/-- A light whose range contains negative values: `min_value=-10`,
`max_value=10`. -/
def signedLight : TuyaLight :=
  { dimmer_id_ := some 1, switch_id_ := none, min_value_datapoint_id_ := none,
    min_value_ := -10, max_value_ := 10, zero_brightness_when_off_ := false,
    inhibit_next_send_ := false }

/-- A light whose range starts at 0 and has more than `2^24` steps:
`min_value=0`, `max_value=16777219`. -/
def wideZeroLight : TuyaLight :=
  { dimmer_id_ := some 1, switch_id_ := none, min_value_datapoint_id_ := none,
    min_value_ := 0, max_value_ := 16777219, zero_brightness_when_off_ := false,
    inhibit_next_send_ := false }

/-- A light whose range is the whole of `int32_t`: `min_value=-2^31`,
`max_value=2^31-1`.  The subtraction `max_value_ - min_value_` overflows. -/
def fullRangeLight : TuyaLight :=
  { dimmer_id_ := some 1, switch_id_ := none, min_value_datapoint_id_ := none,
    min_value_ := -2147483648, max_value_ := 2147483647, zero_brightness_when_off_ := false,
    inhibit_next_send_ := false }

/-- A light whose range is wider than the `float` significand: `min_value=0`,
`max_value=2^26`. -/
def coarseLight : TuyaLight :=
  { dimmer_id_ := some 1, switch_id_ := none, min_value_datapoint_id_ := none,
    min_value_ := 0, max_value_ := 67108864, zero_brightness_when_off_ := false,
    inhibit_next_send_ := false }

/-- A light whose range is in inverted order with `min_value` just above
`2^24`: `min_value=16777217`, `max_value=1`. -/
def invertedWideLight : TuyaLight :=
  { dimmer_id_ := some 1, switch_id_ := none, min_value_datapoint_id_ := none,
    min_value_ := 16777217, max_value_ := 1, zero_brightness_when_off_ := false,
    inhibit_next_send_ := false }

/-! ## Rounding: exactness and monotonicity -/

namespace Flt

theorem rne_intCast (z : ℤ) : rne (z : ℚ) = z := by
  simp [rne]

theorem floor_le_rne (q : ℚ) : ⌊q⌋ ≤ rne q := by
  unfold rne; split_ifs <;> omega

theorem rne_le_floor_add_one (q : ℚ) : rne q ≤ ⌊q⌋ + 1 := by
  unfold rne; split_ifs <;> omega

theorem rne_mono {a b : ℚ} (h : a ≤ b) : rne a ≤ rne b := by
  rcases lt_or_eq_of_le (Int.floor_mono h) with hlt | heq
  · calc rne a ≤ ⌊a⌋ + 1 := rne_le_floor_add_one a
      _ ≤ ⌊b⌋ := hlt
      _ ≤ rne b := floor_le_rne b
  · have hf : Int.fract a ≤ Int.fract b := by
      unfold Int.fract; rw [heq]; linarith
    unfold rne
    rw [heq]
    split_ifs <;> first | omega | linarith

theorem abs_rne_sub_le (q : ℚ) : |(rne q : ℚ) - q| ≤ 1 / 2 := by
  have h0 := Int.fract_nonneg q
  have h1 := Int.fract_lt_one q
  have hq : q = ⌊q⌋ + Int.fract q := (Int.floor_add_fract q).symm
  rw [abs_le]
  unfold rne
  split_ifs <;> push_cast <;> constructor <;> linarith

theorem ulp_pos (prec : ℕ) (emin : ℤ) (q : ℚ) : 0 < ulp prec emin q := by
  unfold ulp; positivity

theorem emin_le_binade (emin : ℤ) (q : ℚ) : emin ≤ binade emin q := le_max_right _ _

theorem abs_lt_zpow_binade (emin : ℤ) (q : ℚ) : |q| < 2 ^ (binade emin q + 1) := by
  have h := Int.lt_zpow_succ_log_self (b := 2) (by norm_num) |q|
  rw [Nat.cast_ofNat] at h
  refine lt_of_lt_of_le h (zpow_le_zpow_right₀ (by norm_num) ?_)
  have := le_max_left (Int.log 2 |q|) emin
  unfold binade; omega

theorem zpow_binade_le {emin : ℤ} {q : ℚ} (h : emin < binade emin q) (hq : q ≠ 0) :
    2 ^ binade emin q ≤ |q| := by
  have hb : binade emin q = Int.log 2 |q| := by
    unfold binade at h ⊢
    rcases max_cases (Int.log 2 |q|) emin with ⟨h1, _⟩ | ⟨h1, _⟩
    · exact h1
    · omega
  rw [hb]
  have h := Int.zpow_log_le_self (b := 2) (r := |q|) (by norm_num) (abs_pos.mpr hq)
  rwa [Nat.cast_ofNat] at h

theorem roundQ_zero (prec : ℕ) (emin : ℤ) : roundQ prec emin 0 = 0 := by
  simp [roundQ, rne]

/-- A value `m * 2 ^ k` with a `prec`-bit `m` and `k` not below the smallest
exponent is a value of the format: rounding leaves it unchanged. -/
theorem roundQ_repr (prec : ℕ) (emin : ℤ) (m k : ℤ) (hk : emin - ((prec : ℤ) - 1) ≤ k)
    (hm : |m| < 2 ^ prec) : roundQ prec emin ((m : ℚ) * 2 ^ k) = (m : ℚ) * 2 ^ k := by
  by_cases hm0 : m = 0
  · subst hm0; simp [roundQ_zero]
  set q : ℚ := (m : ℚ) * 2 ^ k with hq
  have h2k : (0 : ℚ) < 2 ^ k := by positivity
  have hq0 : q ≠ 0 := mul_ne_zero (Int.cast_ne_zero.mpr hm0) h2k.ne'
  have habs : |q| < 2 ^ ((prec : ℤ) + k) := by
    rw [hq, abs_mul, abs_of_pos h2k, zpow_add₀ (by norm_num : (2 : ℚ) ≠ 0)]
    refine mul_lt_mul_of_pos_right ?_ h2k
    have : ((|m| : ℤ) : ℚ) < ((2 ^ prec : ℤ) : ℚ) := Int.cast_lt.mpr hm
    simpa using this
  have hlog : Int.log 2 |q| < (prec : ℤ) + k := by
    rw [← Int.lt_zpow_iff_log_lt (by norm_num) (abs_pos.mpr hq0)]
    simpa using habs
  have hj : binade emin q - ((prec : ℤ) - 1) ≤ k := by
    unfold binade
    rcases max_cases (Int.log 2 |q|) emin with ⟨h1, _⟩ | ⟨h1, _⟩ <;> omega
  obtain ⟨n, hn⟩ : ∃ n : ℕ, k = binade emin q - ((prec : ℤ) - 1) + n :=
    ⟨(k - (binade emin q - ((prec : ℤ) - 1))).toNat, by omega⟩
  have hu : ulp prec emin q = 2 ^ (binade emin q - ((prec : ℤ) - 1)) := rfl
  have hupos := ulp_pos prec emin q
  have hdiv : q / ulp prec emin q = ((m * 2 ^ n : ℤ) : ℚ) := by
    rw [div_eq_iff hupos.ne', hq, hu]
    conv_lhs => rw [hn]
    rw [zpow_add₀ (by norm_num : (2 : ℚ) ≠ 0), zpow_natCast]
    push_cast; ring
  unfold roundQ
  rw [hdiv, rne_intCast, ← hdiv, div_mul_cancel₀ _ hupos.ne']

theorem roundQ_le_grid (prec : ℕ) (emin : ℤ) (q : ℚ) (z : ℤ)
    (h : q ≤ (z : ℚ) * ulp prec emin q) : roundQ prec emin q ≤ (z : ℚ) * ulp prec emin q := by
  have hu := ulp_pos prec emin q
  unfold roundQ
  refine mul_le_mul_of_nonneg_right ?_ hu.le
  have h1 : q / ulp prec emin q ≤ (z : ℚ) := (div_le_iff₀ hu).mpr h
  have := rne_mono h1
  rw [rne_intCast] at this
  exact_mod_cast this

theorem grid_le_roundQ (prec : ℕ) (emin : ℤ) (q : ℚ) (z : ℤ)
    (h : (z : ℚ) * ulp prec emin q ≤ q) : (z : ℚ) * ulp prec emin q ≤ roundQ prec emin q := by
  have hu := ulp_pos prec emin q
  unfold roundQ
  refine mul_le_mul_of_nonneg_right ?_ hu.le
  have h1 : (z : ℚ) ≤ q / ulp prec emin q := (le_div_iff₀ hu).mpr h
  have := rne_mono h1
  rw [rne_intCast] at this
  exact_mod_cast this

theorem roundQ_nonneg (prec : ℕ) (emin : ℤ) {q : ℚ} (h : 0 ≤ q) : 0 ≤ roundQ prec emin q := by
  have := grid_le_roundQ prec emin q 0 (by simpa using h)
  simpa using this

theorem roundQ_nonpos (prec : ℕ) (emin : ℤ) {q : ℚ} (h : q ≤ 0) : roundQ prec emin q ≤ 0 := by
  have := roundQ_le_grid prec emin q 0 (by simpa using h)
  simpa using this

theorem zpow_succ_binade_eq (prec : ℕ) (emin : ℤ) (q : ℚ) :
    (2 : ℚ) ^ (binade emin q + 1) = ((2 ^ prec : ℤ) : ℚ) * ulp prec emin q := by
  unfold ulp
  push_cast
  rw [← zpow_natCast, ← zpow_add₀ (by norm_num : (2 : ℚ) ≠ 0)]
  congr 1; ring

theorem zpow_binade_eq (prec : ℕ) (hp : 1 ≤ prec) (emin : ℤ) (q : ℚ) :
    (2 : ℚ) ^ (binade emin q) = ((2 ^ (prec - 1) : ℤ) : ℚ) * ulp prec emin q := by
  unfold ulp
  push_cast
  rw [← zpow_natCast, ← zpow_add₀ (by norm_num : (2 : ℚ) ≠ 0)]
  congr 1
  rw [Nat.cast_sub hp]; push_cast; ring

theorem roundQ_le_zpow (prec : ℕ) (emin : ℤ) (q : ℚ) :
    roundQ prec emin q ≤ 2 ^ (binade emin q + 1) := by
  rw [zpow_succ_binade_eq prec]
  apply roundQ_le_grid
  rw [← zpow_succ_binade_eq prec]
  exact le_trans (le_abs_self q) (abs_lt_zpow_binade emin q).le

theorem neg_zpow_le_roundQ (prec : ℕ) (emin : ℤ) (q : ℚ) :
    -(2 ^ (binade emin q + 1)) ≤ roundQ prec emin q := by
  have h : -(2 : ℚ) ^ (binade emin q + 1) = ((-(2 ^ prec) : ℤ) : ℚ) * ulp prec emin q := by
    rw [zpow_succ_binade_eq prec]; push_cast; ring
  rw [h]
  apply grid_le_roundQ
  rw [← h]
  have := abs_lt_zpow_binade emin q
  have := neg_abs_le q
  linarith

theorem zpow_le_roundQ (prec : ℕ) (hp : 1 ≤ prec) (emin : ℤ) {q : ℚ} (hq : 0 < q)
    (h : emin < binade emin q) : 2 ^ binade emin q ≤ roundQ prec emin q := by
  rw [zpow_binade_eq prec hp]
  apply grid_le_roundQ
  rw [← zpow_binade_eq prec hp]
  have := zpow_binade_le h hq.ne'
  rwa [abs_of_pos hq] at this

theorem roundQ_le_neg_zpow (prec : ℕ) (hp : 1 ≤ prec) (emin : ℤ) {q : ℚ} (hq : q < 0)
    (h : emin < binade emin q) : roundQ prec emin q ≤ -(2 ^ binade emin q) := by
  have h' : -(2 : ℚ) ^ (binade emin q) = ((-(2 ^ (prec - 1)) : ℤ) : ℚ) * ulp prec emin q := by
    rw [zpow_binade_eq prec hp]; push_cast; ring
  rw [h']
  apply roundQ_le_grid
  rw [← h']
  have := zpow_binade_le h hq.ne
  rw [abs_of_neg hq] at this
  linarith

theorem binade_mono (emin : ℤ) {x y : ℚ} (hx : x ≠ 0) (h : |x| ≤ |y|) :
    binade emin x ≤ binade emin y := by
  unfold binade
  exact max_le_max (Int.log_mono_right (abs_pos.mpr hx) h) le_rfl

theorem roundQ_mono_of_binade_eq (prec : ℕ) (emin : ℤ) {x y : ℚ} (h : x ≤ y)
    (hb : binade emin x = binade emin y) : roundQ prec emin x ≤ roundQ prec emin y := by
  have hu : ulp prec emin x = ulp prec emin y := by unfold ulp; rw [hb]
  have hpos := ulp_pos prec emin y
  unfold roundQ
  rw [hu]
  refine mul_le_mul_of_nonneg_right ?_ hpos.le
  exact_mod_cast rne_mono (div_le_div_of_nonneg_right h hpos.le)

/-- Rounding is monotone. -/
theorem roundQ_mono (prec : ℕ) (hp : 1 ≤ prec) (emin : ℤ) {x y : ℚ} (h : x ≤ y) :
    roundQ prec emin x ≤ roundQ prec emin y := by
  rcases le_or_lt x 0 with hx | hx
  · rcases le_or_lt 0 y with hy | hy
    · exact le_trans (roundQ_nonpos prec emin hx) (roundQ_nonneg prec emin hy)
    · -- both negative
      have hxn : x < 0 := lt_of_le_of_lt h hy
      have hab : |y| ≤ |x| := by rw [abs_of_neg hy, abs_of_neg hxn]; linarith
      rcases lt_or_eq_of_le (binade_mono emin hy.ne hab) with hlt | heq
      · have h1 := roundQ_le_neg_zpow prec hp emin hxn
          (lt_of_le_of_lt (emin_le_binade emin y) hlt)
        have h2 := neg_zpow_le_roundQ prec emin y
        have h3 : (2 : ℚ) ^ (binade emin y + 1) ≤ 2 ^ binade emin x :=
          zpow_le_zpow_right₀ (by norm_num) (by omega)
        linarith
      · exact roundQ_mono_of_binade_eq prec emin h heq.symm
  · have hy : 0 < y := lt_of_lt_of_le hx h
    have hab : |x| ≤ |y| := by rw [abs_of_pos hx, abs_of_pos hy]; exact h
    rcases lt_or_eq_of_le (binade_mono emin hx.ne' hab) with hlt | heq
    · have h1 := roundQ_le_zpow prec emin x
      have h2 := zpow_le_roundQ prec hp emin hy (lt_of_le_of_lt (emin_le_binade emin x) hlt)
      have h3 : (2 : ℚ) ^ (binade emin x + 1) ≤ 2 ^ binade emin y :=
        zpow_le_zpow_right₀ (by norm_num) (by omega)
      linarith
    · exact roundQ_mono_of_binade_eq prec emin h heq

theorem roundQ_zpow (prec : ℕ) (hp : 1 ≤ prec) (emin : ℤ) (k : ℤ)
    (hk : emin - ((prec : ℤ) - 1) ≤ k) : roundQ prec emin (2 ^ k) = 2 ^ k := by
  have h := roundQ_repr prec emin 1 k hk (by
    rw [abs_one]; exact one_lt_pow₀ (by norm_num) (by omega))
  simpa using h

theorem roundQ_neg_zpow (prec : ℕ) (hp : 1 ≤ prec) (emin : ℤ) (k : ℤ)
    (hk : emin - ((prec : ℤ) - 1) ≤ k) : roundQ prec emin (-(2 ^ k)) = -(2 ^ k) := by
  have h := roundQ_repr prec emin (-1) k hk (by
    rw [abs_neg, abs_one]; exact one_lt_pow₀ (by norm_num) (by omega))
  simpa using h

theorem abs_roundQ_le_zpow (prec : ℕ) (hp : 1 ≤ prec) (emin : ℤ) (k : ℤ)
    (hk : emin - ((prec : ℤ) - 1) ≤ k) {q : ℚ} (hq : |q| ≤ 2 ^ k) :
    |roundQ prec emin q| ≤ 2 ^ k := by
  rw [abs_le] at hq ⊢
  constructor
  · have := roundQ_mono prec hp emin hq.1
    rwa [roundQ_neg_zpow prec hp emin k hk] at this
  · have := roundQ_mono prec hp emin hq.2
    rwa [roundQ_zpow prec hp emin k hk] at this

theorem round_eq_fin (prec : ℕ) (emin emax : ℤ) {q : ℚ}
    (h : |roundQ prec emin q| < 2 ^ (emax + 1)) :
    round prec emin emax q = fin (roundQ prec emin q) := by
  unfold round
  simp only
  rw [if_neg (not_le.mpr h)]

theorem round_eq_fin_of_abs_le (prec : ℕ) (hp : 1 ≤ prec) (emin emax : ℤ) (k : ℤ)
    (hk : emin - ((prec : ℤ) - 1) ≤ k) (hke : k ≤ emax) {q : ℚ} (hq : |q| ≤ 2 ^ k) :
    round prec emin emax q = fin (roundQ prec emin q) := by
  apply round_eq_fin
  refine lt_of_le_of_lt (abs_roundQ_le_zpow prec hp emin k hk hq) ?_
  exact zpow_lt_zpow_right₀ (by norm_num) (by omega)

end Flt

/-- The rounding of `float`, as a rational. -/
theorem F32.round_eq_roundQ {q : ℚ} (hq : |q| ≤ 2 ^ (127 : ℤ)) :
    F32.round q = Flt.fin (Flt.roundQ 24 (-126) q) :=
  Flt.round_eq_fin_of_abs_le 24 (by norm_num) (-126) 127 127 (by norm_num) le_rfl hq

theorem F64.round_eq_roundQ64 {q : ℚ} (hq : |q| ≤ 2 ^ (1023 : ℤ)) :
    F64.round q = Flt.fin (Flt.roundQ 53 (-1022) q) :=
  Flt.round_eq_fin_of_abs_le 53 (by norm_num) (-1022) 1023 1023 (by norm_num) le_rfl hq

/-- Integers of at most 24 bits are `float` values. -/
theorem F32.ofInt_exact {n : ℤ} (hn : |n| < 2 ^ 24) : F32.ofInt n = Flt.fin n := by
  have hr : Flt.roundQ 24 (-126) (n : ℚ) = n := by
    have := Flt.roundQ_repr 24 (-126) n 0 (by norm_num) (by simpa using hn)
    simpa using this
  unfold F32.ofInt
  rw [F32.round_eq_roundQ, hr]
  have h1 : |(n : ℚ)| < 2 ^ 24 := by exact_mod_cast hn
  have h2 : (2 : ℚ) ^ 24 ≤ 2 ^ (127 : ℤ) := by norm_num
  linarith

/-- Integers of at most 53 bits are `double` values. -/
theorem F64.ofInt_exact64 {n : ℤ} (hn : |n| < 2 ^ 53) : F64.ofInt n = Flt.fin n := by
  have hr : Flt.roundQ 53 (-1022) (n : ℚ) = n := by
    have := Flt.roundQ_repr 53 (-1022) n 0 (by norm_num) (by simpa using hn)
    simpa using this
  unfold F64.ofInt
  rw [F64.round_eq_roundQ64, hr]
  have h1 : |(n : ℚ)| < 2 ^ 53 := by exact_mod_cast hn
  have h2 : (2 : ℚ) ^ 53 ≤ 2 ^ (1023 : ℤ) := by norm_num
  linarith

theorem F32.round_intCast {n : ℤ} (hn : |n| < 2 ^ 24) : F32.round (n : ℚ) = Flt.fin n :=
  F32.ofInt_exact hn

/-! ## The outbound and inbound paths -/

theorem wrapInt32_of_isInt32 {z : ℤ} (h : isInt32 z) : wrapInt32 z = z := by
  unfold isInt32 at h
  unfold wrapInt32
  omega

/-- C2: with the flag `inhibit_next_send_` set, `write_state` sends no datapoint
at all, clears the flag and changes no other member, whatever the
configuration and the light state are. -/
theorem write_state_inhibited (self : TuyaLight) (state : LightState)
    (h : self.inhibit_next_send_ = true) :
    (write_state self state).2 = [] ∧
      (write_state self state).1 = { self with inhibit_next_send_ := false } ∧
      (write_state self state).1.inhibit_next_send_ = false := by
  simp [write_state, h]

theorem write_state_inhibited_witness :
    (write_state
        { dimmer_id_ := some 1, switch_id_ := some 2, min_value_datapoint_id_ := none,
          min_value_ := 10, max_value_ := 1000, zero_brightness_when_off_ := true,
          inhibit_next_send_ := true }
        { is_on := true, has_transformer := false, gamma_correct := Flt.fin 1,
          brightness := Flt.fin (1 / 2) }).2 = [] :=
  (write_state_inhibited _ _ rfl).1

/-- C6: a dimmer datapoint received while the light is off or while a transition
is active is discarded: no request is issued and the light's members, the
flag `inhibit_next_send_` among them, stay exactly as they were. -/
theorem dimmer_listener_discards (powf : Flt → Flt → Flt) (self : TuyaLight)
    (state : LightState) (datapoint : TuyaDatapoint)
    (h : state.is_on = false ∨ state.has_transformer = true) :
    dimmer_listener powf self state datapoint = (self, []) := by
  rcases h with h | h <;> simp [dimmer_listener, h]

theorem dimmer_listener_discards_witness :
    dimmer_listener (fun x _ => x)
        { dimmer_id_ := some 1, switch_id_ := none, min_value_datapoint_id_ := none,
          min_value_ := 0, max_value_ := 255, zero_brightness_when_off_ := false,
          inhibit_next_send_ := false }
        { is_on := false, has_transformer := false, gamma_correct := Flt.fin 1,
          brightness := Flt.fin 0 }
        { TuyaDatapoint.zero with id := 1, type := TuyaDatapointType.INTEGER, value_uint := 0 } =
      ({ dimmer_id_ := some 1, switch_id_ := none, min_value_datapoint_id_ := none,
          min_value_ := 0, max_value_ := 255, zero_brightness_when_off_ := false,
          inhibit_next_send_ := false }, []) :=
  dimmer_listener_discards _ _ _ _ (Or.inl rfl)

/-- C7: the switch listener discards the datapoint while a transition is active
(no request, members unchanged); otherwise, whether the light is on or off, it
sets `inhibit_next_send_` and performs exactly one request, which sets the
on/off state to the received boolean and sets no brightness. -/
theorem switch_listener_spec (self : TuyaLight) (state : LightState)
    (datapoint : TuyaDatapoint) :
    (state.has_transformer = true → switch_listener self state datapoint = (self, [])) ∧
    (state.has_transformer = false →
      switch_listener self state datapoint =
        ({ self with inhibit_next_send_ := true },
          [{ brightness := none, state := some datapoint.value_bool }])) := by
  constructor <;> intro h <;> simp [switch_listener, h, LightCall.empty]

theorem switch_listener_spec_witness :
    switch_listener
        { dimmer_id_ := none, switch_id_ := some 2, min_value_datapoint_id_ := none,
          min_value_ := 0, max_value_ := 255, zero_brightness_when_off_ := false,
          inhibit_next_send_ := false }
        { is_on := false, has_transformer := false, gamma_correct := Flt.fin 1,
          brightness := Flt.fin 0 }
        { TuyaDatapoint.zero with id := 2, value_bool := true } =
      ({ dimmer_id_ := none, switch_id_ := some 2, min_value_datapoint_id_ := none,
          min_value_ := 0, max_value_ := 255, zero_brightness_when_off_ := false,
          inhibit_next_send_ := true },
        [{ brightness := none, state := some true }]) :=
  (switch_listener_spec _ _ _).2 rfl

/-- C3: loop prevention is single-shot.  After an accepted inbound event (a dimmer
datapoint while the light is on with no transition, or a switch datapoint with
no transition) the next `write_state` sends nothing; the `write_state` directly
after that one is not suppressed: it does what a commit with the flag clear
does, leaves the flag clear, and in particular sends the switch datapoint when
`switch_id_` is configured. -/
theorem inhibit_single_shot (powf : Flt → Flt → Flt) (self s1 : TuyaLight)
    (st st1 st2 : LightState) (datapoint : TuyaDatapoint)
    (hacc : (st.is_on = true ∧ st.has_transformer = false ∧
              s1 = (dimmer_listener powf self st datapoint).1) ∨
            (st.has_transformer = false ∧ s1 = (switch_listener self st datapoint).1)) :
    (write_state s1 st1).2 = [] ∧
    write_state (write_state s1 st1).1 st2 =
      write_state { self with inhibit_next_send_ := false } st2 ∧
    (write_state (write_state s1 st1).1 st2).1.inhibit_next_send_ = false ∧
    (∀ s, self.switch_id_ = some s →
      ({ id := s, type := TuyaDatapointType.BOOLEAN,
         value_bool := !st2.brightness.isZero, value_uint := 0 } : TuyaDatapoint) ∈
        (write_state (write_state s1 st1).1 st2).2) := by
  have hs1 : s1 = { self with inhibit_next_send_ := true } := by
    rcases hacc with ⟨h1, h2, h3⟩ | ⟨h2, h3⟩
    · rw [h3]; simp [dimmer_listener, h1, h2]
    · rw [h3]; simp [switch_listener, h2]
  subst hs1
  refine ⟨by simp [write_state], by simp [write_state], by simp [write_state], ?_⟩
  intro s hs
  simp [write_state, hs, TuyaDatapoint.zero]

theorem inhibit_single_shot_witness :
    (write_state
      (switch_listener
        { dimmer_id_ := some 1, switch_id_ := some 2, min_value_datapoint_id_ := none,
          min_value_ := 10, max_value_ := 1000, zero_brightness_when_off_ := false,
          inhibit_next_send_ := false }
        { is_on := false, has_transformer := false, gamma_correct := Flt.fin 1,
          brightness := Flt.fin 0 }
        { TuyaDatapoint.zero with id := 2, value_bool := true }).1
      { is_on := true, has_transformer := false, gamma_correct := Flt.fin 1,
        brightness := Flt.fin 1 }).2 = [] :=
  (inhibit_single_shot (fun x _ => x) _ _
    { is_on := false, has_transformer := false, gamma_correct := Flt.fin 1,
      brightness := Flt.fin 0 } _
    { is_on := true, has_transformer := false, gamma_correct := Flt.fin 1,
      brightness := Flt.fin 1 }
    { TuyaDatapoint.zero with id := 2, value_bool := true } (Or.inr ⟨rfl, rfl⟩)).1

/-- C4, as stated, fails: a `write_state` that is not suppressed does not set
`inhibit_next_send_`, and the switch datapoint received right after it is not
discarded: its request is performed. -/
theorem write_state_arms_counterexample :
    ¬ ((write_state
          { dimmer_id_ := none, switch_id_ := some 2, min_value_datapoint_id_ := none,
            min_value_ := 0, max_value_ := 255, zero_brightness_when_off_ := false,
            inhibit_next_send_ := false }
          { is_on := true, has_transformer := false, gamma_correct := Flt.fin 1,
            brightness := Flt.fin 1 }).1.inhibit_next_send_ = true) ∧
    ¬ ((switch_listener
          (write_state
            { dimmer_id_ := none, switch_id_ := some 2, min_value_datapoint_id_ := none,
              min_value_ := 0, max_value_ := 255, zero_brightness_when_off_ := false,
              inhibit_next_send_ := false }
            { is_on := true, has_transformer := false, gamma_correct := Flt.fin 1,
              brightness := Flt.fin 1 }).1
          { is_on := true, has_transformer := false, gamma_correct := Flt.fin 1,
            brightness := Flt.fin 1 }
          { TuyaDatapoint.zero with id := 2, value_bool := false }).2 = []) := by
  constructor <;> simp [write_state, switch_listener]

/-- C4, amended: a `write_state` that is not suppressed leaves every member of the
light as it was, the flag `inhibit_next_send_` clear; the flag is set by the
listeners only.  Hence the inbound event right after it is processed, however
many datapoints the call wrote: an accepted dimmer or switch datapoint gets
its single request performed and sets the flag. -/
theorem write_state_does_not_arm (powf : Flt → Flt → Flt) (self : TuyaLight)
    (st st1 : LightState) (datapoint : TuyaDatapoint)
    (h : self.inhibit_next_send_ = false) :
    (write_state self st).1 = self ∧
    (st1.is_on = true → st1.has_transformer = false →
      (dimmer_listener powf (write_state self st).1 st1 datapoint).2.length = 1 ∧
      (dimmer_listener powf (write_state self st).1 st1 datapoint).1.inhibit_next_send_
        = true) ∧
    (st1.has_transformer = false →
      (switch_listener (write_state self st).1 st1 datapoint).2 =
        [{ brightness := none, state := some datapoint.value_bool }] ∧
      (switch_listener (write_state self st).1 st1 datapoint).1.inhibit_next_send_
        = true) := by
  have h0 : (write_state self st).1 = self := by simp [write_state, h]
  rw [h0]
  refine ⟨rfl, ?_, ?_⟩
  · intro h1 h2; simp [dimmer_listener, h1, h2]
  · intro h2; simp [switch_listener, h2, LightCall.empty]

theorem write_state_does_not_arm_witness :
    (write_state
        { dimmer_id_ := none, switch_id_ := some 2, min_value_datapoint_id_ := none,
          min_value_ := 0, max_value_ := 255, zero_brightness_when_off_ := false,
          inhibit_next_send_ := false }
        { is_on := true, has_transformer := false, gamma_correct := Flt.fin 1,
          brightness := Flt.fin 1 }).1 =
      { dimmer_id_ := none, switch_id_ := some 2, min_value_datapoint_id_ := none,
        min_value_ := 0, max_value_ := 255, zero_brightness_when_off_ := false,
        inhibit_next_send_ := false } :=
  (write_state_does_not_arm (fun x _ => x) _ _
    { is_on := true, has_transformer := false, gamma_correct := Flt.fin 1,
      brightness := Flt.fin 1 }
    { TuyaDatapoint.zero with id := 2, value_bool := false } rfl).1

theorem Flt.toUInt32_intCast {c : ℤ} (h0 : 0 ≤ c) (h1 : c < 2 ^ 32) :
    Flt.toUInt32 (Flt.fin (c : ℚ)) = c.toNat := by
  unfold Flt.toUInt32
  have : (0 : ℚ) ≤ (c : ℚ) := by exact_mod_cast h0
  simp only [this, if_true, Int.floor_intCast]
  rw [Int.emod_eq_of_lt h0 h1]

theorem clamp_sub_abs_lt {mn mx r : ℤ} {B : ℤ} (h : |mx - mn| < B) :
    |min (max mn mx) (max (min mn mx) r) - mn| < B := by
  rw [abs_lt] at h ⊢
  omega

theorem F32.div_ofInt {a b : ℤ} (ha : |a| < 2 ^ 24) (hb : |b| < 2 ^ 24) (hb0 : b ≠ 0) :
    F32.div (F32.ofInt a) (F32.ofInt b) = F32.round ((a : ℚ) / b) := by
  rw [F32.ofInt_exact ha, F32.ofInt_exact hb]
  have : (b : ℚ) ≠ 0 := by exact_mod_cast hb0
  simp [F32.div, Flt.div, this]

theorem to_raw_scenario : to_raw scenarioLight (Flt.fin (1 / 2)) = 505 := by
  have h1 : wrapInt32 (1000 - 10) = 990 := by decide
  have h2 : F32.mul (Flt.fin (1 / 2)) (F32.ofInt 990) = Flt.fin ((495 : ℤ) : ℚ) := by
    rw [F32.ofInt_exact (by norm_num)]
    have : ((1 : ℚ) / 2) * ((990 : ℤ) : ℚ) = ((495 : ℤ) : ℚ) := by norm_num
    show F32.round _ = _
    rw [this, F32.round_intCast (by norm_num)]
  have h3 : F32.add (Flt.fin ((495 : ℤ) : ℚ)) (F32.ofInt 10) = Flt.fin ((505 : ℤ) : ℚ) := by
    rw [F32.ofInt_exact (by norm_num)]
    have : (((495 : ℤ) : ℚ)) + ((10 : ℤ) : ℚ) = ((505 : ℤ) : ℚ) := by norm_num
    show F32.round _ = _
    rw [this, F32.round_intCast (by norm_num)]
  have hz : (Flt.fin (1 / 2)).isZero = false := by simp [Flt.isZero]
  show Flt.toUInt32 (if (!(Flt.fin (1 / 2)).isZero) = true then
      Flt.ceil (F32.add (F32.mul (Flt.fin (1 / 2)) (F32.ofInt (wrapInt32 (1000 - 10))))
        (F32.ofInt 10)) else F32.ofInt 0) = 505
  rw [hz, h1, h2, h3, Bool.not_false, if_pos rfl]
  show Flt.toUInt32 (Flt.fin ((⌈((505 : ℤ) : ℚ)⌉ : ℤ) : ℚ)) = 505
  rw [Int.ceil_intCast, Flt.toUInt32_intCast (by norm_num) (by norm_num)]
  rfl

/-- What `write_state` does when the flag is clear: the members are unchanged, the
dimmer datapoint is sent when `dimmer_id_` is set and the light is on or
`zero_brightness_when_off_` holds, then the switch datapoint when `switch_id_`
is set. -/
theorem write_state_of_clear (self : TuyaLight) (state : LightState)
    (h : self.inhibit_next_send_ = false) :
    write_state self state =
      (self,
        (match self.dimmer_id_ with
          | some d =>
            if (!state.brightness.isZero || self.zero_brightness_when_off_) = true then
              [{ id := d, type := TuyaDatapointType.INTEGER, value_bool := false,
                 value_uint := to_raw self state.brightness }]
            else []
          | none => []) ++
        (match self.switch_id_ with
          | some s =>
            [{ id := s, type := TuyaDatapointType.BOOLEAN,
               value_bool := !state.brightness.isZero, value_uint := 0 }]
          | none => [])) := by
  simp only [write_state, h, TuyaDatapoint.zero]
  rfl

/-! ## The inbound mapping: sign and bounds -/

namespace Flt

theorem zpow_le_roundQ_of_le (prec : ℕ) (hp : 1 ≤ prec) (emin : ℤ) (k : ℤ)
    (hk : emin - ((prec : ℤ) - 1) ≤ k) {q : ℚ} (hq : 2 ^ k ≤ q) :
    2 ^ k ≤ roundQ prec emin q := by
  have := roundQ_mono prec hp emin hq
  rwa [roundQ_zpow prec hp emin k hk] at this

theorem roundQ_le_zpow_of_le (prec : ℕ) (hp : 1 ≤ prec) (emin : ℤ) (k : ℤ)
    (hk : emin - ((prec : ℤ) - 1) ≤ k) {q : ℚ} (hq : q ≤ 2 ^ k) :
    roundQ prec emin q ≤ 2 ^ k := by
  have := roundQ_mono prec hp emin hq
  rwa [roundQ_zpow prec hp emin k hk] at this

theorem roundQ_le_neg_zpow_of_le (prec : ℕ) (hp : 1 ≤ prec) (emin : ℤ) (k : ℤ)
    (hk : emin - ((prec : ℤ) - 1) ≤ k) {q : ℚ} (hq : q ≤ -(2 ^ k)) :
    roundQ prec emin q ≤ -(2 ^ k) := by
  have := roundQ_mono prec hp emin hq
  rwa [roundQ_neg_zpow prec hp emin k hk] at this

end Flt

/-- The `float` nearest to `q`, as a rational (no overflow for `|q| ≤ 2^127`). -/
theorem F32.roundQ_one_le {q : ℚ} (hq : 1 ≤ q) : 1 ≤ Flt.roundQ 24 (-126) q := by
  have := Flt.zpow_le_roundQ_of_le 24 (by norm_num) (-126) 0 (by norm_num) (by simpa using hq)
  simpa using this

theorem F32.roundQ_le_neg_one {q : ℚ} (hq : q ≤ -1) : Flt.roundQ 24 (-126) q ≤ -1 := by
  have := Flt.roundQ_le_neg_zpow_of_le 24 (by norm_num) (-126) 0 (by norm_num)
    (by simpa using hq)
  simpa using this

/-- Conversion of an `int32_t` to `float` is finite. -/
theorem F32.ofInt_eq {n : ℤ} (hn : |n| ≤ 2 ^ 31) :
    F32.ofInt n = Flt.fin (Flt.roundQ 24 (-126) n) := by
  unfold F32.ofInt
  apply F32.round_eq_roundQ
  have h1 : |(n : ℚ)| ≤ 2 ^ 31 := by exact_mod_cast hn
  have h2 : (2 : ℚ) ^ 31 ≤ 2 ^ (127 : ℤ) := by norm_num
  linarith

theorem F32.abs_roundQ_intCast_le {n : ℤ} (hn : |n| ≤ 2 ^ 31) :
    |Flt.roundQ 24 (-126) (n : ℚ)| ≤ 2 ^ 31 := by
  have h1 : |(n : ℚ)| ≤ 2 ^ (31 : ℤ) := by exact_mod_cast hn
  have := Flt.abs_roundQ_le_zpow 24 (by norm_num) (-126) 31 (by norm_num) h1
  exact_mod_cast this

theorem clamp_sub_facts {mn mx r : ℤ} (hne : mn ≠ mx) :
    let a := min (max mn mx) (max (min mn mx) r) - mn
    let b := mx - mn
    (0 ≤ a ∧ a ≤ b ∧ 1 ≤ b) ∨ (b ≤ a ∧ a ≤ 0 ∧ b ≤ -1) := by
  intro a b
  simp only [a, b]
  omega

theorem F32.roundQ_intCast_nonneg {n : ℤ} (h : 0 ≤ n) : 0 ≤ Flt.roundQ 24 (-126) (n : ℚ) :=
  Flt.roundQ_nonneg 24 (-126) (by exact_mod_cast h)

theorem F32.roundQ_intCast_nonpos {n : ℤ} (h : n ≤ 0) : Flt.roundQ 24 (-126) (n : ℚ) ≤ 0 :=
  Flt.roundQ_nonpos 24 (-126) (by exact_mod_cast h)

theorem F32.roundQ_intCast_mono {m n : ℤ} (h : m ≤ n) :
    Flt.roundQ 24 (-126) (m : ℚ) ≤ Flt.roundQ 24 (-126) (n : ℚ) :=
  Flt.roundQ_mono 24 (by norm_num) (-126) (by exact_mod_cast h)

theorem F32.roundQ_one : Flt.roundQ 24 (-126) 1 = 1 := by
  have := Flt.roundQ_zpow 24 (by norm_num) (-126) 0 (by norm_num)
  simpa using this

/-- Division of two finite `float` values whose quotient does not overflow. -/
theorem F32.div_fin {a b : ℚ} (hb : b ≠ 0) (h : |a / b| ≤ 2 ^ (127 : ℤ)) :
    F32.div (Flt.fin a) (Flt.fin b) = Flt.fin (Flt.roundQ 24 (-126) (a / b)) := by
  show (if b = 0 then _ else F32.round (a / b)) = _
  rw [if_neg hb, F32.round_eq_roundQ h]

/-- The linear part of the inbound mapping, for a configuration whose difference
`max_value - min_value` does not overflow: a finite value in `[0, 1]`, namely
the quotient of the two converted integers rounded to `float`. -/
theorem linear_part_eq {mn mx r : ℤ} (hne : mn ≠ mx) (hno : |mx - mn| < 2 ^ 31) :
    let a := min (max mn mx) (max (min mn mx) r) - mn
    let b := mx - mn
    let x := Flt.roundQ 24 (-126)
      (Flt.roundQ 24 (-126) (a : ℚ) / Flt.roundQ 24 (-126) (b : ℚ))
    F32.div (F32.ofInt (wrapInt32 a)) (F32.ofInt (wrapInt32 b)) = Flt.fin x ∧
      0 ≤ x ∧ x ≤ 1 := by
  intro a b x
  have hf := clamp_sub_facts (r := r) hne
  simp only at hf
  have hb31 : |b| < 2 ^ 31 := hno
  have ha31 : |a| < 2 ^ 31 := by
    rw [abs_lt] at hb31 ⊢
    rcases hf with ⟨h1, h2, h3⟩ | ⟨h1, h2, h3⟩ <;> constructor <;> omega
  have wa : wrapInt32 a = a := wrapInt32_of_isInt32 (by
    rw [abs_lt] at ha31; constructor <;> omega)
  have wb : wrapInt32 b = b := wrapInt32_of_isInt32 (by
    rw [abs_lt] at hb31; constructor <;> omega)
  set A := Flt.roundQ 24 (-126) (a : ℚ) with hA
  set B := Flt.roundQ 24 (-126) (b : ℚ) with hB
  have hAB : (0 ≤ A ∧ A ≤ B ∧ 1 ≤ B) ∨ (B ≤ A ∧ A ≤ 0 ∧ B ≤ -1) := by
    rcases hf with ⟨h1, h2, h3⟩ | ⟨h1, h2, h3⟩
    · exact Or.inl ⟨F32.roundQ_intCast_nonneg h1, F32.roundQ_intCast_mono h2,
        F32.roundQ_one_le (by exact_mod_cast h3)⟩
    · exact Or.inr ⟨F32.roundQ_intCast_mono h1, F32.roundQ_intCast_nonpos h2,
        F32.roundQ_le_neg_one (by exact_mod_cast h3)⟩
  have hB0 : B ≠ 0 := by
    rcases hAB with ⟨_, _, h⟩ | ⟨_, _, h⟩ <;> linarith
  have hq : 0 ≤ A / B ∧ A / B ≤ 1 := by
    rcases hAB with ⟨h1, h2, h3⟩ | ⟨h1, h2, h3⟩
    · have hBpos : 0 < B := by linarith
      exact ⟨div_nonneg h1 hBpos.le, (div_le_one hBpos).mpr h2⟩
    · have hBneg : B < 0 := by linarith
      exact ⟨div_nonneg_of_nonpos h2 hBneg.le, (div_le_one_of_neg hBneg).mpr h1⟩
  have hx0 : 0 ≤ x := Flt.roundQ_nonneg 24 (-126) hq.1
  have hx1 : x ≤ 1 := by
    have := Flt.roundQ_mono 24 (by norm_num) (-126) hq.2
    rwa [F32.roundQ_one] at this
  refine ⟨?_, hx0, hx1⟩
  rw [wa, wb, F32.ofInt_eq (le_of_lt ha31), F32.ofInt_eq (le_of_lt hb31)]
  apply F32.div_fin hB0
  rw [abs_of_nonneg hq.1]
  have : (1 : ℚ) ≤ 2 ^ (127 : ℤ) := by norm_num
  linarith

theorem Flt.round_ne_nan (prec : ℕ) (emin emax : ℤ) (q : ℚ) :
    Flt.round prec emin emax q ≠ Flt.nan := by
  unfold Flt.round
  simp only
  split_ifs <;> simp

theorem F32.ofFlt_ne_nan {x : Flt} (h : x ≠ Flt.nan) : F32.ofFlt x ≠ Flt.nan := by
  cases x with
  | fin q => exact Flt.round_ne_nan _ _ _ q
  | inf n => simp [F32.ofFlt]
  | nan => exact absurd rfl h

/-- The exponent `1.0 / gamma` passed to `powf` is not NaN when gamma is positive. -/
theorem exponent_ne_nan {gamma : Flt} (h : gamma.isPos = true) :
    F32.ofFlt (F64.div (Flt.fin 1) gamma) ≠ Flt.nan := by
  apply F32.ofFlt_ne_nan
  cases gamma with
  | fin g =>
    have hg : g ≠ 0 := by
      simp only [Flt.isPos, decide_eq_true_eq] at h
      exact h.ne'
    show (if g = 0 then _ else F64.round (1 / g)) ≠ Flt.nan
    rw [if_neg hg]
    exact Flt.round_ne_nan _ _ _ _
  | inf n => simp [F64.div, Flt.div]
  | nan => simp [Flt.isPos] at h

/-- The replacement value `1.0 / (upper - lower)` of the dimmer listener, for
`0 < upper - lower < 2^31`: the reciprocal rounded to `double` and then to
`float`, a finite value in `[2^-31, 1]`. -/
theorem correction_eq {d : ℤ} (h1 : 1 ≤ d) (h2 : d < 2 ^ 31) :
    let c := Flt.roundQ 24 (-126) (Flt.roundQ 53 (-1022) (1 / (d : ℚ)))
    F32.ofFlt (F64.div (Flt.fin 1) (F64.ofInt (wrapInt32 d))) = Flt.fin c ∧
      2 ^ (-31 : ℤ) ≤ c ∧ c ≤ 1 := by
  intro c
  have hw : wrapInt32 d = d := wrapInt32_of_isInt32 ⟨by omega, h2⟩
  have hd0 : (d : ℚ) ≠ 0 := by
    have : (1 : ℚ) ≤ d := by exact_mod_cast h1
    linarith
  have hdpos : (0 : ℚ) < d := by
    have : (1 : ℚ) ≤ d := by exact_mod_cast h1
    linarith
  have hq1 : 1 / (d : ℚ) ≤ 1 := by
    rw [div_le_one hdpos]; exact_mod_cast h1
  have hq0 : (2 : ℚ) ^ (-31 : ℤ) ≤ 1 / (d : ℚ) := by
    rw [zpow_neg, ← one_div]
    apply one_div_le_one_div_of_le hdpos
    have : (d : ℚ) < 2 ^ 31 := by exact_mod_cast h2
    exact_mod_cast this.le
  set y := Flt.roundQ 53 (-1022) (1 / (d : ℚ)) with hy
  have hy0 : (2 : ℚ) ^ (-31 : ℤ) ≤ y :=
    Flt.zpow_le_roundQ_of_le 53 (by norm_num) (-1022) (-31) (by norm_num) hq0
  have hy1 : y ≤ 1 := by
    have h : y ≤ 2 ^ (0 : ℤ) :=
      Flt.roundQ_le_zpow_of_le 53 (by norm_num) (-1022) 0 (by norm_num)
        (by rw [zpow_zero]; exact hq1)
    rwa [zpow_zero] at h
  have hc0 : (2 : ℚ) ^ (-31 : ℤ) ≤ c :=
    Flt.zpow_le_roundQ_of_le 24 (by norm_num) (-126) (-31) (by norm_num) hy0
  have hc1 : c ≤ 1 := by
    have h : c ≤ 2 ^ (0 : ℤ) :=
      Flt.roundQ_le_zpow_of_le 24 (by norm_num) (-126) 0 (by norm_num)
        (by rw [zpow_zero]; exact hy1)
    rwa [zpow_zero] at h
  have hpos31 : (0 : ℚ) < 2 ^ (-31 : ℤ) := by positivity
  have big64 : (1 : ℚ) ≤ 2 ^ (1023 : ℤ) := one_le_zpow₀ (by norm_num) (by norm_num)
  have big32 : (1 : ℚ) ≤ 2 ^ (127 : ℤ) := one_le_zpow₀ (by norm_num) (by norm_num)
  refine ⟨?_, hc0, hc1⟩
  rw [hw, F64.ofInt_exact64 (by rw [abs_lt]; constructor <;> omega)]
  have e1 : F64.div (Flt.fin 1) (Flt.fin (d : ℚ)) = Flt.fin y := by
    show (if (d : ℚ) = 0 then _ else F64.round (1 / (d : ℚ))) = _
    rw [if_neg hd0]
    apply F64.round_eq_roundQ64
    rw [abs_of_nonneg (by positivity)]
    linarith
  rw [e1]
  show F32.round y = _
  apply F32.round_eq_roundQ
  rw [abs_of_nonneg (by linarith)]
  linarith

theorem Flt.isPos_of_isNonneg {x : Flt} (h : x.isNonneg = true) (hz : x.isZero = false) :
    x.isPos = true := by
  cases x with
  | fin q =>
    simp only [Flt.isNonneg, Flt.isZero, Flt.isPos, decide_eq_true_eq,
      decide_eq_false_iff_not] at h hz ⊢
    exact lt_of_le_of_ne h (Ne.symm hz)
  | inf n => simpa [Flt.isNonneg, Flt.isPos] using h
  | nan => simp [Flt.isNonneg] at h

/-- C8: for a configuration with `lower = min (min_value, max_value) > 0` and
`min_value != max_value`, every positive gamma and every received word, the
brightness the dimmer listener computes is strictly positive: when the power
`powf (linear, 1 / gamma)` is zero it is replaced by `1.0 / (upper - lower)`,
which is positive.  The C library's `powf` is a parameter; what is used of it
is that it returns a value that is not negative (and not NaN) for a base that
is not negative and an exponent that is not NaN. -/
theorem to_brightness_pos (powf : Flt → Flt → Flt)
    (hpow : ∀ x e, x.isNonneg = true → e ≠ Flt.nan → (powf x e).isNonneg = true)
    (self : TuyaLight) (gamma : Flt) (value_uint : ℕ)
    (hmin : isInt32 self.min_value_) (hmax : isInt32 self.max_value_)
    (hlower : 0 < min self.min_value_ self.max_value_)
    (hne : self.min_value_ ≠ self.max_value_) (hgamma : gamma.isPos = true) :
    (to_brightness powf self gamma value_uint).isPos = true ∧
    ((powf
        (F32.div
          (F32.ofInt (wrapInt32
            (min (max self.min_value_ self.max_value_)
              (max (min self.min_value_ self.max_value_) (wrapInt32 value_uint)) -
              self.min_value_)))
          (F32.ofInt (wrapInt32 (self.max_value_ - self.min_value_))))
        (F32.ofFlt (F64.div (Flt.fin 1) gamma))).isZero = true →
      to_brightness powf self gamma value_uint =
        F32.ofFlt (F64.div (Flt.fin 1)
          (F64.ofInt (wrapInt32
            (max self.min_value_ self.max_value_ - min self.min_value_ self.max_value_))))) ∧
    (∀ (state : LightState) (datapoint : TuyaDatapoint), state.gamma_correct = gamma →
      datapoint.value_uint = value_uint →
      ∀ call ∈ (dimmer_listener powf self state datapoint).2,
        ∃ b, call.brightness = some b ∧ b.isPos = true) := by
  obtain ⟨hmin1, hmin2⟩ := hmin
  obtain ⟨hmax1, hmax2⟩ := hmax
  have hno : |self.max_value_ - self.min_value_| < 2 ^ 31 := by
    rw [abs_lt]; constructor <;> omega
  obtain ⟨hlin, hx0, _⟩ := linear_part_eq (r := wrapInt32 value_uint) hne hno
  obtain ⟨hcorr, hc0, _⟩ := correction_eq
    (d := max self.min_value_ self.max_value_ - min self.min_value_ self.max_value_)
    (by omega) (by omega)
  have hpw := hpow _ _ (show (Flt.fin _).isNonneg = true from decide_eq_true hx0)
    (exponent_ne_nan hgamma)
  rw [← hlin] at hpw
  have hcpos : (F32.ofFlt (F64.div (Flt.fin 1)
      (F64.ofInt (wrapInt32
        (max self.min_value_ self.max_value_ - min self.min_value_ self.max_value_))))).isPos
      = true := by
    rw [hcorr]
    have : (0 : ℚ) < 2 ^ (-31 : ℤ) := by positivity
    exact decide_eq_true (lt_of_lt_of_le this hc0)
  have key : (to_brightness powf self gamma value_uint).isPos = true := by
    unfold to_brightness
    simp only
    split_ifs with h
    · exact hcpos
    · apply Flt.isPos_of_isNonneg hpw
      have := not_and.mp h hlower
      simpa using this
  refine ⟨key, ?_, ?_⟩
  · intro hz
    unfold to_brightness
    simp only
    rw [if_pos ⟨hlower, hz⟩]
  · intro state datapoint hg hv call hcall
    unfold dimmer_listener at hcall
    split_ifs at hcall with h
    · simp at hcall
    · simp only [List.mem_singleton] at hcall
      subst hcall
      exact ⟨_, rfl, by rw [hg, hv]; exact key⟩

theorem to_brightness_pos_witness :
    (to_brightness (fun x _ => x) scenarioLight (Flt.fin 1) 10).isPos = true :=
  (to_brightness_pos (fun x _ => x) (fun _ _ h _ => h) scenarioLight (Flt.fin 1) 10
    (by decide) (by decide) (by decide) (by decide) (by simp [Flt.isPos])).1

/-! ## The boundary case -/

namespace Flt

theorem rne_eq_of_abs_sub_lt {t : ℚ} {m : ℤ} (h : |t - m| < 1 / 2) : rne t = m := by
  have h1 := abs_rne_sub_le t
  rw [abs_lt] at h
  rw [abs_le] at h1
  have h2 : ((rne t - m : ℤ) : ℚ) < 1 := by push_cast; linarith
  have h3 : ((-1 : ℤ) : ℚ) < ((rne t - m : ℤ) : ℚ) := by push_cast; linarith
  have h4 : rne t - m < 1 := by exact_mod_cast h2
  have h5 : -1 < rne t - m := by exact_mod_cast h3
  omega

theorem log_eq_of_bounds {q : ℚ} {e : ℤ} (h1 : 2 ^ e ≤ |q|) (h2 : |q| < 2 ^ (e + 1)) :
    Int.log 2 |q| = e := by
  have hpos : 0 < |q| := lt_of_lt_of_le (by positivity) h1
  have a : e ≤ Int.log 2 |q| := by
    rw [← Int.zpow_le_iff_le_log (by norm_num) hpos]
    simpa using h1
  have b : Int.log 2 |q| < e + 1 := by
    rw [← Int.lt_zpow_iff_log_lt (by norm_num) hpos]
    simpa using h2
  omega

/-- Rounding of a normal number whose binade is known. -/
theorem roundQ_eval (prec : ℕ) (emin : ℤ) {q : ℚ} {e : ℤ} (he : emin ≤ e)
    (h1 : 2 ^ e ≤ |q|) (h2 : |q| < 2 ^ (e + 1)) :
    roundQ prec emin q =
      (rne (q / 2 ^ (e - ((prec : ℤ) - 1))) : ℚ) * 2 ^ (e - ((prec : ℤ) - 1)) := by
  unfold roundQ ulp binade
  rw [log_eq_of_bounds h1 h2, max_eq_left he]

end Flt

theorem F32.round_milli : F32.round (1 / 1000) = Flt.fin (8589935 / 8589934592) := by
  have hq : |(1 / 1000 : ℚ)| = 1 / 1000 := abs_of_pos (by norm_num)
  have h := Flt.roundQ_eval 24 (-126) (q := 1 / 1000) (e := -10) (by norm_num)
    (by rw [hq]; norm_num) (by rw [hq]; norm_num)
  have hr : Flt.rne ((1 / 1000 : ℚ) / 2 ^ ((-10 : ℤ) - (((24 : ℕ) : ℤ) - 1))) = 8589935 := by
    apply Flt.rne_eq_of_abs_sub_lt
    norm_num [abs_lt]
  rw [hr] at h
  rw [F32.round_eq_roundQ (by rw [hq]; norm_num), h]
  norm_num

theorem Flt.div_fin_fin (rnd : ℚ → Flt) (a : ℚ) {b : ℚ} (hb : b ≠ 0) :
    Flt.div rnd (Flt.fin a) (Flt.fin b) = rnd (a / b) := by
  simp [Flt.div, hb]

theorem F32.round_one : F32.round 1 = Flt.fin 1 := by
  have := F32.round_intCast (n := 1) (by norm_num)
  simpa using this

theorem F64.round_one64 : F64.round 1 = Flt.fin 1 := by
  have := F64.ofInt_exact64 (n := 1) (by norm_num)
  simpa [F64.ofInt] using this

/-- The exponent `1.0 / gamma` for gamma 1. -/
theorem exponent_one : F32.ofFlt (F64.div (Flt.fin 1) (Flt.fin 1)) = Flt.fin 1 := by
  have h : F64.div (Flt.fin 1) (Flt.fin 1) = Flt.fin 1 := by
    show Flt.div F64.round (Flt.fin 1) (Flt.fin 1) = _
    rw [Flt.div_fin_fin F64.round 1 one_ne_zero, div_one, F64.round_one64]
  rw [h]
  exact F32.round_one

theorem boundary_linear :
    F32.div
      (F32.ofInt (wrapInt32
        (min (max boundaryLight.min_value_ boundaryLight.max_value_)
          (max (min boundaryLight.min_value_ boundaryLight.max_value_) (wrapInt32 (1 : ℕ))) -
          boundaryLight.min_value_)))
      (F32.ofInt (wrapInt32 (boundaryLight.max_value_ - boundaryLight.min_value_))) =
    Flt.fin (8589935 / 8589934592) := by
  have h1 : wrapInt32
      (min (max boundaryLight.min_value_ boundaryLight.max_value_)
        (max (min boundaryLight.min_value_ boundaryLight.max_value_) (wrapInt32 (1 : ℕ))) -
        boundaryLight.min_value_) = 1 := by decide
  have h2 : wrapInt32 (boundaryLight.max_value_ - boundaryLight.min_value_) = 1000 := by
    decide
  rw [h1, h2, F32.ofInt_exact (by norm_num), F32.ofInt_exact (by norm_num)]
  show Flt.div F32.round (Flt.fin ((1 : ℤ) : ℚ)) (Flt.fin ((1000 : ℤ) : ℚ)) = _
  rw [Flt.div_fin_fin F32.round _ (by norm_num)]
  have : (((1 : ℤ) : ℚ) / ((1000 : ℤ) : ℚ)) = 1 / 1000 := by norm_num
  rw [this, F32.round_milli]

/-- C9, as stated, fails: with `min_value=0, max_value=1000` the lower bound is 0,
so the test `lower > 0 && brightness == 0.0f` of the correction is false for
the received value 1, whatever `powf` and gamma are. -/
theorem boundary_correction_counterexample :
    ¬ ∃ (powf : Flt → Flt → Flt) (gamma : Flt),
      0 < min boundaryLight.min_value_ boundaryLight.max_value_ ∧
      (powf
        (F32.div
          (F32.ofInt (wrapInt32
            (min (max boundaryLight.min_value_ boundaryLight.max_value_)
              (max (min boundaryLight.min_value_ boundaryLight.max_value_)
                (wrapInt32 (1 : ℕ))) -
              boundaryLight.min_value_)))
          (F32.ofInt (wrapInt32 (boundaryLight.max_value_ - boundaryLight.min_value_))))
        (F32.ofFlt (F64.div (Flt.fin 1) gamma))).isZero = true := by
  rintro ⟨_, _, h, _⟩
  exact absurd h (by decide)

/-- C9, amended: with `min_value=0, max_value=1000` and the received value 1 the
correction does not fire; the brightness is the power
`powf (float (1) / 1000, 1 / gamma)` itself, whose base is the `float` nearest
to 0.001, that is 8589935 / 2^33.  For gamma 1, where `powf (x, 1) = x`, the
brightness is that `float`, which is positive. -/
theorem boundary_brightness (powf : Flt → Flt → Flt) (gamma : Flt) :
    to_brightness powf boundaryLight gamma 1 =
        powf (Flt.fin (8589935 / 8589934592)) (F32.ofFlt (F64.div (Flt.fin 1) gamma)) ∧
      ((∀ x, powf x (Flt.fin 1) = x) →
        to_brightness powf boundaryLight (Flt.fin 1) 1 = Flt.fin (8589935 / 8589934592) ∧
        (to_brightness powf boundaryLight (Flt.fin 1) 1).isPos = true) := by
  have key : ∀ g, to_brightness powf boundaryLight g 1 =
      powf (Flt.fin (8589935 / 8589934592)) (F32.ofFlt (F64.div (Flt.fin 1) g)) := by
    intro g
    unfold to_brightness
    simp only
    rw [if_neg (fun h => absurd h.1 (by decide)), boundary_linear]
  refine ⟨key gamma, fun hp => ?_⟩
  have h1 : to_brightness powf boundaryLight (Flt.fin 1) 1 =
      Flt.fin (8589935 / 8589934592) := by
    rw [key, exponent_one, hp]
  refine ⟨h1, ?_⟩
  rw [h1]
  exact decide_eq_true (by norm_num)

theorem boundary_brightness_witness :
    to_brightness (fun x _ => x) boundaryLight (Flt.fin 1) 1 =
      Flt.fin (8589935 / 8589934592) :=
  ((boundary_brightness (fun x _ => x) (Flt.fin 1)).2 (fun _ => rfl)).1

/-! ## Monotonicity of the inbound mapping -/

namespace Flt

theorem rne_le_of_lt {s : ℚ} {n : ℤ} (h : s < n + 1 / 2) : rne s ≤ n := by
  have h1 := abs_rne_sub_le s
  rw [abs_le] at h1
  have h2 : ((rne s : ℤ) : ℚ) < ((n + 1 : ℤ) : ℚ) := by push_cast; linarith
  have h3 : rne s < n + 1 := by exact_mod_cast h2
  omega

/-- An odd number times `d` is not a power of two, unless the odd number is 1. -/
theorem odd_mul_ne_two_pow (n d K : ℕ) (hn : 1 ≤ n) : (2 * n + 1) * d ≠ 2 ^ K := by
  intro h
  have hdvd : (2 * n + 1) ∣ 2 ^ K := ⟨d, h.symm⟩
  obtain ⟨j, _, hj⟩ := (Nat.dvd_prime_pow Nat.prime_two).mp hdvd
  rcases Nat.eq_zero_or_pos j with h0 | hpos
  · subst h0
    simp at hj
    omega
  · have : 2 ∣ 2 ^ j := dvd_pow_self 2 (by omega)
    rw [← hj] at this
    omega

end Flt

/-- Rounding `1 / d` first to `double` and then to `float` never gives more than
rounding it to `float` at once, for an integer `1 ≤ d ≤ 2^24`: the `double`
nearest to `1 / d` cannot reach the midpoint of two `float`s from below. -/
theorem F32.double_round_recip {d : ℤ} (hd1 : 1 ≤ d) (hd2 : d ≤ 2 ^ 24) :
    Flt.roundQ 24 (-126) (Flt.roundQ 53 (-1022) (1 / (d : ℚ))) ≤
      Flt.roundQ 24 (-126) (1 / (d : ℚ)) := by
  have hdq1 : (1 : ℚ) ≤ d := by exact_mod_cast hd1
  have hdq2 : (d : ℚ) ≤ 2 ^ 24 := by exact_mod_cast hd2
  have hdpos : (0 : ℚ) < d := by linarith
  set q : ℚ := 1 / (d : ℚ) with hq
  have hqpos : 0 < q := by positivity
  have hqabs : |q| = q := abs_of_pos hqpos
  have hq1 : q ≤ 1 := by rw [hq, div_le_one hdpos]; exact hdq1
  have hq24 : (2 : ℚ) ^ (-24 : ℤ) ≤ q := by
    rw [hq, zpow_neg, ← one_div]
    exact one_div_le_one_div_of_le hdpos (by exact_mod_cast hdq2)
  set e : ℤ := Int.log 2 |q| with he
  have he1 : (2 : ℚ) ^ e ≤ |q| := by
    have := Int.zpow_log_le_self (b := 2) (r := |q|) (by norm_num) (by rw [hqabs]; exact hqpos)
    simpa using this
  have he2 : |q| < (2 : ℚ) ^ (e + 1) := by
    have := Int.lt_zpow_succ_log_self (b := 2) (by norm_num) |q|
    simpa using this
  have hemin : -24 ≤ e := by
    rw [he, ← Int.zpow_le_iff_le_log (by norm_num) (by rw [hqabs]; exact hqpos), hqabs]
    simpa using hq24
  have hemax : e ≤ 0 := by
    have : Int.log 2 |q| < 1 := by
      rw [← Int.lt_zpow_iff_log_lt (by norm_num) (by rw [hqabs]; exact hqpos), hqabs]
      norm_num; linarith
    omega
  -- the two spacings
  set u : ℚ := 2 ^ (e - 23) with hu
  set w : ℚ := 2 ^ (e - 52) with hw
  have hupos : 0 < u := by positivity
  have hwpos : 0 < w := by positivity
  have h2e : (2 : ℚ) ^ e = 2 ^ (23 : ℤ) * u := by
    rw [hu, ← zpow_add₀ (by norm_num : (2 : ℚ) ≠ 0)]; congr 1; ring
  have h2e1 : (2 : ℚ) ^ (e + 1) = 2 ^ (24 : ℤ) * u := by
    rw [hu, ← zpow_add₀ (by norm_num : (2 : ℚ) ≠ 0)]; congr 1; ring
  have huw : u = 2 ^ (29 : ℤ) * w := by
    rw [hu, hw, ← zpow_add₀ (by norm_num : (2 : ℚ) ≠ 0)]; congr 1; ring
  rw [hqabs] at he1 he2
  -- rounding to float at once
  set t : ℚ := q / u with ht
  set n : ℤ := Flt.rne t with hn
  have hA : Flt.roundQ 24 (-126) q = (n : ℚ) * u := by
    have := Flt.roundQ_eval 24 (-126) (q := q) (e := e) (by omega)
      (by rw [hqabs]; exact he1) (by rw [hqabs]; exact he2)
    simpa using this
  have htn := Flt.abs_rne_sub_le t
  rw [← hn, abs_le] at htn
  have ht23 : (2 : ℚ) ^ (23 : ℤ) ≤ t := by
    rw [ht, le_div_iff₀ hupos, ← h2e]; exact he1
  have ht24 : t < (2 : ℚ) ^ (24 : ℤ) := by
    rw [ht, div_lt_iff₀ hupos, ← h2e1]; exact he2
  have hn24 : n ≤ 2 ^ 24 := by
    have := Flt.rne_mono ht24.le
    have h2 : ((2 : ℚ) ^ (24 : ℤ)) = ((2 ^ 24 : ℤ) : ℚ) := by norm_num
    rw [h2, Flt.rne_intCast] at this
    exact this
  have hn23 : 2 ^ 23 ≤ n := by
    have := Flt.rne_mono ht23
    have h2 : ((2 : ℚ) ^ (23 : ℤ)) = ((2 ^ 23 : ℤ) : ℚ) := by norm_num
    rw [h2, Flt.rne_intCast] at this
    exact this
  -- rounding to double
  set y : ℚ := Flt.roundQ 53 (-1022) q with hy
  have hyq : y - q ≤ w / 2 := by
    have h1 := Flt.roundQ_eval 53 (-1022) (q := q) (e := e) (by omega)
      (by rw [hqabs]; exact he1) (by rw [hqabs]; exact he2)
    have h2 := Flt.abs_rne_sub_le (q / w)
    rw [abs_le] at h2
    have h3 : y = (Flt.rne (q / w) : ℚ) * w := by
      rw [hy, h1]; norm_num
    have h4 : q = q / w * w := by field_simp
    rw [h3]
    nlinarith [h2.2]
  have hy0 : (2 : ℚ) ^ e ≤ y :=
    Flt.zpow_le_roundQ_of_le 53 (by norm_num) (-1022) e (by omega) he1
  rcases eq_or_lt_of_le hn24 with hn_eq | hn_lt
  · -- the float is the next power of two
    rw [hA, hn_eq]
    have hy1 : y ≤ (2 : ℚ) ^ (e + 1) :=
      Flt.roundQ_le_zpow_of_le 53 (by norm_num) (-1022) (e + 1) (by omega) he2.le
    have := Flt.roundQ_le_zpow_of_le 24 (by norm_num) (-126) (e + 1) (by omega) hy1
    rw [h2e1] at this
    norm_num at this ⊢
    exact this
  · -- the float is inside the binade
    obtain ⟨K, hK⟩ : ∃ K : ℕ, (K : ℤ) = 23 - e := ⟨(23 - e).toNat, by omega⟩
    have htK : t = (2 : ℚ) ^ K / d := by
      rw [ht, hq, hu, ← zpow_natCast, hK,
        show (23 : ℤ) - e = -(e - 23) by ring, zpow_neg]
      field_simp
      ring
    obtain ⟨n', hn'⟩ := Int.eq_ofNat_of_zero_le (show 0 ≤ n by
      have : (0 : ℤ) ≤ 2 ^ 23 := by norm_num
      omega)
    obtain ⟨d', hd'⟩ := Int.eq_ofNat_of_zero_le (show 0 ≤ d by omega)
    have hn'1 : 1 ≤ n' := by
      have : (1 : ℤ) ≤ n := le_trans (by norm_num) hn23
      omega
    have hd'q : (d : ℚ) = (d' : ℚ) := by rw [hd']; norm_cast
    have hn'q : (n : ℚ) = (n' : ℚ) := by rw [hn']; norm_cast
    -- t ≤ n + 1/2 as an inequality of naturals
    have hle : (2 : ℚ) ^ (K + 1) ≤ (2 * (n' : ℚ) + 1) * d' := by
      have h1 : t ≤ n + 1 / 2 := by linarith [htn.1]
      rw [htK, div_le_iff₀ hdpos, hn'q, hd'q] at h1
      rw [pow_succ]
      linarith
    have hleN : 2 ^ (K + 1) ≤ (2 * n' + 1) * d' := by exact_mod_cast hle
    have hneN := Flt.odd_mul_ne_two_pow n' d' (K + 1) hn'1
    have hltN : 2 ^ (K + 1) + 1 ≤ (2 * n' + 1) * d' := by omega
    have hlt : (2 : ℚ) ^ (K + 1) + 1 ≤ (2 * (n' : ℚ) + 1) * d' := by exact_mod_cast hltN
    have hgap : t ≤ n + 1 / 2 - 1 / (2 * d) := by
      rw [htK, hn'q, hd'q]
      have hd'pos : (0 : ℚ) < d' := by rw [← hd'q]; exact hdpos
      rw [div_le_iff₀ hd'pos]
      have h12 : (1 : ℚ) / (2 * d') * d' = 1 / 2 := by field_simp; ring
      rw [pow_succ] at hlt
      rw [sub_mul, h12]
      linarith only [hlt]
    have hd25 : (2 : ℚ) ^ (-25 : ℤ) ≤ 1 / (2 * d) := by
      rw [zpow_neg, ← one_div]
      apply one_div_le_one_div_of_le (by positivity)
      have : (2 : ℚ) ^ (25 : ℤ) = 2 * 2 ^ 24 := by norm_num
      rw [this]; linarith
    set s : ℚ := y / u with hs
    have hst : s - t ≤ (2 : ℚ) ^ (-30 : ℤ) := by
      have : s - t = (y - q) / u := by rw [hs, ht]; ring
      rw [this, div_le_iff₀ hupos, huw]
      have h30 : (2 : ℚ) ^ (-30 : ℤ) * (2 ^ (29 : ℤ) * w) = w / 2 := by
        rw [← mul_assoc, ← zpow_add₀ (by norm_num : (2 : ℚ) ≠ 0)]
        norm_num; ring
      rw [h30]; exact hyq
    have hs_lt : s < n + 1 / 2 := by
      have h3025 : (2 : ℚ) ^ (-30 : ℤ) < 2 ^ (-25 : ℤ) := by norm_num
      calc s = t + (s - t) := by ring
        _ ≤ (n + 1 / 2 - 1 / (2 * d)) + 2 ^ (-30 : ℤ) := add_le_add hgap hst
        _ ≤ (n + 1 / 2 - 2 ^ (-25 : ℤ)) + 2 ^ (-30 : ℤ) := by
            have := sub_le_sub_left hd25 ((n : ℚ) + 1 / 2)
            exact add_le_add_right this _
        _ < n + 1 / 2 := by
            have := sub_neg.mpr h3025
            set a : ℚ := 2 ^ (-30 : ℤ)
            set b : ℚ := 2 ^ (-25 : ℤ)
            linarith only [this]
    have hrs : Flt.rne s ≤ n := Flt.rne_le_of_lt hs_lt
    have hysu : y = s * u := by rw [hs]; field_simp
    have hypos : 0 < y := lt_of_lt_of_le (by positivity) hy0
    have hy1 : y < (2 : ℚ) ^ (e + 1) := by
      rw [h2e1, hysu]
      apply mul_lt_mul_of_pos_right _ hupos
      have : (n : ℚ) ≤ 2 ^ (24 : ℤ) - 1 := by
        have : n ≤ 2 ^ 24 - 1 := by omega
        have h2 : (n : ℚ) ≤ ((2 ^ 24 - 1 : ℤ) : ℚ) := by exact_mod_cast this
        norm_num at h2 ⊢
        exact h2
      linarith
    have hB := Flt.roundQ_eval 24 (-126) (q := y) (e := e) (by omega)
      (by rw [abs_of_pos hypos]; exact hy0) (by rw [abs_of_pos hypos]; exact hy1)
    have hB' : Flt.roundQ 24 (-126) y = (Flt.rne s : ℚ) * u := by
      simpa using hB
    rw [hB', hA]
    apply mul_le_mul_of_nonneg_right _ hupos.le
    exact_mod_cast hrs

/-- Integers up to `2^24` in absolute value are `float` values. -/
theorem F32.roundQ_intCast_exact {n : ℤ} (hn : |n| ≤ 2 ^ 24) :
    Flt.roundQ 24 (-126) (n : ℚ) = n := by
  rcases lt_or_eq_of_le hn with h | h
  · have := Flt.roundQ_repr 24 (-126) n 0 (by norm_num) (by simpa using h)
    simpa using this
  · rcases abs_eq (by norm_num : (0 : ℤ) ≤ 2 ^ 24) |>.mp h with h | h
    · have := Flt.roundQ_zpow 24 (by norm_num) (-126) 24 (by norm_num)
      rw [h]; norm_num at this ⊢; exact this
    · have := Flt.roundQ_neg_zpow 24 (by norm_num) (-126) 24 (by norm_num)
      rw [h]; norm_num at this ⊢; exact this

/-- The inbound mapping at gamma 1, for `min_value < max_value` without overflow
of their difference: the linear part `x`, or the replacement value when
`lower > 0` and `x = 0`. -/
theorem to_brightness_gamma_one (powf : Flt → Flt → Flt)
    (hpow : ∀ x, powf x (Flt.fin 1) = x) (self : TuyaLight)
    (hlt : self.min_value_ < self.max_value_)
    (hno : self.max_value_ - self.min_value_ < 2 ^ 31) (r : ℕ) :
    to_brightness powf self (Flt.fin 1) r =
      if 0 < self.min_value_ ∧
          Flt.roundQ 24 (-126)
            (Flt.roundQ 24 (-126)
              (((min self.max_value_ (max self.min_value_ (wrapInt32 r)) -
                self.min_value_ : ℤ) : ℚ)) /
              Flt.roundQ 24 (-126) ((self.max_value_ - self.min_value_ : ℤ) : ℚ)) = 0 then
        Flt.fin (Flt.roundQ 24 (-126) (Flt.roundQ 53 (-1022)
          (1 / ((self.max_value_ - self.min_value_ : ℤ) : ℚ))))
      else
        Flt.fin (Flt.roundQ 24 (-126)
          (Flt.roundQ 24 (-126)
            (((min self.max_value_ (max self.min_value_ (wrapInt32 r)) -
              self.min_value_ : ℤ) : ℚ)) /
            Flt.roundQ 24 (-126) ((self.max_value_ - self.min_value_ : ℤ) : ℚ))) := by
  have hmin : min self.min_value_ self.max_value_ = self.min_value_ := min_eq_left hlt.le
  have hmax : max self.min_value_ self.max_value_ = self.max_value_ := max_eq_right hlt.le
  have hno' : |self.max_value_ - self.min_value_| < 2 ^ 31 := by
    rw [abs_lt]; constructor <;> omega
  obtain ⟨hlin, _, _⟩ := linear_part_eq (r := wrapInt32 r) (ne_of_lt hlt) hno'
  obtain ⟨hcorr, _, _⟩ := correction_eq (d := self.max_value_ - self.min_value_)
    (by omega) hno
  rw [hmin, hmax] at hlin
  unfold to_brightness
  simp only [hmin, hmax, hlin, exponent_one, hpow, hcorr, Flt.isZero, decide_eq_true_eq]

theorem F32.round_zero : F32.round 0 = Flt.fin 0 := by
  have := F32.round_intCast (n := 0) (by norm_num)
  simpa using this

theorem inverted_brightness_low (powf : Flt → Flt → Flt) (hpow : ∀ x, powf x (Flt.fin 1) = x) :
    to_brightness powf invertedLight (Flt.fin 1) 0 = Flt.fin 1 := by
  have h1 : wrapInt32
      (min (max invertedLight.min_value_ invertedLight.max_value_)
        (max (min invertedLight.min_value_ invertedLight.max_value_) (wrapInt32 (0 : ℕ))) -
        invertedLight.min_value_) = -10 := by decide
  have h2 : wrapInt32 (invertedLight.max_value_ - invertedLight.min_value_) = -10 := by
    decide
  have hlin : F32.div (F32.ofInt (-10)) (F32.ofInt (-10)) = Flt.fin 1 := by
    rw [F32.ofInt_exact (by norm_num)]
    show Flt.div F32.round (Flt.fin ((-10 : ℤ) : ℚ)) (Flt.fin ((-10 : ℤ) : ℚ)) = _
    rw [Flt.div_fin_fin F32.round _ (by norm_num)]
    have : (((-10 : ℤ) : ℚ) / ((-10 : ℤ) : ℚ)) = 1 := by norm_num
    rw [this, F32.round_one]
  unfold to_brightness
  simp only
  rw [if_neg (fun h => absurd h.1 (by decide)), h1, h2, hlin, exponent_one, hpow]

theorem inverted_brightness_high (powf : Flt → Flt → Flt)
    (hpow : ∀ x, powf x (Flt.fin 1) = x) :
    to_brightness powf invertedLight (Flt.fin 1) 10 = Flt.fin 0 := by
  have h1 : wrapInt32
      (min (max invertedLight.min_value_ invertedLight.max_value_)
        (max (min invertedLight.min_value_ invertedLight.max_value_) (wrapInt32 (10 : ℕ))) -
        invertedLight.min_value_) = 0 := by decide
  have h2 : wrapInt32 (invertedLight.max_value_ - invertedLight.min_value_) = -10 := by
    decide
  have hlin : F32.div (F32.ofInt 0) (F32.ofInt (-10)) = Flt.fin 0 := by
    rw [F32.ofInt_exact (by norm_num), F32.ofInt_exact (by norm_num)]
    show Flt.div F32.round (Flt.fin ((0 : ℤ) : ℚ)) (Flt.fin ((-10 : ℤ) : ℚ)) = _
    rw [Flt.div_fin_fin F32.round _ (by norm_num)]
    have : (((0 : ℤ) : ℚ) / ((-10 : ℤ) : ℚ)) = 0 := by norm_num
    rw [this, F32.round_zero]
  unfold to_brightness
  simp only
  rw [if_neg (fun h => absurd h.1 (by decide)), h1, h2, hlin, exponent_one, hpow]

theorem Flt.rne_tie_odd (k : ℤ) (hk : k % 2 = 1) : Flt.rne ((k : ℚ) + 1 / 2) = k + 1 := by
  have hfl : ⌊(k : ℚ) + 1 / 2⌋ = k := by
    rw [Int.floor_eq_iff]; constructor <;> norm_num
  have hfr : Int.fract ((k : ℚ) + 1 / 2) = 1 / 2 := by
    rw [Int.fract, hfl]; ring
  unfold Flt.rne
  rw [hfr, hfl]
  simp [hk]

theorem wide_range_float : Flt.roundQ 24 (-126) ((16777219 : ℤ) : ℚ) = 16777220 := by
  have hq : |(((16777219 : ℤ) : ℚ))| = 16777219 := by norm_num
  have h := Flt.roundQ_eval 24 (-126) (q := ((16777219 : ℤ) : ℚ)) (e := 24) (by norm_num)
    (by rw [hq]; norm_num) (by rw [hq]; norm_num)
  have hr : Flt.rne (((16777219 : ℤ) : ℚ) / 2 ^ ((24 : ℤ) - (((24 : ℕ) : ℤ) - 1))) =
      8388610 := by
    have : (((16777219 : ℤ) : ℚ) / 2 ^ ((24 : ℤ) - (((24 : ℕ) : ℤ) - 1))) =
        ((8388609 : ℤ) : ℚ) + 1 / 2 := by norm_num
    rw [this, Flt.rne_tie_odd 8388609 (by decide)]
    norm_num
  rw [h, hr]
  norm_num

theorem wide_recip_double :
    Flt.roundQ 53 (-1022) (1 / 16777219) =
      9007197644128544 / 151115727451828646838272 := by
  have hq : |(1 / 16777219 : ℚ)| = 1 / 16777219 := abs_of_pos (by norm_num)
  have h := Flt.roundQ_eval 53 (-1022) (q := 1 / 16777219) (e := -25) (by norm_num)
    (by rw [hq]; norm_num) (by rw [hq]; norm_num)
  have hr : Flt.rne ((1 / 16777219 : ℚ) / 2 ^ ((-25 : ℤ) - (((53 : ℕ) : ℤ) - 1))) =
      9007197644128544 := by
    apply Flt.rne_eq_of_abs_sub_lt
    norm_num [abs_lt]
  rw [h, hr]
  norm_num

theorem wide_recip_float :
    Flt.roundQ 24 (-126) (9007197644128544 / 151115727451828646838272) =
      16777213 / 281474976710656 := by
  have hq : |(9007197644128544 / 151115727451828646838272 : ℚ)| =
      9007197644128544 / 151115727451828646838272 := abs_of_pos (by norm_num)
  have h := Flt.roundQ_eval 24 (-126)
    (q := 9007197644128544 / 151115727451828646838272) (e := -25) (by norm_num)
    (by rw [hq]; norm_num) (by rw [hq]; norm_num)
  have hr : Flt.rne ((9007197644128544 / 151115727451828646838272 : ℚ) /
      2 ^ ((-25 : ℤ) - (((24 : ℕ) : ℤ) - 1))) = 16777213 := by
    apply Flt.rne_eq_of_abs_sub_lt
    norm_num [abs_lt]
  rw [h, hr]
  norm_num

theorem wide_step_float :
    Flt.roundQ 24 (-126) (1 / 16777220) = 16777212 / 281474976710656 := by
  have hq : |(1 / 16777220 : ℚ)| = 1 / 16777220 := abs_of_pos (by norm_num)
  have h := Flt.roundQ_eval 24 (-126) (q := 1 / 16777220) (e := -25) (by norm_num)
    (by rw [hq]; norm_num) (by rw [hq]; norm_num)
  have hr : Flt.rne ((1 / 16777220 : ℚ) / 2 ^ ((-25 : ℤ) - (((24 : ℕ) : ℤ) - 1))) =
      16777212 := by
    apply Flt.rne_eq_of_abs_sub_lt
    norm_num [abs_lt]
  rw [h, hr]
  norm_num

theorem wide_brightness_low (powf : Flt → Flt → Flt) (hpow : ∀ x, powf x (Flt.fin 1) = x) :
    to_brightness powf wideLight (Flt.fin 1) 1 = Flt.fin (16777213 / 281474976710656) := by
  have ha : min wideLight.max_value_ (max wideLight.min_value_ (wrapInt32 (1 : ℕ))) -
      wideLight.min_value_ = 0 := by decide
  have hd : wideLight.max_value_ - wideLight.min_value_ = 16777219 := by decide
  rw [to_brightness_gamma_one powf hpow wideLight (by decide) (by decide) 1, ha, hd]
  have hx : Flt.roundQ 24 (-126)
      (Flt.roundQ 24 (-126) (((0 : ℤ) : ℚ)) / Flt.roundQ 24 (-126) ((16777219 : ℤ) : ℚ)) = 0 := by
    rw [Int.cast_zero, Flt.roundQ_zero, zero_div, Flt.roundQ_zero]
  rw [if_pos ⟨by decide, hx⟩]
  have : (1 : ℚ) / ((16777219 : ℤ) : ℚ) = 1 / 16777219 := by norm_num
  rw [this, wide_recip_double, wide_recip_float]

theorem wide_brightness_step (powf : Flt → Flt → Flt) (hpow : ∀ x, powf x (Flt.fin 1) = x) :
    to_brightness powf wideLight (Flt.fin 1) 2 = Flt.fin (16777212 / 281474976710656) := by
  have ha : min wideLight.max_value_ (max wideLight.min_value_ (wrapInt32 (2 : ℕ))) -
      wideLight.min_value_ = 1 := by decide
  have hd : wideLight.max_value_ - wideLight.min_value_ = 16777219 := by decide
  rw [to_brightness_gamma_one powf hpow wideLight (by decide) (by decide) 2, ha, hd]
  have hx : Flt.roundQ 24 (-126)
      (Flt.roundQ 24 (-126) (((1 : ℤ) : ℚ)) / Flt.roundQ 24 (-126) ((16777219 : ℤ) : ℚ)) =
      16777212 / 281474976710656 := by
    rw [Int.cast_one, F32.roundQ_one, wide_range_float, wide_step_float]
  rw [hx, if_neg (fun h => absurd h.2 (by norm_num))]

/-! ## The outbound path: which datapoints are sent -/

theorem to_raw_of_isZero (self : TuyaLight) {b : Flt} (hb : b.isZero = true) :
    to_raw self b = 0 := by
  unfold to_raw
  simp only [hb, Bool.not_true]
  rw [if_neg (by simp), F32.ofInt_exact (by norm_num)]
  have := Flt.toUInt32_intCast (c := 0) le_rfl (by norm_num)
  simpa using this

/-- C13: with `switch_id_` set, `dimmer_id_` unset and the flag clear,
`write_state` sends exactly one datapoint: type BOOLEAN, id `switch_id_`, value
`brightness != 0`.  For a light turned off (brightness zero) that is a single
BOOLEAN write with value false; no INTEGER datapoint is sent. -/
theorem write_state_switch_only (self : TuyaLight) (state : LightState) (s : ℕ)
    (hs : self.switch_id_ = some s) (hd : self.dimmer_id_ = none)
    (hflag : self.inhibit_next_send_ = false) :
    (write_state self state).2 =
        [{ id := s, type := TuyaDatapointType.BOOLEAN,
           value_bool := !state.brightness.isZero, value_uint := 0 }] ∧
      (state.brightness.isZero = true →
        (write_state self state).2 =
          [{ id := s, type := TuyaDatapointType.BOOLEAN, value_bool := false,
             value_uint := 0 }]) ∧
      (∀ dp ∈ (write_state self state).2, dp.type ≠ TuyaDatapointType.INTEGER) := by
  have h : (write_state self state).2 =
      [{ id := s, type := TuyaDatapointType.BOOLEAN,
         value_bool := !state.brightness.isZero, value_uint := 0 }] := by
    rw [write_state_of_clear self state hflag]
    simp only [hs, hd, List.nil_append]
  refine ⟨h, ?_, ?_⟩
  · intro hz
    rw [h, hz]
    rfl
  · intro dp hdp
    rw [h, List.mem_singleton] at hdp
    rw [hdp]
    simp

theorem write_state_switch_only_witness :
    (write_state
        { dimmer_id_ := none, switch_id_ := some 2, min_value_datapoint_id_ := none,
          min_value_ := 0, max_value_ := 255, zero_brightness_when_off_ := false,
          inhibit_next_send_ := false }
        { is_on := false, has_transformer := false, gamma_correct := Flt.fin 1,
          brightness := Flt.fin 0 }).2 =
      [{ id := 2, type := TuyaDatapointType.BOOLEAN, value_bool := false, value_uint := 0 }] :=
  (write_state_switch_only _ _ 2 rfl rfl rfl).2.1 (by simp [Flt.isZero])

/-- C14: with `dimmer_id_` set, the flag clear and a snapshot brightness equal to
zero, `write_state` sends no INTEGER datapoint when `zero_brightness_when_off_`
is false, and sends first the INTEGER datapoint with id `dimmer_id_` and value
0 when it is true, whatever `min_value` and `max_value` are; in both cases
nothing else is sent but the switch datapoint, with value false. -/
theorem write_state_off (self : TuyaLight) (state : LightState) (d : ℕ)
    (hd : self.dimmer_id_ = some d) (hflag : self.inhibit_next_send_ = false)
    (hb : state.brightness.isZero = true) :
    (self.zero_brightness_when_off_ = false →
      (write_state self state).2 =
          (match self.switch_id_ with
            | some s =>
              [{ id := s, type := TuyaDatapointType.BOOLEAN, value_bool := false,
                 value_uint := 0 }]
            | none => []) ∧
        ∀ dp ∈ (write_state self state).2, dp.type ≠ TuyaDatapointType.INTEGER) ∧
    (self.zero_brightness_when_off_ = true →
      (write_state self state).2 =
          ({ id := d, type := TuyaDatapointType.INTEGER, value_bool := false,
             value_uint := 0 } : TuyaDatapoint) ::
          (match self.switch_id_ with
            | some s =>
              [{ id := s, type := TuyaDatapointType.BOOLEAN, value_bool := false,
                 value_uint := 0 }]
            | none => []) ∧
        ({ id := d, type := TuyaDatapointType.INTEGER, value_bool := false,
           value_uint := 0 } : TuyaDatapoint).value_int = 0) := by
  constructor
  · intro hz
    have h : (write_state self state).2 =
        (match self.switch_id_ with
          | some s =>
            [{ id := s, type := TuyaDatapointType.BOOLEAN, value_bool := false,
               value_uint := 0 }]
          | none => []) := by
      rw [write_state_of_clear self state hflag]
      simp only [hd, hb, hz, Bool.not_true, Bool.or_false, List.nil_append]
      rfl
    refine ⟨h, ?_⟩
    intro dp hdp
    rw [h] at hdp
    cases hs : self.switch_id_ with
    | none => rw [hs] at hdp; simp at hdp
    | some s =>
      rw [hs] at hdp
      simp only [List.mem_singleton] at hdp
      rw [hdp]; simp
  · intro hz
    refine ⟨?_, by unfold TuyaDatapoint.value_int wrapInt32; norm_num⟩
    rw [write_state_of_clear self state hflag]
    simp only [hd, hb, hz, Bool.not_true, Bool.or_true, if_true, to_raw_of_isZero self hb,
      List.singleton_append]

theorem write_state_off_witness :
    (write_state
        { dimmer_id_ := some 1, switch_id_ := none, min_value_datapoint_id_ := none,
          min_value_ := 10, max_value_ := 1000, zero_brightness_when_off_ := true,
          inhibit_next_send_ := false }
        { is_on := false, has_transformer := false, gamma_correct := Flt.fin 1,
          brightness := Flt.fin 0 }).2 =
      [{ id := 1, type := TuyaDatapointType.INTEGER, value_bool := false, value_uint := 0 }] :=
  ((write_state_off _ _ 1 rfl rfl (by simp [Flt.isZero])).2 rfl).1

/-- C18: with `dimmer_id_` and `switch_id_` both set, the flag clear and a
snapshot brightness that is not zero, `write_state` sends exactly two
datapoints, in this order: the dimmer INTEGER datapoint, then the switch
BOOLEAN datapoint with value true. -/
theorem write_state_both (self : TuyaLight) (state : LightState) (d s : ℕ)
    (hd : self.dimmer_id_ = some d) (hs : self.switch_id_ = some s)
    (hflag : self.inhibit_next_send_ = false) (hb : state.brightness.isZero = false) :
    (write_state self state).2 =
      [{ id := d, type := TuyaDatapointType.INTEGER, value_bool := false,
         value_uint := to_raw self state.brightness },
       { id := s, type := TuyaDatapointType.BOOLEAN, value_bool := true, value_uint := 0 }] := by
  rw [write_state_of_clear self state hflag]
  simp only [hd, hs, hb, Bool.not_false, Bool.true_or, if_true, List.singleton_append]

theorem write_state_both_witness :
    (write_state
        { dimmer_id_ := some 1, switch_id_ := some 2, min_value_datapoint_id_ := none,
          min_value_ := 10, max_value_ := 1000, zero_brightness_when_off_ := false,
          inhibit_next_send_ := false }
        scenarioState).2.length = 2 :=
  congrArg List.length
    (write_state_both _ scenarioState 1 2 rfl rfl rfl (by simp [scenarioState, Flt.isZero]))

/-- C16: `setup` sends exactly one datapoint when `min_value_datapoint_id_` is set:
type INTEGER, that id, value `min_value_`; and sends none when it is not set;
whatever `dimmer_id_` and `switch_id_` are (the light state is not read). -/
theorem setup_writes (powf : Flt → Flt → Flt) (self : TuyaLight) :
    (∀ m, self.min_value_datapoint_id_ = some m →
      (setup powf self).2 =
          [{ id := m, type := TuyaDatapointType.INTEGER, value_bool := false,
             value_uint := (self.min_value_ % 2 ^ 32).toNat }] ∧
        (isInt32 self.min_value_ →
          ({ id := m, type := TuyaDatapointType.INTEGER, value_bool := false,
             value_uint := (self.min_value_ % 2 ^ 32).toNat } : TuyaDatapoint).value_int =
            self.min_value_)) ∧
    (self.min_value_datapoint_id_ = none → (setup powf self).2 = []) := by
  constructor
  · intro m hm
    refine ⟨by simp only [setup, hm, TuyaDatapoint.zero], ?_⟩
    intro hi
    unfold isInt32 at hi
    unfold TuyaDatapoint.value_int wrapInt32
    simp only
    rw [Int.toNat_of_nonneg (Int.emod_nonneg _ (by norm_num))]
    omega
  · intro hm
    simp only [setup, hm]

theorem setup_writes_witness :
    (setup (fun x _ => x)
        { dimmer_id_ := some 1, switch_id_ := some 2, min_value_datapoint_id_ := some 3,
          min_value_ := 10, max_value_ := 1000, zero_brightness_when_off_ := false,
          inhibit_next_send_ := false }).2 =
      [{ id := 3, type := TuyaDatapointType.INTEGER, value_bool := false,
         value_uint := 10 }] :=
  ((setup_writes (fun x _ => x) _).1 3 rfl).1

/-! ## The received word is read as a signed value -/

theorem wrapInt32_of_high {v : ℕ} (h1 : 2 ^ 31 ≤ v) (h2 : v < 2 ^ 32) :
    wrapInt32 (v : ℤ) = (v : ℤ) - 2 ^ 32 := by
  unfold wrapInt32
  have h1' : (2 : ℤ) ^ 31 ≤ v := by exact_mod_cast h1
  have h2' : (v : ℤ) < 2 ^ 32 := by exact_mod_cast h2
  omega

/-- The inbound mapping depends on the received word through the clamped value
only. -/
theorem to_brightness_congr (powf : Flt → Flt → Flt) (self : TuyaLight) (gamma : Flt)
    {v w : ℕ}
    (h : min (max self.min_value_ self.max_value_)
          (max (min self.min_value_ self.max_value_) (wrapInt32 v)) =
        min (max self.min_value_ self.max_value_)
          (max (min self.min_value_ self.max_value_) (wrapInt32 w))) :
    to_brightness powf self gamma v = to_brightness powf self gamma w := by
  unfold to_brightness
  simp only [h]

theorem clamp_of_neg {a b z : ℤ} (hlower : 0 ≤ min a b) (hz : z < 0) :
    min (max a b) (max (min a b) z) = min a b := by
  rcases le_total a b with hab | hab
  · rw [min_eq_left hab, max_eq_right hab] at *
    rw [max_eq_left (by linarith), min_eq_right hab]
  · rw [min_eq_right hab, max_eq_left hab] at *
    rw [max_eq_left (by linarith), min_eq_right hab]

theorem clamp_of_lower {a b : ℤ} :
    min (max a b) (max (min a b) (min a b)) = min a b := by
  rw [max_self]
  exact min_eq_right (le_trans (min_le_left a b) (le_max_left a b))

theorem scenario_brightness_low (powf : Flt → Flt → Flt)
    (hpow : ∀ x, powf x (Flt.fin 1) = x) :
    Flt.le (to_brightness powf scenarioLight (Flt.fin 1) 4294967295)
      (Flt.fin (1 / 512)) = true := by
  have ha : min scenarioLight.max_value_
      (max scenarioLight.min_value_ (wrapInt32 (4294967295 : ℕ))) -
      scenarioLight.min_value_ = 0 := by decide
  have hd : scenarioLight.max_value_ - scenarioLight.min_value_ = 990 := by decide
  rw [to_brightness_gamma_one powf hpow scenarioLight (by decide) (by decide) 4294967295,
    ha, hd]
  have hx : Flt.roundQ 24 (-126)
      (Flt.roundQ 24 (-126) (((0 : ℤ) : ℚ)) / Flt.roundQ 24 (-126) ((990 : ℤ) : ℚ)) = 0 := by
    rw [Int.cast_zero, Flt.roundQ_zero, zero_div, Flt.roundQ_zero]
  rw [if_pos ⟨by decide, hx⟩]
  have h1 := F32.double_round_recip (d := 990) (by norm_num) (by norm_num)
  have h2 : Flt.roundQ 24 (-126) (1 / ((990 : ℤ) : ℚ)) ≤ 2 ^ (-9 : ℤ) :=
    Flt.roundQ_le_zpow_of_le 24 (by norm_num) (-126) (-9) (by norm_num) (by norm_num)
  have h3 : (2 : ℚ) ^ (-9 : ℤ) = 1 / 512 := by norm_num
  show decide (_ ≤ _) = true
  rw [decide_eq_true_eq]
  linarith

theorem scenario_brightness_high (powf : Flt → Flt → Flt)
    (hpow : ∀ x, powf x (Flt.fin 1) = x) :
    to_brightness powf scenarioLight (Flt.fin 1) 1000 = Flt.fin 1 := by
  have ha : min scenarioLight.max_value_
      (max scenarioLight.min_value_ (wrapInt32 (1000 : ℕ))) -
      scenarioLight.min_value_ = 990 := by decide
  have hd : scenarioLight.max_value_ - scenarioLight.min_value_ = 990 := by decide
  rw [to_brightness_gamma_one powf hpow scenarioLight (by decide) (by decide) 1000, ha, hd]
  have hx : Flt.roundQ 24 (-126)
      (Flt.roundQ 24 (-126) (((990 : ℤ) : ℚ)) / Flt.roundQ 24 (-126) ((990 : ℤ) : ℚ)) = 1 := by
    rw [F32.roundQ_intCast_exact (by norm_num)]
    have : (((990 : ℤ) : ℚ)) / ((990 : ℤ) : ℚ) = 1 := by norm_num
    rw [this, F32.roundQ_one]
  rw [hx, if_neg (fun h => absurd h.2 (by norm_num))]

/-- C19: the dimmer listener reads the payload as `uint32_t` and converts it to
`int32_t` before clamping.  For `lower >= 0` a received word of at least `2^31`
is therefore negative and clamps to `lower`: the brightness computed is the one
for the received value `lower`, and the upper bound plays no part.  In the
scenario `min_value=10`, `max_value=1000` with gamma 1 the word `2^32 - 1`
gives a brightness of at most `2^-9`, while the received value 1000 gives 1. -/
theorem to_brightness_high_word (powf : Flt → Flt → Flt) (self : TuyaLight) (gamma : Flt)
    (value_uint : ℕ) (hmin : isInt32 self.min_value_) (hmax : isInt32 self.max_value_)
    (hlower : 0 ≤ min self.min_value_ self.max_value_)
    (h1 : 2 ^ 31 ≤ value_uint) (h2 : value_uint < 2 ^ 32) :
    wrapInt32 value_uint < 0 ∧
    min (max self.min_value_ self.max_value_)
        (max (min self.min_value_ self.max_value_) (wrapInt32 value_uint)) =
      min self.min_value_ self.max_value_ ∧
    to_brightness powf self gamma value_uint =
      to_brightness powf self gamma (min self.min_value_ self.max_value_).toNat ∧
    ((∀ x, powf x (Flt.fin 1) = x) →
      Flt.le (to_brightness powf scenarioLight (Flt.fin 1) 4294967295)
          (Flt.fin (1 / 512)) = true ∧
        to_brightness powf scenarioLight (Flt.fin 1) 1000 = Flt.fin 1) := by
  have hw := wrapInt32_of_high h1 h2
  have h2' : (value_uint : ℤ) < 2 ^ 32 := by exact_mod_cast h2
  have hneg : wrapInt32 value_uint < 0 := by rw [hw]; omega
  have hclamp := clamp_of_neg hlower hneg
  refine ⟨hneg, hclamp, ?_, fun hpow =>
    ⟨scenario_brightness_low powf hpow, scenario_brightness_high powf hpow⟩⟩
  apply to_brightness_congr
  rw [hclamp, Int.toNat_of_nonneg hlower]
  have hl : isInt32 (min self.min_value_ self.max_value_) := by
    rcases le_total self.min_value_ self.max_value_ with hab | hab
    · rw [min_eq_left hab]; exact hmin
    · rw [min_eq_right hab]; exact hmax
  rw [wrapInt32_of_isInt32 hl, clamp_of_lower]

theorem to_brightness_high_word_witness :
    to_brightness (fun x _ => x) scenarioLight (Flt.fin 1) 4294967295 =
      to_brightness (fun x _ => x) scenarioLight (Flt.fin 1) 10 :=
  (to_brightness_high_word (fun x _ => x) scenarioLight (Flt.fin 1) 4294967295
    (by decide) (by decide) (by decide) (by norm_num) (by norm_num)).2.2.1

/-! ## The dimmer value: bounds -/

/-- A positive value of the format is at least the smallest positive value
`2 ^ (emin - (prec - 1))` of the format. -/
theorem Flt.zpow_le_of_roundQ_eq (prec : ℕ) (emin : ℤ) {q : ℚ}
    (hrep : Flt.roundQ prec emin q = q) (hq : 0 < q) :
    2 ^ (emin - ((prec : ℤ) - 1)) ≤ q := by
  have hu := Flt.ulp_pos prec emin q
  have hz : 0 < Flt.rne (q / Flt.ulp prec emin q) := by
    by_contra hneg
    have h0 : ((Flt.rne (q / Flt.ulp prec emin q) : ℤ) : ℚ) ≤ 0 := by
      exact_mod_cast not_lt.mp hneg
    have : Flt.roundQ prec emin q ≤ 0 := by
      unfold Flt.roundQ
      exact mul_nonpos_of_nonpos_of_nonneg h0 hu.le
    rw [hrep] at this
    linarith
  have h1 : (1 : ℚ) ≤ ((Flt.rne (q / Flt.ulp prec emin q) : ℤ) : ℚ) := by
    exact_mod_cast hz
  have h2 : Flt.ulp prec emin q ≤ q := by
    calc Flt.ulp prec emin q = 1 * Flt.ulp prec emin q := (one_mul _).symm
      _ ≤ (Flt.rne (q / Flt.ulp prec emin q) : ℚ) * Flt.ulp prec emin q :=
        mul_le_mul_of_nonneg_right h1 hu.le
      _ = q := hrep
  have h3 : (2 : ℚ) ^ (emin - ((prec : ℤ) - 1)) ≤ Flt.ulp prec emin q := by
    unfold Flt.ulp
    apply zpow_le_zpow_right₀ (by norm_num)
    have := Flt.emin_le_binade emin q
    omega
  linarith

/-- The dimmer value for a non-zero finite brightness of magnitude at most 1,
when `min_value_` is an `int32_t` and the subtraction does not overflow: the
product and the sum are each rounded to `float`, the ceiling is taken and the
result is converted to `uint32_t`. -/
theorem to_raw_fin (self : TuyaLight) {q : ℚ} (hq0 : q ≠ 0) (hq1 : |q| ≤ 1)
    (hmin : isInt32 self.min_value_)
    (hno : |self.max_value_ - self.min_value_| < 2 ^ 31) :
    to_raw self (Flt.fin q) =
      Flt.toUInt32 (Flt.fin ((⌈Flt.roundQ 24 (-126)
        (Flt.roundQ 24 (-126)
            (q * Flt.roundQ 24 (-126) ((self.max_value_ - self.min_value_ : ℤ) : ℚ)) +
          Flt.roundQ 24 (-126) (self.min_value_ : ℚ))⌉ : ℤ) : ℚ)) := by
  have hw : wrapInt32 (self.max_value_ - self.min_value_) =
      self.max_value_ - self.min_value_ := by
    apply wrapInt32_of_isInt32
    rw [abs_lt] at hno
    exact ⟨by omega, hno.2⟩
  have hD := F32.abs_roundQ_intCast_le (n := self.max_value_ - self.min_value_) hno.le
  have hM : |Flt.roundQ 24 (-126) (self.min_value_ : ℚ)| ≤ 2 ^ 31 := by
    apply F32.abs_roundQ_intCast_le
    unfold isInt32 at hmin
    rw [abs_le]
    constructor <;> omega
  have hmabs : |self.min_value_| ≤ 2 ^ 31 := by
    unfold isInt32 at hmin
    rw [abs_le]
    constructor <;> omega
  have hprod : |q * Flt.roundQ 24 (-126) ((self.max_value_ - self.min_value_ : ℤ) : ℚ)|
      ≤ 2 ^ (31 : ℤ) := by
    rw [abs_mul]
    calc |q| * |Flt.roundQ 24 (-126) ((self.max_value_ - self.min_value_ : ℤ) : ℚ)|
        ≤ 1 * 2 ^ 31 := mul_le_mul hq1 hD (abs_nonneg _) (by norm_num)
      _ = 2 ^ (31 : ℤ) := by norm_num
  have hP := Flt.abs_roundQ_le_zpow 24 (by norm_num) (-126) 31 (by norm_num) hprod
  have hsum : |Flt.roundQ 24 (-126)
        (q * Flt.roundQ 24 (-126) ((self.max_value_ - self.min_value_ : ℤ) : ℚ)) +
      Flt.roundQ 24 (-126) (self.min_value_ : ℚ)| ≤ 2 ^ (127 : ℤ) := by
    have h1 := abs_add (Flt.roundQ 24 (-126)
        (q * Flt.roundQ 24 (-126) ((self.max_value_ - self.min_value_ : ℤ) : ℚ)))
      (Flt.roundQ 24 (-126) (self.min_value_ : ℚ))
    have h2 : (2 : ℚ) ^ (31 : ℤ) + 2 ^ 31 ≤ 2 ^ (127 : ℤ) := by norm_num
    linarith
  have hprod127 : |q * Flt.roundQ 24 (-126) ((self.max_value_ - self.min_value_ : ℤ) : ℚ)|
      ≤ 2 ^ (127 : ℤ) := le_trans hprod (by norm_num)
  have hz : (Flt.fin q).isZero = false := by simp [Flt.isZero, hq0]
  show Flt.toUInt32 (if (!(Flt.fin q).isZero) = true then
      Flt.ceil (F32.add (F32.mul (Flt.fin q)
        (F32.ofInt (wrapInt32 (self.max_value_ - self.min_value_))))
        (F32.ofInt self.min_value_)) else F32.ofInt 0) = _
  rw [hz, Bool.not_false, if_pos rfl, hw, F32.ofInt_eq hno.le, F32.ofInt_eq hmabs]
  have hmul : F32.mul (Flt.fin q)
      (Flt.fin (Flt.roundQ 24 (-126) ((self.max_value_ - self.min_value_ : ℤ) : ℚ))) =
      Flt.fin (Flt.roundQ 24 (-126)
        (q * Flt.roundQ 24 (-126) ((self.max_value_ - self.min_value_ : ℤ) : ℚ))) := by
    show F32.round _ = _
    exact F32.round_eq_roundQ hprod127
  rw [hmul]
  have hadd : F32.add (Flt.fin (Flt.roundQ 24 (-126)
        (q * Flt.roundQ 24 (-126) ((self.max_value_ - self.min_value_ : ℤ) : ℚ))))
      (Flt.fin (Flt.roundQ 24 (-126) (self.min_value_ : ℚ))) =
      Flt.fin (Flt.roundQ 24 (-126) (Flt.roundQ 24 (-126)
        (q * Flt.roundQ 24 (-126) ((self.max_value_ - self.min_value_ : ℤ) : ℚ)) +
          Flt.roundQ 24 (-126) (self.min_value_ : ℚ))) := by
    show F32.round _ = _
    exact F32.round_eq_roundQ hsum
  rw [hadd]
  rfl

theorem signed_to_raw : to_raw signedLight (Flt.fin (1 / 2)) = 0 := by
  have hd : signedLight.max_value_ - signedLight.min_value_ = 20 := by decide
  have hm : signedLight.min_value_ = -10 := rfl
  rw [to_raw_fin signedLight (by norm_num) (by rw [abs_le]; constructor <;> norm_num)
    (by decide) (by rw [hd]; norm_num), hd, hm,
    F32.roundQ_intCast_exact (n := 20) (by norm_num),
    F32.roundQ_intCast_exact (n := -10) (by norm_num)]
  have h1 : (1 / 2 : ℚ) * ((20 : ℤ) : ℚ) = ((10 : ℤ) : ℚ) := by norm_num
  rw [h1, F32.roundQ_intCast_exact (n := 10) (by norm_num)]
  have h2 : ((10 : ℤ) : ℚ) + ((-10 : ℤ) : ℚ) = ((0 : ℤ) : ℚ) := by norm_num
  rw [h2, F32.roundQ_intCast_exact (n := 0) (by norm_num), Int.ceil_intCast,
    Flt.toUInt32_intCast (by norm_num) (by norm_num)]
  rfl

theorem inverted_to_raw : to_raw invertedLight (Flt.fin 1) = 0 := by
  have hd : invertedLight.max_value_ - invertedLight.min_value_ = -10 := by decide
  have hm : invertedLight.min_value_ = 10 := rfl
  rw [to_raw_fin invertedLight (by norm_num) (by norm_num)
    (by decide) (by rw [hd]; norm_num), hd, hm,
    F32.roundQ_intCast_exact (n := -10) (by norm_num),
    F32.roundQ_intCast_exact (n := 10) (by norm_num)]
  have h1 : (1 : ℚ) * ((-10 : ℤ) : ℚ) = ((-10 : ℤ) : ℚ) := by norm_num
  rw [h1, F32.roundQ_intCast_exact (n := -10) (by norm_num)]
  have h2 : ((-10 : ℤ) : ℚ) + ((10 : ℤ) : ℚ) = ((0 : ℤ) : ℚ) := by norm_num
  rw [h2, F32.roundQ_intCast_exact (n := 0) (by norm_num), Int.ceil_intCast,
    Flt.toUInt32_intCast (by norm_num) (by norm_num)]
  rfl

theorem F32.roundQ_half : Flt.roundQ 24 (-126) (1 / 2) = 1 / 2 := by
  have h := Flt.roundQ_zpow 24 (by norm_num) (-126) (-1) (by norm_num)
  have e : (2 : ℚ) ^ (-1 : ℤ) = 1 / 2 := by norm_num
  rwa [e] at h

/-- The rounded sum of `write_state` for `0 <= min_value <= max_value`, `0 <
max_value < 2^31` and a `float` brightness in `(0, 1]` lies in
`[2^-149, 3 * 2^30]`. -/
theorem to_raw_sum_bounds {mn mx : ℤ} {q : ℚ} (hrep : Flt.roundQ 24 (-126) q = q)
    (h0 : 0 < q) (h1 : q ≤ 1) (hmin0 : 0 ≤ mn) (hle : mn ≤ mx) (hpos : 0 < mx)
    (hmax : mx < 2 ^ 31) :
    let s := Flt.roundQ 24 (-126)
      (Flt.roundQ 24 (-126) (q * Flt.roundQ 24 (-126) ((mx - mn : ℤ) : ℚ)) +
        Flt.roundQ 24 (-126) (mn : ℚ))
    2 ^ (-149 : ℤ) ≤ s ∧ s ≤ 3 * 2 ^ 30 := by
  intro s
  have hq149 : (2 : ℚ) ^ (-149 : ℤ) ≤ q := by
    have := Flt.zpow_le_of_roundQ_eq 24 (-126) hrep h0
    norm_num at this ⊢
    exact this
  have hD0 : 0 ≤ Flt.roundQ 24 (-126) ((mx - mn : ℤ) : ℚ) :=
    F32.roundQ_intCast_nonneg (by omega)
  have hM0 : 0 ≤ Flt.roundQ 24 (-126) (mn : ℚ) := F32.roundQ_intCast_nonneg hmin0
  have hP0 : 0 ≤ Flt.roundQ 24 (-126) (q * Flt.roundQ 24 (-126) ((mx - mn : ℤ) : ℚ)) :=
    Flt.roundQ_nonneg 24 (-126) (mul_nonneg h0.le hD0)
  have hsmall : (2 : ℚ) ^ (-149 : ℤ) ≤ 1 := by norm_num
  have hlow : (2 : ℚ) ^ (-149 : ℤ) ≤
      Flt.roundQ 24 (-126) (q * Flt.roundQ 24 (-126) ((mx - mn : ℤ) : ℚ)) +
        Flt.roundQ 24 (-126) (mn : ℚ) := by
    rcases (by omega : 1 ≤ mn ∨ 1 ≤ mx - mn) with h | h
    · have : (1 : ℚ) ≤ Flt.roundQ 24 (-126) (mn : ℚ) :=
        F32.roundQ_one_le (by exact_mod_cast h)
      linarith
    · have hD1 : (1 : ℚ) ≤ Flt.roundQ 24 (-126) ((mx - mn : ℤ) : ℚ) :=
        F32.roundQ_one_le (by exact_mod_cast h)
      have hprod : (2 : ℚ) ^ (-149 : ℤ) ≤
          q * Flt.roundQ 24 (-126) ((mx - mn : ℤ) : ℚ) := by
        calc (2 : ℚ) ^ (-149 : ℤ) ≤ q := hq149
          _ = q * 1 := (mul_one q).symm
          _ ≤ q * Flt.roundQ 24 (-126) ((mx - mn : ℤ) : ℚ) :=
            mul_le_mul_of_nonneg_left hD1 h0.le
      have := Flt.zpow_le_roundQ_of_le 24 (by norm_num) (-126) (-149) (by norm_num) hprod
      linarith
  have hup : Flt.roundQ 24 (-126) (q * Flt.roundQ 24 (-126) ((mx - mn : ℤ) : ℚ)) +
        Flt.roundQ 24 (-126) (mn : ℚ) ≤ ((3 : ℤ) : ℚ) * 2 ^ (30 : ℤ) := by
    have hprodle : ∀ k : ℤ, -149 ≤ k → (((mx - mn : ℤ) : ℚ)) ≤ 2 ^ k →
        Flt.roundQ 24 (-126) (q * Flt.roundQ 24 (-126) ((mx - mn : ℤ) : ℚ)) ≤ 2 ^ k := by
      intro k hk hle
      have hD := Flt.roundQ_le_zpow_of_le 24 (by norm_num) (-126) k (by norm_num; omega) hle
      apply Flt.roundQ_le_zpow_of_le 24 (by norm_num) (-126) k (by norm_num; omega)
      calc q * Flt.roundQ 24 (-126) ((mx - mn : ℤ) : ℚ)
          ≤ 1 * Flt.roundQ 24 (-126) ((mx - mn : ℤ) : ℚ) :=
            mul_le_mul_of_nonneg_right h1 hD0
        _ = Flt.roundQ 24 (-126) ((mx - mn : ℤ) : ℚ) := one_mul _
        _ ≤ 2 ^ k := hD
    have hD31 : (((mx - mn : ℤ) : ℚ)) ≤ 2 ^ (31 : ℤ) := by
      have : mx - mn ≤ 2 ^ 31 := by omega
      have h' : ((mx - mn : ℤ) : ℚ) ≤ ((2 ^ 31 : ℤ) : ℚ) := Int.cast_le.mpr this
      norm_num at h' ⊢
      exact h'
    have hM31 : ((mn : ℤ) : ℚ) ≤ 2 ^ (31 : ℤ) := by
      have : mn ≤ 2 ^ 31 := by omega
      have h' : ((mn : ℤ) : ℚ) ≤ ((2 ^ 31 : ℤ) : ℚ) := Int.cast_le.mpr this
      norm_num at h' ⊢
      exact h'
    have e : ((3 : ℤ) : ℚ) * 2 ^ (30 : ℤ) = 2 ^ (30 : ℤ) + 2 ^ (31 : ℤ) := by norm_num
    rcases (by omega : mx - mn ≤ 2 ^ 30 ∨ mn ≤ 2 ^ 30) with h | h
    · have hD30 : (((mx - mn : ℤ) : ℚ)) ≤ 2 ^ (30 : ℤ) := by
        have h' : ((mx - mn : ℤ) : ℚ) ≤ ((2 ^ 30 : ℤ) : ℚ) := Int.cast_le.mpr h
        norm_num at h' ⊢
        exact h'
      have hp := hprodle 30 (by norm_num) hD30
      have hm := Flt.roundQ_le_zpow_of_le 24 (by norm_num) (-126) 31 (by norm_num) hM31
      rw [e]
      linarith
    · have hM30 : ((mn : ℤ) : ℚ) ≤ 2 ^ (30 : ℤ) := by
        have h' : ((mn : ℤ) : ℚ) ≤ ((2 ^ 30 : ℤ) : ℚ) := Int.cast_le.mpr h
        norm_num at h' ⊢
        exact h'
      have hp := hprodle 31 (by norm_num) hD31
      have hm := Flt.roundQ_le_zpow_of_le 24 (by norm_num) (-126) 30 (by norm_num) hM30
      rw [e]
      linarith
  constructor
  · exact Flt.zpow_le_roundQ_of_le 24 (by norm_num) (-126) (-149) (by norm_num) hlow
  · have hr := Flt.roundQ_repr 24 (-126) 3 30 (by norm_num) (by norm_num)
    have hm := Flt.roundQ_mono 24 (by norm_num) (-126) hup
    rw [hr] at hm
    have e : ((3 : ℤ) : ℚ) * 2 ^ (30 : ℤ) = 3 * 2 ^ 30 := by norm_num
    rw [e] at hm
    exact hm

theorem scenario_to_raw_tiny :
    to_raw scenarioLight (Flt.fin (1 / 4294967296)) = 10 := by
  have hd : scenarioLight.max_value_ - scenarioLight.min_value_ = 990 := by decide
  have hm : scenarioLight.min_value_ = 10 := rfl
  rw [to_raw_fin scenarioLight (by norm_num) (by rw [abs_le]; constructor <;> norm_num)
    (by decide) (by rw [hd]; norm_num), hd, hm,
    F32.roundQ_intCast_exact (n := 990) (by norm_num),
    F32.roundQ_intCast_exact (n := 10) (by norm_num)]
  have h1 : (1 / 4294967296 : ℚ) * ((990 : ℤ) : ℚ) = ((990 : ℤ) : ℚ) * 2 ^ (-32 : ℤ) := by
    norm_num
  rw [h1, Flt.roundQ_repr 24 (-126) 990 (-32) (by norm_num) (by norm_num)]
  have h2 : Flt.roundQ 24 (-126) (((990 : ℤ) : ℚ) * 2 ^ (-32 : ℤ) + ((10 : ℤ) : ℚ)) =
      ((10 : ℤ) : ℚ) := by
    rw [Flt.roundQ_eval 24 (-126) (e := 3) (by norm_num)
      (by rw [abs_of_pos (by norm_num)]; norm_num)
      (by rw [abs_of_pos (by norm_num)]; norm_num)]
    have hr : Flt.rne ((((990 : ℤ) : ℚ) * 2 ^ (-32 : ℤ) + ((10 : ℤ) : ℚ)) /
        2 ^ ((3 : ℤ) - (((24 : ℕ) : ℤ) - 1))) = 10485760 := by
      apply Flt.rne_eq_of_abs_sub_lt
      rw [abs_lt]
      constructor <;> norm_num
    rw [hr]
    norm_num
  rw [h2, Int.ceil_intCast, Flt.toUInt32_intCast (by norm_num) (by norm_num)]
  rfl

theorem wide_zero_to_raw : to_raw wideZeroLight (Flt.fin 1) = 16777220 := by
  have hd : wideZeroLight.max_value_ - wideZeroLight.min_value_ = 16777219 := by decide
  have hm : wideZeroLight.min_value_ = 0 := rfl
  rw [to_raw_fin wideZeroLight (by norm_num) (by norm_num)
    (by decide) (by rw [hd]; norm_num), hd, hm, wide_range_float, one_mul,
    Int.cast_zero, Flt.roundQ_zero, add_zero]
  have h1 : (16777220 : ℚ) = ((4194305 : ℤ) : ℚ) * 2 ^ (2 : ℤ) := by norm_num
  have h2 : Flt.roundQ 24 (-126) 16777220 = 16777220 := by
    rw [h1]
    exact Flt.roundQ_repr 24 (-126) 4194305 2 (by norm_num) (by norm_num)
  rw [h2, h2]
  have h3 : (16777220 : ℚ) = ((16777220 : ℤ) : ℚ) := by norm_num
  rw [h3, Int.ceil_intCast, Flt.toUInt32_intCast (by norm_num) (by norm_num)]
  rfl

/-- C17, as stated, fails at both ends.  With `min_value=10`, `max_value=1000`
and the brightness `2^-32` the product `990 * 2^-32` is absorbed when it is
added to 10 in `float`, and the value sent is 10, the floor value itself.
With `min_value=0`, `max_value=16777219` and the brightness 1 the range
16777219 becomes 16777220 when converted to `float`, and the value sent is
16777220, above `max_value`. -/
theorem to_raw_range_counterexample :
    (to_raw scenarioLight (Flt.fin (1 / 4294967296)) : ℤ) = scenarioLight.min_value_ ∧
    wideZeroLight.max_value_ < (to_raw wideZeroLight (Flt.fin 1) : ℤ) := by
  rw [scenario_to_raw_tiny, wide_zero_to_raw]
  constructor <;> decide

/-- C17, amended: for `0 <= min_value < max_value <= 2^24` and a `float`
brightness `b` with `0 < b <= 1`, the dimmer value `v` of `write_state`
satisfies `min_value <= v <= max_value` and `0 < v`; it is above `min_value`
whenever `b * (max_value - min_value) >= 1`. -/
theorem to_raw_in_range (self : TuyaLight) (q : ℚ) (hrep : Flt.roundQ 24 (-126) q = q)
    (h0 : 0 < q) (h1 : q ≤ 1) (hmin0 : 0 ≤ self.min_value_)
    (hlt : self.min_value_ < self.max_value_) (hmax : self.max_value_ ≤ 2 ^ 24) :
    self.min_value_ ≤ (to_raw self (Flt.fin q) : ℤ) ∧
    (to_raw self (Flt.fin q) : ℤ) ≤ self.max_value_ ∧
    0 < to_raw self (Flt.fin q) ∧
    (1 ≤ q * ((self.max_value_ - self.min_value_ : ℤ) : ℚ) →
      self.min_value_ < (to_raw self (Flt.fin q) : ℤ)) := by
  obtain ⟨hs1, -⟩ := to_raw_sum_bounds hrep h0 h1 hmin0 hlt.le (by omega)
    (by omega : self.max_value_ < 2 ^ 31)
  rw [to_raw_fin self h0.ne' (by rw [abs_of_pos h0]; exact h1) ⟨by omega, by omega⟩
    (by rw [abs_lt]; constructor <;> omega)]
  have hDex : Flt.roundQ 24 (-126) ((self.max_value_ - self.min_value_ : ℤ) : ℚ) =
      ((self.max_value_ - self.min_value_ : ℤ) : ℚ) :=
    F32.roundQ_intCast_exact (by rw [abs_le]; constructor <;> omega)
  have hMex : Flt.roundQ 24 (-126) (self.min_value_ : ℚ) = (self.min_value_ : ℚ) :=
    F32.roundQ_intCast_exact (by rw [abs_le]; constructor <;> omega)
  have hXex : Flt.roundQ 24 (-126) (self.max_value_ : ℚ) = (self.max_value_ : ℚ) :=
    F32.roundQ_intCast_exact (by rw [abs_le]; constructor <;> omega)
  have hM1ex : Flt.roundQ 24 (-126) ((self.min_value_ + 1 : ℤ) : ℚ) =
      ((self.min_value_ + 1 : ℤ) : ℚ) :=
    F32.roundQ_intCast_exact (by rw [abs_le]; constructor <;> omega)
  rw [hDex, hMex] at hs1 ⊢
  have hDpos : (0 : ℚ) ≤ ((self.max_value_ - self.min_value_ : ℤ) : ℚ) := by
    exact_mod_cast (by omega : 0 ≤ self.max_value_ - self.min_value_)
  have hP0 : 0 ≤ Flt.roundQ 24 (-126)
      (q * ((self.max_value_ - self.min_value_ : ℤ) : ℚ)) :=
    Flt.roundQ_nonneg 24 (-126) (mul_nonneg h0.le hDpos)
  have hP1 : Flt.roundQ 24 (-126) (q * ((self.max_value_ - self.min_value_ : ℤ) : ℚ)) ≤
      ((self.max_value_ - self.min_value_ : ℤ) : ℚ) := by
    have := Flt.roundQ_mono 24 (by norm_num) (-126)
      (x := q * ((self.max_value_ - self.min_value_ : ℤ) : ℚ))
      (y := ((self.max_value_ - self.min_value_ : ℤ) : ℚ))
      (by nlinarith)
    rwa [hDex] at this
  set p := Flt.roundQ 24 (-126) (q * ((self.max_value_ - self.min_value_ : ℤ) : ℚ)) with hp
  set s := Flt.roundQ 24 (-126) (p + (self.min_value_ : ℚ)) with hs
  have hsl : (self.min_value_ : ℚ) ≤ s := by
    have := Flt.roundQ_mono 24 (by norm_num) (-126) (x := (self.min_value_ : ℚ))
      (y := p + (self.min_value_ : ℚ)) (by linarith)
    rwa [hMex] at this
  have hsu : s ≤ (self.max_value_ : ℚ) := by
    have := Flt.roundQ_mono 24 (by norm_num) (-126) (x := p + (self.min_value_ : ℚ))
      (y := (self.max_value_ : ℚ)) (by push_cast at hP1; linarith)
    rwa [hXex] at this
  have hspos : 0 < s := lt_of_lt_of_le (by positivity) hs1
  have hc0 : 0 < ⌈s⌉ := Int.ceil_pos.mpr hspos
  have hcu : ⌈s⌉ ≤ self.max_value_ := Int.ceil_le.mpr hsu
  have hcl : self.min_value_ ≤ ⌈s⌉ := by
    have : (self.min_value_ : ℚ) ≤ (⌈s⌉ : ℚ) := le_trans hsl (Int.le_ceil s)
    exact_mod_cast this
  rw [Flt.toUInt32_intCast hc0.le (by omega), Int.toNat_of_nonneg hc0.le]
  refine ⟨hcl, hcu, by omega, ?_⟩
  intro hstep
  have hp1 : (1 : ℚ) ≤ p := F32.roundQ_one_le hstep
  have hsl1 : ((self.min_value_ + 1 : ℤ) : ℚ) ≤ s := by
    have := Flt.roundQ_mono 24 (by norm_num) (-126)
      (x := ((self.min_value_ + 1 : ℤ) : ℚ))
      (y := p + (self.min_value_ : ℚ)) (by push_cast; linarith)
    rwa [hM1ex] at this
  have : ((self.min_value_ + 1 : ℤ) : ℚ) ≤ (⌈s⌉ : ℚ) := le_trans hsl1 (Int.le_ceil s)
  have h' : self.min_value_ + 1 ≤ ⌈s⌉ := by exact_mod_cast this
  omega

theorem to_raw_in_range_witness :
    scenarioLight.min_value_ < (to_raw scenarioLight (Flt.fin (1 / 2)) : ℤ) ∧
      (to_raw scenarioLight (Flt.fin (1 / 2)) : ℤ) ≤ scenarioLight.max_value_ :=
  have h := to_raw_in_range scenarioLight (1 / 2) F32.roundQ_half (by norm_num)
    (by norm_num) (by decide) (by decide) (by decide)
  ⟨h.2.2.2 (by
    have hd : scenarioLight.max_value_ - scenarioLight.min_value_ = 990 := by decide
    rw [hd]; norm_num), h.2.1⟩

/-! ## The inbound mapping: the unit interval -/

theorem Flt.round_isNonneg (prec : ℕ) (emin emax : ℤ) {q : ℚ} (hq : 0 ≤ q) :
    (Flt.round prec emin emax q).isNonneg = true := by
  have hr := Flt.roundQ_nonneg prec emin hq
  unfold Flt.round
  simp only
  split_ifs with h
  · simp [Flt.isNonneg, not_lt.mpr hr]
  · simp [Flt.isNonneg, hr]

theorem F32.ofFlt_isNonneg {x : Flt} (h : x.isNonneg = true) :
    (F32.ofFlt x).isNonneg = true := by
  cases x with
  | fin q =>
    simp only [Flt.isNonneg, decide_eq_true_eq] at h
    exact Flt.round_isNonneg 24 (-126) 127 h
  | inf n => exact h
  | nan => exact h

/-- The exponent `1.0 / gamma` handed to `powf` is not negative (it may be
zero or infinite) when gamma is positive. -/
theorem exponent_isNonneg {gamma : Flt} (h : gamma.isPos = true) :
    (F32.ofFlt (F64.div (Flt.fin 1) gamma)).isNonneg = true := by
  apply F32.ofFlt_isNonneg
  cases gamma with
  | fin g =>
    have hg : 0 < g := by
      simpa only [Flt.isPos, decide_eq_true_eq] using h
    show (if g = 0 then _ else F64.round (1 / g)).isNonneg = true
    rw [if_neg hg.ne']
    exact Flt.round_isNonneg 53 (-1022) 1023 (by positivity)
  | inf n => simp [F64.div, Flt.div, Flt.isNonneg]
  | nan => simp [Flt.isPos] at h

theorem full_range_brightness (powf : Flt → Flt → Flt)
    (hpow : ∀ x, powf x (Flt.fin 1) = x) :
    to_brightness powf fullRangeLight (Flt.fin 1) 0 = Flt.fin 2147483648 := by
  have h1 : wrapInt32
      (min (max fullRangeLight.min_value_ fullRangeLight.max_value_)
        (max (min fullRangeLight.min_value_ fullRangeLight.max_value_)
          (wrapInt32 (0 : ℕ))) -
        fullRangeLight.min_value_) = -2147483648 := by decide
  have h2 : wrapInt32 (fullRangeLight.max_value_ - fullRangeLight.min_value_) = -1 := by
    decide
  have e31 : (2 : ℚ) ^ (31 : ℤ) = 2147483648 := by norm_num
  have hlin : F32.div (F32.ofInt (-2147483648)) (F32.ofInt (-1)) =
      Flt.fin 2147483648 := by
    rw [F32.ofInt_eq (n := -2147483648) (by norm_num), F32.ofInt_exact (n := -1) (by norm_num)]
    have hr : Flt.roundQ 24 (-126) ((-2147483648 : ℤ) : ℚ) = -2147483648 := by
      have := Flt.roundQ_neg_zpow 24 (by norm_num) (-126) 31 (by norm_num)
      rw [e31] at this
      push_cast
      exact this
    rw [hr]
    show Flt.div F32.round (Flt.fin (-2147483648)) (Flt.fin ((-1 : ℤ) : ℚ)) = _
    rw [Flt.div_fin_fin F32.round _ (by norm_num)]
    have hq : ((-2147483648 : ℚ)) / ((-1 : ℤ) : ℚ) = 2 ^ (31 : ℤ) := by norm_num
    rw [hq, F32.round_eq_roundQ (by
      rw [abs_of_pos (by positivity)]
      exact zpow_le_zpow_right₀ (by norm_num) (by norm_num)),
      Flt.roundQ_zpow 24 (by norm_num) (-126) 31 (by norm_num), e31]
  unfold to_brightness
  simp only
  rw [if_neg (fun h => absurd h.1 (by decide)), h1, h2, hlin, exponent_one, hpow]

/-- C15, as stated, fails when `max_value_ - min_value_` overflows `int32_t`.
With `min_value=-2^31`, `max_value=2^31-1` (two different values) and gamma 1
the received value 0 gives `float (-2^31) / float (-1) = 2^31`, for every
`powf` with `powf (x, 1) = x`: the brightness is not at most 1. -/
theorem to_brightness_unit_counterexample :
    ¬ ∃ powf : Flt → Flt → Flt, (∀ x, powf x (Flt.fin 1) = x) ∧
      Flt.le (to_brightness powf fullRangeLight (Flt.fin 1) 0) (Flt.fin 1) = true := by
  rintro ⟨powf, hpow, h⟩
  rw [full_range_brightness powf hpow] at h
  simp [Flt.le] at h

/-- C15, amended: for a configuration with `min_value != max_value` (either
order) whose difference `max_value - min_value` does not overflow
(`|max_value - min_value| < 2^31`, as when both are non-negative `int32_t`
values), every gamma > 0 and every received word, in or out of
`[lower, upper]`, the brightness the dimmer listener computes lies in
`[0, 1]`, provided `powf` maps a base in `[0, 1]` and a non-negative exponent
into `[0, 1]`. -/
theorem to_brightness_unit (powf : Flt → Flt → Flt)
    (hpow : ∀ x e, Flt.le (Flt.fin 0) x = true → Flt.le x (Flt.fin 1) = true →
      e.isNonneg = true →
      Flt.le (Flt.fin 0) (powf x e) = true ∧ Flt.le (powf x e) (Flt.fin 1) = true)
    (self : TuyaLight) (gamma : Flt) (value_uint : ℕ)
    (hne : self.min_value_ ≠ self.max_value_)
    (hno : |self.max_value_ - self.min_value_| < 2 ^ 31)
    (hgamma : gamma.isPos = true) :
    Flt.le (Flt.fin 0) (to_brightness powf self gamma value_uint) = true ∧
      Flt.le (to_brightness powf self gamma value_uint) (Flt.fin 1) = true := by
  obtain ⟨hlin, hx0, hx1⟩ := linear_part_eq (r := wrapInt32 value_uint) hne hno
  obtain ⟨hcorr, hc0, hc1⟩ := correction_eq
    (d := max self.min_value_ self.max_value_ - min self.min_value_ self.max_value_)
    (by rw [abs_lt] at hno; omega) (by rw [abs_lt] at hno; omega)
  have hpw := hpow _ (F32.ofFlt (F64.div (Flt.fin 1) gamma))
    (show Flt.le (Flt.fin 0) (Flt.fin _) = true from decide_eq_true hx0)
    (show Flt.le (Flt.fin _) (Flt.fin 1) = true from decide_eq_true hx1)
    (exponent_isNonneg hgamma)
  rw [← hlin] at hpw
  unfold to_brightness
  simp only
  split_ifs with h
  · rw [hcorr]
    have : (0 : ℚ) < 2 ^ (-31 : ℤ) := by positivity
    exact ⟨decide_eq_true (by linarith), decide_eq_true hc1⟩
  · exact hpw

theorem to_brightness_unit_witness :
    Flt.le (Flt.fin 0) (to_brightness (fun x _ => x) scenarioLight (Flt.fin 1) 2000) = true ∧
      Flt.le (to_brightness (fun x _ => x) scenarioLight (Flt.fin 1) 2000) (Flt.fin 1)
        = true :=
  to_brightness_unit (fun x _ => x) (fun _ _ h0 h1 _ => ⟨h0, h1⟩) scenarioLight (Flt.fin 1)
    2000 (by decide) (by decide) (by simp [Flt.isPos])

/-! ## Rounding: relative error -/

namespace Flt

/-- Rounding moves a value by at most half the spacing around it. -/
theorem abs_roundQ_sub_le_ulp (prec : ℕ) (emin : ℤ) (q : ℚ) :
    |roundQ prec emin q - q| ≤ ulp prec emin q / 2 := by
  have hu := ulp_pos prec emin q
  have h := abs_rne_sub_le (q / ulp prec emin q)
  have e : roundQ prec emin q - q =
      ((rne (q / ulp prec emin q) : ℚ) - q / ulp prec emin q) * ulp prec emin q := by
    unfold roundQ
    field_simp
  rw [e, abs_mul, abs_of_pos hu]
  calc |(rne (q / ulp prec emin q) : ℚ) - q / ulp prec emin q| * ulp prec emin q
      ≤ 1 / 2 * ulp prec emin q := mul_le_mul_of_nonneg_right h hu.le
    _ = ulp prec emin q / 2 := by ring

/-- In the normal range rounding has relative error at most `2 ^ (-prec)`. -/
theorem abs_roundQ_sub_le_rel (prec : ℕ) (emin : ℤ) {q : ℚ}
    (hq : 2 ^ (emin + 1) ≤ |q|) :
    |roundQ prec emin q - q| ≤ |q| * 2 ^ (-(prec : ℤ)) := by
  have hq0 : q ≠ 0 := by
    intro h
    rw [h, abs_zero] at hq
    have : (0 : ℚ) < 2 ^ (emin + 1) := by positivity
    linarith
  have hlog : emin + 1 ≤ Int.log 2 |q| :=
    (Int.zpow_le_iff_le_log (by norm_num) (abs_pos.mpr hq0)).mp (by exact_mod_cast hq)
  have hb : emin < binade emin q := by
    unfold binade
    have := le_max_left (Int.log 2 |q|) emin
    omega
  have h1 := zpow_binade_le hb hq0
  have h2 := abs_roundQ_sub_le_ulp prec emin q
  have e : ulp prec emin q / 2 = 2 ^ binade emin q * 2 ^ (-(prec : ℤ)) := by
    unfold ulp
    rw [← zpow_add₀ (by norm_num : (2 : ℚ) ≠ 0)]
    have : binade emin q - ((prec : ℤ) - 1) = binade emin q + -(prec : ℤ) + 1 := by ring
    rw [this, zpow_add₀ (by norm_num : (2 : ℚ) ≠ 0) _ 1, zpow_one]
    ring
  rw [e] at h2
  have h3 : (0 : ℚ) ≤ 2 ^ (-(prec : ℤ)) := by positivity
  calc |roundQ prec emin q - q| ≤ 2 ^ binade emin q * 2 ^ (-(prec : ℤ)) := h2
    _ ≤ |q| * 2 ^ (-(prec : ℤ)) := mul_le_mul_of_nonneg_right h1 h3

theorem rne_tie_even (k : ℤ) (hk : k % 2 = 0) : rne ((k : ℚ) + 1 / 2) = k := by
  have hfl : ⌊(k : ℚ) + 1 / 2⌋ = k := by
    rw [Int.floor_eq_iff]
    constructor <;> norm_num
  have hfr : Int.fract ((k : ℚ) + 1 / 2) = 1 / 2 := by
    rw [Int.fract, hfl]
    ring
  unfold rne
  rw [hfr, hfl, if_neg (lt_irrefl _), if_neg (lt_irrefl _), if_pos hk]

end Flt

theorem F32.roundQ_le_intCast {t : ℚ} {n : ℤ} (hn : |n| ≤ 2 ^ 24) (h : t ≤ n) :
    Flt.roundQ 24 (-126) t ≤ n := by
  have := Flt.roundQ_mono 24 (by norm_num) (-126) h
  rwa [F32.roundQ_intCast_exact hn] at this

theorem F32.intCast_le_roundQ {t : ℚ} {n : ℤ} (hn : |n| ≤ 2 ^ 24) (h : (n : ℚ) ≤ t) :
    (n : ℚ) ≤ Flt.roundQ 24 (-126) t := by
  have := Flt.roundQ_mono 24 (by norm_num) (-126) h
  rwa [F32.roundQ_intCast_exact hn] at this

/-- The value halfway between 1 and the next `float` rounds to 1. -/
theorem F32.roundQ_one_tie : Flt.roundQ 24 (-126) (1 + 2 ^ (-24 : ℤ)) = 1 := by
  rw [Flt.roundQ_eval 24 (-126) (e := 0) (by norm_num)
    (by rw [abs_of_pos (by positivity)]; norm_num)
    (by rw [abs_of_pos (by positivity)]; norm_num)]
  have hq : ((1 : ℚ) + 2 ^ (-24 : ℤ)) / 2 ^ ((0 : ℤ) - (((24 : ℕ) : ℤ) - 1)) =
      ((8388608 : ℤ) : ℚ) + 1 / 2 := by norm_num
  rw [hq, Flt.rne_tie_even 8388608 (by decide)]
  norm_num

theorem F32.roundQ_neg_one_tie : Flt.roundQ 24 (-126) (-(1 + 2 ^ (-24 : ℤ))) = -1 := by
  rw [Flt.roundQ_eval 24 (-126) (e := 0) (by norm_num)
    (by rw [abs_neg, abs_of_pos (by positivity)]; norm_num)
    (by rw [abs_neg, abs_of_pos (by positivity)]; norm_num)]
  have hq : (-((1 : ℚ) + 2 ^ (-24 : ℤ))) / 2 ^ ((0 : ℤ) - (((24 : ℕ) : ℤ) - 1)) =
      ((-8388609 : ℤ) : ℚ) + 1 / 2 := by norm_num
  rw [hq, Flt.rne_tie_odd (-8388609) (by decide)]
  norm_num

/-- The quotient of two integers of the same sign with `1 <= |a| <= |d| <= 2^24`,
rounded to `float` and multiplied back by `d`, is within 1 of `a`. -/
theorem F32.quotient_error {a d : ℤ} (hd : d ≠ 0) (ha : 1 ≤ |a|) (had : |a| ≤ |d|)
    (hd24 : |d| ≤ 2 ^ 24) (hpos : 0 < (a : ℚ) / d) :
    0 < Flt.roundQ 24 (-126) ((a : ℚ) / d) ∧ Flt.roundQ 24 (-126) ((a : ℚ) / d) ≤ 1 ∧
      |Flt.roundQ 24 (-126) ((a : ℚ) / d) * d - a| ≤ 1 := by
  have hdq : (d : ℚ) ≠ 0 := Int.cast_ne_zero.mpr hd
  have hdabs : (0 : ℚ) < |(d : ℚ)| := abs_pos.mpr hdq
  have haq : (1 : ℚ) ≤ |(a : ℚ)| := by exact_mod_cast ha
  have hadq : |(a : ℚ)| ≤ |(d : ℚ)| := by exact_mod_cast had
  have hd24q : |(d : ℚ)| ≤ 2 ^ 24 := by exact_mod_cast hd24
  set q : ℚ := (a : ℚ) / d with hq
  have hqabs : |q| = |(a : ℚ)| / |(d : ℚ)| := abs_div _ _
  have hqa : q = |(a : ℚ)| / |(d : ℚ)| := by rw [← hqabs, abs_of_pos hpos]
  have hq1 : q ≤ 1 := by
    rw [hqa, div_le_one hdabs]
    exact hadq
  have hq24 : (2 : ℚ) ^ (-24 : ℤ) ≤ q := by
    rw [hqa, le_div_iff₀ hdabs]
    have : (2 : ℚ) ^ (-24 : ℤ) * |(d : ℚ)| ≤ 2 ^ (-24 : ℤ) * 2 ^ 24 :=
      mul_le_mul_of_nonneg_left hd24q (by positivity)
    have e : (2 : ℚ) ^ (-24 : ℤ) * 2 ^ 24 = 1 := by norm_num
    linarith
  have hx24 := Flt.zpow_le_roundQ_of_le 24 (by norm_num) (-126) (-24) (by norm_num) hq24
  have hx1 : Flt.roundQ 24 (-126) q ≤ 1 := by
    have := Flt.roundQ_le_zpow_of_le 24 (by norm_num) (-126) 0 (by norm_num)
      (q := q) (by rw [zpow_zero]; exact hq1)
    rwa [zpow_zero] at this
  have hrel := Flt.abs_roundQ_sub_le_rel 24 (-126) (q := q) (by
    rw [abs_of_pos hpos]
    refine le_trans ?_ hq24
    exact zpow_le_zpow_right₀ (by norm_num) (by norm_num))
  rw [abs_of_pos hpos] at hrel
  refine ⟨lt_of_lt_of_le (by positivity) hx24, hx1, ?_⟩
  have e : Flt.roundQ 24 (-126) q * d - a = (Flt.roundQ 24 (-126) q - q) * d := by
    rw [hq]
    field_simp
  rw [e, abs_mul]
  have hqd : q * |(d : ℚ)| = |(a : ℚ)| := by
    rw [hqa]
    field_simp
  calc |Flt.roundQ 24 (-126) q - q| * |(d : ℚ)|
      ≤ q * 2 ^ (-((24 : ℕ) : ℤ)) * |(d : ℚ)| := mul_le_mul_of_nonneg_right hrel hdabs.le
    _ = |(a : ℚ)| * 2 ^ (-24 : ℤ) := by rw [← hqd]; norm_num; ring
    _ ≤ 2 ^ 24 * 2 ^ (-24 : ℤ) :=
        mul_le_mul_of_nonneg_right (le_trans hadq hd24q) (by positivity)
    _ = 1 := by norm_num

/-- The replacement value `1.0 / d` of the dimmer listener, for `1 <= d <=
2^24`, multiplied back by `d`, is positive and at most `1 + 2^-24`. -/
theorem F32.recip_error {d : ℤ} (hd1 : 1 ≤ d) (hd24 : d ≤ 2 ^ 24) :
    0 < Flt.roundQ 24 (-126) (Flt.roundQ 53 (-1022) (1 / (d : ℚ))) ∧
      Flt.roundQ 24 (-126) (Flt.roundQ 53 (-1022) (1 / (d : ℚ))) * d ≤
        1 + 2 ^ (-24 : ℤ) := by
  obtain ⟨-, hc0, -⟩ := correction_eq hd1 (by omega : d < 2 ^ 31)
  have hdr := F32.double_round_recip hd1 hd24
  have hdq1 : (1 : ℚ) ≤ d := by exact_mod_cast hd1
  have hdq24 : (d : ℚ) ≤ 2 ^ 24 := by exact_mod_cast hd24
  have hdpos : (0 : ℚ) < d := by linarith
  have hqpos : (0 : ℚ) < 1 / (d : ℚ) := by positivity
  have hq24 : (2 : ℚ) ^ (-24 : ℤ) ≤ 1 / (d : ℚ) := by
    rw [le_div_iff₀ hdpos]
    have : (2 : ℚ) ^ (-24 : ℤ) * d ≤ 2 ^ (-24 : ℤ) * 2 ^ 24 :=
      mul_le_mul_of_nonneg_left hdq24 (by positivity)
    have e : (2 : ℚ) ^ (-24 : ℤ) * 2 ^ 24 = 1 := by norm_num
    linarith
  have hrel := Flt.abs_roundQ_sub_le_rel 24 (-126) (q := 1 / (d : ℚ)) (by
    rw [abs_of_pos hqpos]
    refine le_trans ?_ hq24
    exact zpow_le_zpow_right₀ (by norm_num) (by norm_num))
  rw [abs_of_pos hqpos] at hrel
  have hup : Flt.roundQ 24 (-126) (1 / (d : ℚ)) ≤ 1 / (d : ℚ) * (1 + 2 ^ (-24 : ℤ)) := by
    have := (abs_le.mp hrel).2
    have e : ((24 : ℕ) : ℤ) = 24 := rfl
    rw [e] at this
    linarith
  refine ⟨lt_of_lt_of_le (by positivity) hc0, ?_⟩
  calc Flt.roundQ 24 (-126) (Flt.roundQ 53 (-1022) (1 / (d : ℚ))) * d
      ≤ (1 / (d : ℚ) * (1 + 2 ^ (-24 : ℤ))) * d :=
        mul_le_mul_of_nonneg_right (le_trans hdr hup) hdpos.le
    _ = 1 + 2 ^ (-24 : ℤ) := by
        rw [mul_comm (1 / (d : ℚ)), mul_assoc, one_div_mul_cancel hdpos.ne', mul_one]

/-! ## The round trip for gamma 1 -/

/-- The sum of `write_state`, rounded and taken to its ceiling, stays between
the integers that bound it when these are `float` values. -/
theorem F32.sum_sandwich {p : ℚ} {lo hi mn : ℤ} (hmn : |mn| ≤ 2 ^ 24)
    (hlo : |lo + mn| ≤ 2 ^ 24) (hhi : |hi + mn| ≤ 2 ^ 24) (h1 : (lo : ℚ) ≤ p)
    (h2 : p ≤ hi) :
    lo + mn ≤ ⌈Flt.roundQ 24 (-126) (p + Flt.roundQ 24 (-126) (mn : ℚ))⌉ ∧
      ⌈Flt.roundQ 24 (-126) (p + Flt.roundQ 24 (-126) (mn : ℚ))⌉ ≤ hi + mn := by
  rw [F32.roundQ_intCast_exact hmn]
  constructor
  · have h := F32.intCast_le_roundQ (t := p + (mn : ℚ)) hlo (by push_cast; linarith)
    have h' := le_trans h (Int.le_ceil _)
    exact_mod_cast h'
  · rw [Int.ceil_le]
    exact F32.roundQ_le_intCast hhi (by push_cast; linarith)

/-- The product of `write_state` for a brightness `x` with `|x * d - a| <= 1`
and `x * d` between 0 and `d`: the value sent is within 1 of `a + mn`. -/
theorem F32.product_sandwich {y : ℚ} {lo hi : ℤ} (hlo : |lo| ≤ 2 ^ 24) (hhi : |hi| ≤ 2 ^ 24)
    (h1 : (lo : ℚ) ≤ y) (h2 : y ≤ hi) :
    (lo : ℚ) ≤ Flt.roundQ 24 (-126) y ∧ Flt.roundQ 24 (-126) y ≤ hi :=
  ⟨F32.intCast_le_roundQ hlo h1, F32.roundQ_le_intCast hhi h2⟩

theorem F32.value_sandwich {t : ℚ} {l u mn : ℤ} (hmn : |mn| ≤ 2 ^ 24)
    (hl : |l| ≤ 2 ^ 24) (hu : |u| ≤ 2 ^ 24)
    (hlm : |l + mn| ≤ 2 ^ 24) (hum : |u + mn| ≤ 2 ^ 24) (h1 : (l : ℚ) ≤ t)
    (h2 : t ≤ u) :
    l + mn ≤ ⌈Flt.roundQ 24 (-126)
        (Flt.roundQ 24 (-126) t + Flt.roundQ 24 (-126) (mn : ℚ))⌉ ∧
      ⌈Flt.roundQ 24 (-126)
        (Flt.roundQ 24 (-126) t + Flt.roundQ 24 (-126) (mn : ℚ))⌉ ≤ u + mn := by
  obtain ⟨a, b⟩ := F32.product_sandwich hl hu h1 h2
  exact F32.sum_sandwich hmn hlm hum a b

/-- The round trip on integers and rationals: `r` is the received value,
`X` the linear part, `C` the replacement value, `y` the brightness for gamma
1 and `S` the rounded sum of `write_state`. -/
theorem round_trip_core {mn mx r : ℤ} (hne : mn ≠ mx) (hmn0 : 0 ≤ mn) (hmx0 : 0 ≤ mx)
    (hmn24 : mn ≤ 2 ^ 24) (hmx24 : mx ≤ 2 ^ 24) (hinv : mx < mn → 0 < mx)
    (hlo : min mn mx ≤ r) (hhi : r ≤ max mn mx) :
    let X := Flt.roundQ 24 (-126)
      (Flt.roundQ 24 (-126) ((r - mn : ℤ) : ℚ) / Flt.roundQ 24 (-126) ((mx - mn : ℤ) : ℚ))
    let C := Flt.roundQ 24 (-126)
      (Flt.roundQ 53 (-1022) (1 / ((max mn mx - min mn mx : ℤ) : ℚ)))
    let y := if 0 < min mn mx ∧ X = 0 then C else X
    let S := Flt.roundQ 24 (-126)
      (Flt.roundQ 24 (-126) (y * Flt.roundQ 24 (-126) ((mx - mn : ℤ) : ℚ)) +
        Flt.roundQ 24 (-126) (mn : ℚ))
    (y = 0 ∧ r = 0) ∨ (y ≠ 0 ∧ |y| ≤ 1 ∧ 0 ≤ ⌈S⌉ ∧ |⌈S⌉ - r| ≤ 1) := by
  intro X C y S
  have hDex : Flt.roundQ 24 (-126) ((mx - mn : ℤ) : ℚ) = ((mx - mn : ℤ) : ℚ) :=
    F32.roundQ_intCast_exact (by rw [abs_le]; constructor <;> omega)
  have hAex : Flt.roundQ 24 (-126) ((r - mn : ℤ) : ℚ) = ((r - mn : ℤ) : ℚ) :=
    F32.roundQ_intCast_exact (by rw [abs_le]; constructor <;> omega)
  have hmnabs : |mn| ≤ 2 ^ 24 := by rw [abs_le]; constructor <;> omega
  have hX : X = Flt.roundQ 24 (-126) (((r - mn : ℤ) : ℚ) / ((mx - mn : ℤ) : ℚ)) := by
    simp only [X, hDex, hAex]
  have hS : S = Flt.roundQ 24 (-126)
      (Flt.roundQ 24 (-126) (y * ((mx - mn : ℤ) : ℚ)) + Flt.roundQ 24 (-126) (mn : ℚ)) := by
    simp only [S, hDex]
  by_cases ha : r - mn = 0
  · -- the received value is `min_value`: the linear part is zero
    have hX0 : X = 0 := by
      rw [hX, ha, Int.cast_zero, zero_div, Flt.roundQ_zero]
    by_cases hl : 0 < min mn mx
    · have hy : y = C := if_pos ⟨hl, hX0⟩
      have hd1 : 1 ≤ max mn mx - min mn mx := by omega
      have hd24 : max mn mx - min mn mx ≤ 2 ^ 24 := by omega
      obtain ⟨hC0, hCd⟩ := F32.recip_error hd1 hd24
      obtain ⟨-, -, hC1⟩ := correction_eq hd1 (by omega : max mn mx - min mn mx < 2 ^ 31)
      have hC0' : 0 < C := hC0
      have hC1' : C ≤ 1 := hC1
      have hCd' : C * ((max mn mx - min mn mx : ℤ) : ℚ) ≤ 1 + 2 ^ (-24 : ℤ) := hCd
      right
      refine ⟨by rw [hy]; exact hC0'.ne', by rw [hy, abs_of_pos hC0']; exact hC1', ?_⟩
      rw [hS, hy]
      rcases lt_or_gt_of_ne hne with hlt | hgt
      · -- in order
        have hd : max mn mx - min mn mx = mx - mn := by omega
        rw [hd] at hCd'
        have hDpos : (0 : ℚ) ≤ ((mx - mn : ℤ) : ℚ) := by
          exact_mod_cast (by omega : 0 ≤ mx - mn)
        have hp0 : ((0 : ℤ) : ℚ) ≤ Flt.roundQ 24 (-126) (C * ((mx - mn : ℤ) : ℚ)) := by
          rw [Int.cast_zero]
          exact Flt.roundQ_nonneg 24 (-126) (mul_nonneg hC0'.le hDpos)
        have hp1 : Flt.roundQ 24 (-126) (C * ((mx - mn : ℤ) : ℚ)) ≤ ((1 : ℤ) : ℚ) := by
          have := Flt.roundQ_mono 24 (by norm_num) (-126) hCd'
          rw [F32.roundQ_one_tie] at this
          rw [Int.cast_one]
          exact this
        obtain ⟨b1, b2⟩ := F32.sum_sandwich hmnabs
          (by rw [abs_le]; constructor <;> omega) (by rw [abs_le]; constructor <;> omega)
          hp0 hp1
        refine ⟨by omega, ?_⟩
        rw [abs_le]
        constructor <;> omega
      · -- inverted
        have hd : max mn mx - min mn mx = -(mx - mn) := by omega
        rw [hd] at hCd'
        have hmx := hinv hgt
        have hDneg : ((mx - mn : ℤ) : ℚ) ≤ 0 := by
          exact_mod_cast (by omega : mx - mn ≤ 0)
        have hp0 : Flt.roundQ 24 (-126) (C * ((mx - mn : ℤ) : ℚ)) ≤ ((0 : ℤ) : ℚ) := by
          rw [Int.cast_zero]
          exact Flt.roundQ_nonpos 24 (-126) (mul_nonpos_of_nonneg_of_nonpos hC0'.le hDneg)
        have hp1 : ((-1 : ℤ) : ℚ) ≤ Flt.roundQ 24 (-126) (C * ((mx - mn : ℤ) : ℚ)) := by
          have hge : -(1 + 2 ^ (-24 : ℤ)) ≤ C * ((mx - mn : ℤ) : ℚ) := by
            have e : C * ((-(mx - mn) : ℤ) : ℚ) = -(C * ((mx - mn : ℤ) : ℚ)) := by
              push_cast; ring
            rw [e] at hCd'
            linarith
          have := Flt.roundQ_mono 24 (by norm_num) (-126) hge
          rw [F32.roundQ_neg_one_tie] at this
          have e1 : ((-1 : ℤ) : ℚ) = -1 := by norm_num
          rw [e1]
          exact this
        obtain ⟨b1, b2⟩ := F32.sum_sandwich hmnabs
          (by rw [abs_le]; constructor <;> omega) (by rw [abs_le]; constructor <;> omega)
          hp1 hp0
        refine ⟨by omega, ?_⟩
        rw [abs_le]
        constructor <;> omega
    · left
      have hy : y = X := if_neg (fun h => hl h.1)
      refine ⟨by rw [hy, hX0], ?_⟩
      rcases lt_or_gt_of_ne hne with hlt | hgt
      · omega
      · have := hinv hgt
        omega
  · -- the received value is not `min_value`: the linear part is positive
    have hDne : mx - mn ≠ 0 := by omega
    have hpos : 0 < ((r - mn : ℤ) : ℚ) / ((mx - mn : ℤ) : ℚ) := by
      rcases lt_or_gt_of_ne hne with hlt | hgt
      · apply div_pos
        · exact_mod_cast (by omega : 0 < r - mn)
        · exact_mod_cast (by omega : 0 < mx - mn)
      · apply div_pos_of_neg_of_neg
        · exact_mod_cast (by omega : r - mn < 0)
        · exact_mod_cast (by omega : mx - mn < 0)
    obtain ⟨hx0, hx1, hxe⟩ := F32.quotient_error (a := r - mn) (d := mx - mn) hDne
      (by rcases abs_cases (r - mn) with h | h <;> omega)
      (by rcases abs_cases (r - mn) with h | h <;> rcases abs_cases (mx - mn) with h' | h' <;>
            omega)
      (by rw [abs_le]; constructor <;> omega) hpos
    rw [← hX] at hx0 hx1 hxe
    have hy : y = X := if_neg (fun h => hx0.ne' h.2)
    right
    refine ⟨by rw [hy]; exact hx0.ne', by rw [hy, abs_of_pos hx0]; exact hx1, ?_⟩
    rw [hS, hy]
    obtain ⟨he1, he2⟩ := abs_le.mp hxe
    rcases lt_or_gt_of_ne hne with hlt | hgt
    · -- in order: the product lies in `[a - 1, min (a + 1) d]`
      have hDpos : (0 : ℚ) < ((mx - mn : ℤ) : ℚ) := by
        exact_mod_cast (by omega : 0 < mx - mn)
      have hXD : X * ((mx - mn : ℤ) : ℚ) ≤ ((mx - mn : ℤ) : ℚ) := by
        calc X * ((mx - mn : ℤ) : ℚ) ≤ 1 * ((mx - mn : ℤ) : ℚ) :=
              mul_le_mul_of_nonneg_right hx1 hDpos.le
          _ = _ := one_mul _
      have hlow : (((r - mn - 1 : ℤ)) : ℚ) ≤ X * ((mx - mn : ℤ) : ℚ) := by
        push_cast at he1 ⊢; linarith
      by_cases hr : r = mx
      · obtain ⟨b1, b2⟩ := F32.value_sandwich (l := r - mn - 1) (u := mx - mn) hmnabs
          (by rw [abs_le]; constructor <;> omega) (by rw [abs_le]; constructor <;> omega)
          (by rw [abs_le]; constructor <;> omega) (by rw [abs_le]; constructor <;> omega)
          hlow hXD
        refine ⟨by omega, ?_⟩
        rw [abs_le]
        constructor <;> omega
      · have hup : X * ((mx - mn : ℤ) : ℚ) ≤ ((r - mn + 1 : ℤ) : ℚ) := by
          push_cast at he2 ⊢; linarith
        obtain ⟨b1, b2⟩ := F32.value_sandwich (l := r - mn - 1) (u := r - mn + 1) hmnabs
          (by rw [abs_le]; constructor <;> omega) (by rw [abs_le]; constructor <;> omega)
          (by rw [abs_le]; constructor <;> omega) (by rw [abs_le]; constructor <;> omega)
          hlow hup
        refine ⟨by omega, ?_⟩
        rw [abs_le]
        constructor <;> omega
    · -- inverted: the product lies in `[max (a - 1) d, a + 1]`
      have hDneg : ((mx - mn : ℤ) : ℚ) < 0 := by
        exact_mod_cast (by omega : mx - mn < 0)
      have hXD : ((mx - mn : ℤ) : ℚ) ≤ X * ((mx - mn : ℤ) : ℚ) := by
        calc ((mx - mn : ℤ) : ℚ) = 1 * ((mx - mn : ℤ) : ℚ) := (one_mul _).symm
          _ ≤ X * ((mx - mn : ℤ) : ℚ) := mul_le_mul_of_nonpos_right hx1 hDneg.le
      have hup : X * ((mx - mn : ℤ) : ℚ) ≤ ((r - mn + 1 : ℤ) : ℚ) := by
        push_cast at he2 ⊢; linarith
      by_cases hr : r = mx
      · obtain ⟨b1, b2⟩ := F32.value_sandwich (l := mx - mn) (u := r - mn + 1) hmnabs
          (by rw [abs_le]; constructor <;> omega) (by rw [abs_le]; constructor <;> omega)
          (by rw [abs_le]; constructor <;> omega) (by rw [abs_le]; constructor <;> omega)
          hXD hup
        refine ⟨by omega, ?_⟩
        rw [abs_le]
        constructor <;> omega
      · have hlow : (((r - mn - 1 : ℤ)) : ℚ) ≤ X * ((mx - mn : ℤ) : ℚ) := by
          push_cast at he1 ⊢; linarith
        obtain ⟨b1, b2⟩ := F32.value_sandwich (l := r - mn - 1) (u := r - mn + 1) hmnabs
          (by rw [abs_le]; constructor <;> omega) (by rw [abs_le]; constructor <;> omega)
          (by rw [abs_le]; constructor <;> omega) (by rw [abs_le]; constructor <;> omega)
          hlow hup
        refine ⟨by omega, ?_⟩
        rw [abs_le]
        constructor <;> omega

/-- The inbound mapping for gamma 1, in either order of the range, when
`max_value_ - min_value_` does not overflow. -/
theorem to_brightness_gamma_one_any (powf : Flt → Flt → Flt)
    (hpow : ∀ x, powf x (Flt.fin 1) = x) (self : TuyaLight)
    (hne : self.min_value_ ≠ self.max_value_)
    (hno : |self.max_value_ - self.min_value_| < 2 ^ 31) (r : ℕ) :
    to_brightness powf self (Flt.fin 1) r =
      Flt.fin (if 0 < min self.min_value_ self.max_value_ ∧
          Flt.roundQ 24 (-126)
            (Flt.roundQ 24 (-126)
              (((min (max self.min_value_ self.max_value_)
                  (max (min self.min_value_ self.max_value_) (wrapInt32 r)) -
                self.min_value_ : ℤ) : ℚ)) /
              Flt.roundQ 24 (-126) ((self.max_value_ - self.min_value_ : ℤ) : ℚ)) = 0 then
        Flt.roundQ 24 (-126) (Flt.roundQ 53 (-1022)
          (1 / ((max self.min_value_ self.max_value_ -
            min self.min_value_ self.max_value_ : ℤ) : ℚ)))
      else
        Flt.roundQ 24 (-126)
          (Flt.roundQ 24 (-126)
            (((min (max self.min_value_ self.max_value_)
                (max (min self.min_value_ self.max_value_) (wrapInt32 r)) -
              self.min_value_ : ℤ) : ℚ)) /
            Flt.roundQ 24 (-126) ((self.max_value_ - self.min_value_ : ℤ) : ℚ))) := by
  obtain ⟨hlin, _, _⟩ := linear_part_eq (r := wrapInt32 r) hne hno
  obtain ⟨hcorr, _, _⟩ := correction_eq
    (d := max self.min_value_ self.max_value_ - min self.min_value_ self.max_value_)
    (by rw [abs_lt] at hno; omega) (by rw [abs_lt] at hno; omega)
  rw [apply_ite Flt.fin]
  unfold to_brightness
  simp only [hlin, exponent_one, hpow, hcorr, Flt.isZero, decide_eq_true_eq]

/-- C11, amended: for gamma 1 (where `powf (x, 1) = x`), `min_value !=
max_value` with both in `[0, 2^24]`, `max_value > 0` when the range is in
inverted order, and every received value `raw` in `[lower, upper]`, the dimmer
value `write_state` sends for the brightness the dimmer listener computes from
`raw` differs from `raw` by at most 1. -/
theorem round_trip (powf : Flt → Flt → Flt) (hpow : ∀ x, powf x (Flt.fin 1) = x)
    (self : TuyaLight) (raw : ℕ) (hne : self.min_value_ ≠ self.max_value_)
    (hmn0 : 0 ≤ self.min_value_) (hmx0 : 0 ≤ self.max_value_)
    (hmn24 : self.min_value_ ≤ 2 ^ 24) (hmx24 : self.max_value_ ≤ 2 ^ 24)
    (hinv : self.max_value_ < self.min_value_ → 0 < self.max_value_)
    (hlo : min self.min_value_ self.max_value_ ≤ (raw : ℤ))
    (hhi : (raw : ℤ) ≤ max self.min_value_ self.max_value_) :
    |(to_raw self (to_brightness powf self (Flt.fin 1) raw) : ℤ) - (raw : ℤ)| ≤ 1 := by
  have hno : |self.max_value_ - self.min_value_| < 2 ^ 31 := by
    rw [abs_lt]; constructor <;> omega
  have hw : wrapInt32 (raw : ℤ) = raw := wrapInt32_of_isInt32 ⟨by omega, by omega⟩
  have hcl : min (max self.min_value_ self.max_value_)
      (max (min self.min_value_ self.max_value_) (raw : ℤ)) = raw := by
    rw [max_eq_right hlo, min_eq_right hhi]
  have core := round_trip_core hne hmn0 hmx0 hmn24 hmx24 hinv hlo hhi
  rw [to_brightness_gamma_one_any powf hpow self hne hno raw, hw, hcl]
  dsimp only at core
  generalize (if 0 < min self.min_value_ self.max_value_ ∧
      Flt.roundQ 24 (-126)
        (Flt.roundQ 24 (-126) ((((raw : ℤ) - self.min_value_ : ℤ) : ℚ)) /
          Flt.roundQ 24 (-126) ((self.max_value_ - self.min_value_ : ℤ) : ℚ)) = 0 then
      Flt.roundQ 24 (-126) (Flt.roundQ 53 (-1022)
        (1 / ((max self.min_value_ self.max_value_ -
          min self.min_value_ self.max_value_ : ℤ) : ℚ)))
    else
      Flt.roundQ 24 (-126)
        (Flt.roundQ 24 (-126) ((((raw : ℤ) - self.min_value_ : ℤ) : ℚ)) /
          Flt.roundQ 24 (-126) ((self.max_value_ - self.min_value_ : ℤ) : ℚ))) = y
    at core ⊢
  rcases core with ⟨hy0, hr0⟩ | ⟨hy0, hy1, hc0, hc1⟩
  · rw [to_raw_of_isZero self (show (Flt.fin y).isZero = true from decide_eq_true hy0), hr0]
    norm_num
  · have hc32 : ⌈Flt.roundQ 24 (-126)
        (Flt.roundQ 24 (-126)
          (y * Flt.roundQ 24 (-126) ((self.max_value_ - self.min_value_ : ℤ) : ℚ)) +
          Flt.roundQ 24 (-126) (self.min_value_ : ℚ))⌉ < 2 ^ 32 := by
      rw [abs_le] at hc1
      omega
    rw [to_raw_fin self hy0 hy1 ⟨by omega, by omega⟩ hno, Flt.toUInt32_intCast hc0 hc32,
      Int.toNat_of_nonneg hc0]
    exact hc1

theorem round_trip_witness :
    |(to_raw scenarioLight (to_brightness (fun x _ => x) scenarioLight (Flt.fin 1) 505) : ℤ)
      - ((505 : ℕ) : ℤ)| ≤ 1 :=
  round_trip (fun x _ => x) (fun _ => rfl) scenarioLight 505 (by decide) (by decide)
    (by decide) (by decide) (by decide) (by decide) (by decide) (by decide)

theorem F32.round_half : F32.round (1 / 2) = Flt.fin (1 / 2) := by
  rw [F32.round_eq_roundQ (by rw [abs_of_pos (by norm_num)]; norm_num), F32.roundQ_half]

theorem F32.round_quarter : F32.round (1 / 4) = Flt.fin (1 / 4) := by
  rw [F32.round_eq_roundQ (by rw [abs_of_pos (by norm_num)]; norm_num)]
  have h := Flt.roundQ_zpow 24 (by norm_num) (-126) (-2) (by norm_num)
  have e : (2 : ℚ) ^ (-2 : ℤ) = 1 / 4 := by norm_num
  rw [e] at h
  rw [h]

theorem exponent_half : F32.ofFlt (F64.div (Flt.fin 1) (Flt.fin 2)) = Flt.fin (1 / 2) := by
  have h : F64.div (Flt.fin 1) (Flt.fin 2) = Flt.fin (1 / 2) := by
    show Flt.div F64.round (Flt.fin 1) (Flt.fin 2) = _
    rw [Flt.div_fin_fin F64.round 1 (by norm_num),
      F64.round_eq_roundQ64 (by rw [abs_of_pos (by norm_num)]; norm_num)]
    have h := Flt.roundQ_zpow 53 (by norm_num) (-1022) (-1) (by norm_num)
    have e : (2 : ℚ) ^ (-1 : ℤ) = 1 / 2 := by norm_num
    rw [e] at h
    rw [h]
  rw [h]
  exact F32.round_half

theorem boundary_to_raw_half : to_raw boundaryLight (Flt.fin (1 / 2)) = 500 := by
  have hd : boundaryLight.max_value_ - boundaryLight.min_value_ = 1000 := by decide
  have hm : boundaryLight.min_value_ = 0 := rfl
  rw [to_raw_fin boundaryLight (by norm_num) (by rw [abs_le]; constructor <;> norm_num)
    (by decide) (by rw [hd]; norm_num), hd, hm,
    F32.roundQ_intCast_exact (n := 1000) (by norm_num),
    F32.roundQ_intCast_exact (n := 0) (by norm_num)]
  have h1 : (1 / 2 : ℚ) * ((1000 : ℤ) : ℚ) = ((500 : ℤ) : ℚ) := by norm_num
  rw [h1, F32.roundQ_intCast_exact (n := 500) (by norm_num)]
  have h2 : ((500 : ℤ) : ℚ) + ((0 : ℤ) : ℚ) = ((500 : ℤ) : ℚ) := by norm_num
  rw [h2, F32.roundQ_intCast_exact (n := 500) (by norm_num), Int.ceil_intCast,
    Flt.toUInt32_intCast (by norm_num) (by norm_num)]
  rfl

theorem boundary_brightness_gamma_two (powf : Flt → Flt → Flt)
    (hpow : powf (Flt.fin (1 / 4)) (Flt.fin (1 / 2)) = Flt.fin (1 / 2)) :
    to_brightness powf boundaryLight (Flt.fin 2) 250 = Flt.fin (1 / 2) := by
  have h1 : wrapInt32
      (min (max boundaryLight.min_value_ boundaryLight.max_value_)
        (max (min boundaryLight.min_value_ boundaryLight.max_value_)
          (wrapInt32 (250 : ℕ))) -
        boundaryLight.min_value_) = 250 := by decide
  have h2 : wrapInt32 (boundaryLight.max_value_ - boundaryLight.min_value_) = 1000 := by
    decide
  have hlin : F32.div (F32.ofInt 250) (F32.ofInt 1000) = Flt.fin (1 / 4) := by
    rw [F32.div_ofInt (by norm_num) (by norm_num) (by norm_num)]
    have : (((250 : ℤ) : ℚ)) / ((1000 : ℤ) : ℚ) = 1 / 4 := by norm_num
    rw [this, F32.round_quarter]
  unfold to_brightness
  simp only
  rw [if_neg (fun h => absurd h.1 (by decide)), h1, h2, hlin, exponent_half, hpow]

theorem coarse_brightness (powf : Flt → Flt → Flt) (hpow : ∀ x, powf x (Flt.fin 1) = x) :
    to_brightness powf coarseLight (Flt.fin 1) 33554434 = Flt.fin (1 / 2) := by
  have h1 : wrapInt32
      (min (max coarseLight.min_value_ coarseLight.max_value_)
        (max (min coarseLight.min_value_ coarseLight.max_value_)
          (wrapInt32 (33554434 : ℕ))) -
        coarseLight.min_value_) = 33554434 := by decide
  have h2 : wrapInt32 (coarseLight.max_value_ - coarseLight.min_value_) = 67108864 := by
    decide
  have hA : Flt.roundQ 24 (-126) ((33554434 : ℤ) : ℚ) = 33554432 := by
    rw [Flt.roundQ_eval 24 (-126) (e := 25) (by norm_num)
      (by rw [abs_of_pos (by norm_num)]; norm_num)
      (by rw [abs_of_pos (by norm_num)]; norm_num)]
    have hq : (((33554434 : ℤ) : ℚ)) / 2 ^ ((25 : ℤ) - (((24 : ℕ) : ℤ) - 1)) =
        ((8388608 : ℤ) : ℚ) + 1 / 2 := by norm_num
    rw [hq, Flt.rne_tie_even 8388608 (by decide)]
    norm_num
  have hD : Flt.roundQ 24 (-126) ((67108864 : ℤ) : ℚ) = 67108864 := by
    have h := Flt.roundQ_zpow 24 (by norm_num) (-126) 26 (by norm_num)
    have e : (2 : ℚ) ^ (26 : ℤ) = ((67108864 : ℤ) : ℚ) := by norm_num
    rw [e] at h
    rw [h]
    norm_num
  have hlin : F32.div (F32.ofInt 33554434) (F32.ofInt 67108864) = Flt.fin (1 / 2) := by
    rw [F32.ofInt_eq (n := 33554434) (by norm_num), F32.ofInt_eq (n := 67108864) (by norm_num),
      hA, hD]
    show Flt.div F32.round (Flt.fin 33554432) (Flt.fin 67108864) = _
    rw [Flt.div_fin_fin F32.round _ (by norm_num)]
    have : (33554432 : ℚ) / 67108864 = 1 / 2 := by norm_num
    rw [this, F32.round_half]
  unfold to_brightness
  simp only
  rw [if_neg (fun h => absurd h.1 (by decide)), h1, h2, hlin, exponent_one, hpow]

theorem coarse_to_raw_half : to_raw coarseLight (Flt.fin (1 / 2)) = 33554432 := by
  have hd : coarseLight.max_value_ - coarseLight.min_value_ = 67108864 := by decide
  have hm : coarseLight.min_value_ = 0 := rfl
  have hD : Flt.roundQ 24 (-126) ((67108864 : ℤ) : ℚ) = 67108864 := by
    have h := Flt.roundQ_zpow 24 (by norm_num) (-126) 26 (by norm_num)
    have e : (2 : ℚ) ^ (26 : ℤ) = ((67108864 : ℤ) : ℚ) := by norm_num
    rw [e] at h
    rw [h]
    norm_num
  have hP : Flt.roundQ 24 (-126) (33554432 : ℚ) = 33554432 := by
    have h := Flt.roundQ_zpow 24 (by norm_num) (-126) 25 (by norm_num)
    have e : (2 : ℚ) ^ (25 : ℤ) = 33554432 := by norm_num
    rw [e] at h
    exact h
  rw [to_raw_fin coarseLight (by norm_num) (by rw [abs_le]; constructor <;> norm_num)
    (by decide) (by rw [hd]; norm_num), hd, hm, hD,
    F32.roundQ_intCast_exact (n := 0) (by norm_num)]
  have h1 : (1 / 2 : ℚ) * 67108864 = 33554432 := by norm_num
  rw [h1, hP]
  have h2 : (33554432 : ℚ) + ((0 : ℤ) : ℚ) = 33554432 := by norm_num
  rw [h2, hP]
  have h3 : (33554432 : ℚ) = ((33554432 : ℤ) : ℚ) := by norm_num
  rw [h3, Int.ceil_intCast, Flt.toUInt32_intCast (by norm_num) (by norm_num)]
  rfl

theorem signed_brightness_low (powf : Flt → Flt → Flt)
    (hpow : ∀ x, powf x (Flt.fin 1) = x) :
    to_brightness powf signedLight (Flt.fin 1) 4294967286 = Flt.fin 0 := by
  have h1 : wrapInt32
      (min (max signedLight.min_value_ signedLight.max_value_)
        (max (min signedLight.min_value_ signedLight.max_value_)
          (wrapInt32 (4294967286 : ℕ))) -
        signedLight.min_value_) = 0 := by decide
  have h2 : wrapInt32 (signedLight.max_value_ - signedLight.min_value_) = 20 := by
    decide
  have hlin : F32.div (F32.ofInt 0) (F32.ofInt 20) = Flt.fin 0 := by
    rw [F32.div_ofInt (by norm_num) (by norm_num) (by norm_num)]
    have : (((0 : ℤ) : ℚ)) / ((20 : ℤ) : ℚ) = 0 := by norm_num
    rw [this, F32.round_zero]
  unfold to_brightness
  simp only
  rw [if_neg (fun h => absurd h.1 (by decide)), h1, h2, hlin, exponent_one, hpow]

/-- C11, as stated, fails in four ways.  (1) For gamma 2, `min_value=0`,
`max_value=1000` and `raw=250` the listener computes `powf (0.25, 0.5) = 0.5`
and `write_state` sends 500: it does not apply gamma.  (2) For gamma 1 and the
range in inverted order `min_value=10`, `max_value=0`, `raw=10` gives the
brightness 0, for which the value sent is 0.  (3) For gamma 1, `min_value=0`,
`max_value=2^26` and `raw=2^25+2` the conversion of `raw` to `float` gives
`2^25`, and the value sent is `2^25`.  (4) For gamma 1, `min_value=-10`,
`max_value=10` and `raw=-10` (the word `2^32-10`) the brightness is 0 and the
value sent is 0. -/
theorem round_trip_counterexample :
    (¬ ∃ powf : Flt → Flt → Flt,
        powf (Flt.fin (1 / 4)) (Flt.fin (1 / 2)) = Flt.fin (1 / 2) ∧
        |(to_raw boundaryLight (to_brightness powf boundaryLight (Flt.fin 2) 250) : ℤ)
          - 250| ≤ 1) ∧
    (¬ ∃ powf : Flt → Flt → Flt, (∀ x, powf x (Flt.fin 1) = x) ∧
        |(to_raw invertedLight (to_brightness powf invertedLight (Flt.fin 1) 10) : ℤ)
          - 10| ≤ 1) ∧
    (¬ ∃ powf : Flt → Flt → Flt, (∀ x, powf x (Flt.fin 1) = x) ∧
        |(to_raw coarseLight (to_brightness powf coarseLight (Flt.fin 1) 33554434) : ℤ)
          - 33554434| ≤ 1) ∧
    (¬ ∃ powf : Flt → Flt → Flt, (∀ x, powf x (Flt.fin 1) = x) ∧
        |(to_raw signedLight (to_brightness powf signedLight (Flt.fin 1) 4294967286) : ℤ)
          - wrapInt32 (4294967286 : ℕ)| ≤ 1) := by
  refine ⟨?_, ?_, ?_, ?_⟩
  · rintro ⟨powf, hpow, h⟩
    rw [boundary_brightness_gamma_two powf hpow, boundary_to_raw_half] at h
    norm_num at h
  · rintro ⟨powf, hpow, h⟩
    rw [inverted_brightness_high powf hpow,
      to_raw_of_isZero invertedLight (show (Flt.fin 0).isZero = true from rfl)] at h
    norm_num at h
  · rintro ⟨powf, hpow, h⟩
    rw [coarse_brightness powf hpow, coarse_to_raw_half] at h
    norm_num at h
  · rintro ⟨powf, hpow, h⟩
    rw [signed_brightness_low powf hpow,
      to_raw_of_isZero signedLight (show (Flt.fin 0).isZero = true from rfl)] at h
    have hw : wrapInt32 ((4294967286 : ℕ) : ℤ) = -10 := by decide
    rw [hw] at h
    norm_num at h

/-! ## The dimmer value is not zero -/

theorem inverted_wide_to_raw : to_raw invertedWideLight (Flt.fin 1) = 0 := by
  have hd : invertedWideLight.max_value_ - invertedWideLight.min_value_ = -16777216 := by
    decide
  have hm : invertedWideLight.min_value_ = 16777217 := rfl
  have hM : Flt.roundQ 24 (-126) ((16777217 : ℤ) : ℚ) = ((16777216 : ℤ) : ℚ) := by
    rw [Flt.roundQ_eval 24 (-126) (e := 24) (by norm_num)
      (by rw [abs_of_pos (by norm_num)]; norm_num)
      (by rw [abs_of_pos (by norm_num)]; norm_num)]
    have hq : (((16777217 : ℤ) : ℚ)) / 2 ^ ((24 : ℤ) - (((24 : ℕ) : ℤ) - 1)) =
        ((8388608 : ℤ) : ℚ) + 1 / 2 := by norm_num
    rw [hq, Flt.rne_tie_even 8388608 (by decide)]
    norm_num
  rw [to_raw_fin invertedWideLight (by norm_num) (by norm_num)
    (by decide) (by rw [hd]; norm_num), hd, hm,
    F32.roundQ_intCast_exact (n := -16777216) (by norm_num), hM, one_mul,
    F32.roundQ_intCast_exact (n := -16777216) (by norm_num)]
  have h2 : ((-16777216 : ℤ) : ℚ) + ((16777216 : ℤ) : ℚ) = ((0 : ℤ) : ℚ) := by norm_num
  rw [h2, F32.roundQ_intCast_exact (n := 0) (by norm_num), Int.ceil_intCast,
    Flt.toUInt32_intCast (by norm_num) (by norm_num)]
  rfl

/-- C12, as stated, fails.  With `min_value=-10`, `max_value=10` the brightness
1/2 gives `ceil (0.5 * 20 + (-10)) = 0`; with the range in inverted order
`min_value=10`, `max_value=0` the brightness 1 gives `ceil (1 * (-10) + 10) = 0`;
with the range in inverted order `min_value=2^24+1`, `max_value=1` the
conversion of `min_value` to `float` gives `2^24` and the brightness 1 gives
`ceil (-2^24 + 2^24) = 0`.  In the first two cases the list of writes of
`write_state` is shown: the dimmer datapoint carries the value 0. -/
theorem to_raw_zero_counterexample :
    to_raw signedLight (Flt.fin (1 / 2)) = 0 ∧
    to_raw invertedLight (Flt.fin 1) = 0 ∧
    to_raw invertedWideLight (Flt.fin 1) = 0 ∧
    (write_state signedLight
        { is_on := true, has_transformer := false, gamma_correct := Flt.fin 1,
          brightness := Flt.fin (1 / 2) }).2 =
      [{ id := 1, type := TuyaDatapointType.INTEGER, value_bool := false, value_uint := 0 }] ∧
    (write_state invertedLight
        { is_on := true, has_transformer := false, gamma_correct := Flt.fin 1,
          brightness := Flt.fin 1 }).2 =
      [{ id := 1, type := TuyaDatapointType.INTEGER, value_bool := false,
         value_uint := 0 }] := by
  refine ⟨signed_to_raw, inverted_to_raw, inverted_wide_to_raw, ?_, ?_⟩
  · rw [write_state_of_clear _ _ rfl]
    have hz : (Flt.fin (1 / 2)).isZero = false := by simp [Flt.isZero]
    show (if (!(Flt.fin (1 / 2)).isZero || false) = true then
        [({ id := 1, type := TuyaDatapointType.INTEGER, value_bool := false,
            value_uint := to_raw signedLight (Flt.fin (1 / 2)) } : TuyaDatapoint)]
        else []) ++ [] = _
    rw [hz, signed_to_raw]
    rfl
  · rw [write_state_of_clear _ _ rfl]
    have hz : (Flt.fin 1).isZero = false := by simp [Flt.isZero]
    show (if (!(Flt.fin 1).isZero || false) = true then
        [({ id := 1, type := TuyaDatapointType.INTEGER, value_bool := false,
            value_uint := to_raw invertedLight (Flt.fin 1) } : TuyaDatapoint)]
        else []) ++ [] = _
    rw [hz, inverted_to_raw]
    rfl

/-- The dimmer value for a range in inverted order with `0 < max_value <
min_value <= 2^24` and a brightness in `(0, 1]`: between `max_value` and
`min_value`. -/
theorem to_raw_inverted_bounds (self : TuyaLight) {q : ℚ} (h0 : 0 < q) (h1 : q ≤ 1)
    (hpos : 0 < self.max_value_) (hlt : self.max_value_ < self.min_value_)
    (h24 : self.min_value_ ≤ 2 ^ 24) :
    self.max_value_ ≤ (to_raw self (Flt.fin q) : ℤ) ∧
      (to_raw self (Flt.fin q) : ℤ) ≤ self.min_value_ := by
  rw [to_raw_fin self h0.ne' (by rw [abs_of_pos h0]; exact h1) ⟨by omega, by omega⟩
    (by rw [abs_lt]; constructor <;> omega)]
  have hDex : Flt.roundQ 24 (-126) ((self.max_value_ - self.min_value_ : ℤ) : ℚ) =
      ((self.max_value_ - self.min_value_ : ℤ) : ℚ) :=
    F32.roundQ_intCast_exact (by rw [abs_le]; constructor <;> omega)
  rw [hDex]
  have hDneg : ((self.max_value_ - self.min_value_ : ℤ) : ℚ) < 0 := by
    exact_mod_cast (by omega : self.max_value_ - self.min_value_ < 0)
  have hlow : ((self.max_value_ - self.min_value_ : ℤ) : ℚ) ≤
      q * ((self.max_value_ - self.min_value_ : ℤ) : ℚ) := by
    calc ((self.max_value_ - self.min_value_ : ℤ) : ℚ)
        = 1 * ((self.max_value_ - self.min_value_ : ℤ) : ℚ) := (one_mul _).symm
      _ ≤ q * ((self.max_value_ - self.min_value_ : ℤ) : ℚ) :=
        mul_le_mul_of_nonpos_right h1 hDneg.le
  have hup : q * ((self.max_value_ - self.min_value_ : ℤ) : ℚ) ≤ ((0 : ℤ) : ℚ) := by
    rw [Int.cast_zero]
    exact mul_nonpos_of_nonneg_of_nonpos h0.le hDneg.le
  have hmnabs : |self.min_value_| ≤ 2 ^ 24 := by rw [abs_le]; constructor <;> omega
  obtain ⟨b1, b2⟩ := F32.value_sandwich (l := self.max_value_ - self.min_value_) (u := 0)
    hmnabs (by rw [abs_le]; constructor <;> omega)
    (by rw [abs_le]; constructor <;> omega) (by rw [abs_le]; constructor <;> omega)
    (by rw [abs_le]; constructor <;> omega) hlow hup
  rw [Flt.toUInt32_intCast (by omega) (by omega), Int.toNat_of_nonneg (by omega)]
  constructor <;> omega

/-- C12, amended: for a configuration with `0 <= min_value` and `0 < max_value`
(`int32_t` values), in order (`min_value <= max_value`) or in inverted order
with `min_value <= 2^24`, and a requested brightness `b` that is a `float`
with `0 < b <= 1`, the dimmer value
`ceil (b * (max_value - min_value) + min_value)` is never 0, and no INTEGER
datapoint that `write_state` sends carries the value 0. -/
theorem to_raw_ne_zero (self : TuyaLight) (q : ℚ) (hrep : Flt.roundQ 24 (-126) q = q)
    (h0 : 0 < q) (h1 : q ≤ 1) (hmin0 : 0 ≤ self.min_value_) (hpos : 0 < self.max_value_)
    (hmin : self.min_value_ < 2 ^ 31) (hmax : self.max_value_ < 2 ^ 31)
    (hcfg : self.min_value_ ≤ self.max_value_ ∨ self.min_value_ ≤ 2 ^ 24) :
    to_raw self (Flt.fin q) ≠ 0 ∧
    ∀ state : LightState, state.brightness = Flt.fin q →
      ∀ dp ∈ (write_state self state).2, dp.type = TuyaDatapointType.INTEGER →
        dp.value_uint ≠ 0 := by
  have hraw : to_raw self (Flt.fin q) ≠ 0 := by
    by_cases hle : self.min_value_ ≤ self.max_value_
    · obtain ⟨hs1, hs2⟩ := to_raw_sum_bounds hrep h0 h1 hmin0 hle hpos hmax
      rw [to_raw_fin self h0.ne' (by rw [abs_of_pos h0]; exact h1) ⟨by omega, by omega⟩
        (by rw [abs_lt]; constructor <;> omega)]
      set s := Flt.roundQ 24 (-126)
        (Flt.roundQ 24 (-126)
            (q * Flt.roundQ 24 (-126) ((self.max_value_ - self.min_value_ : ℤ) : ℚ)) +
          Flt.roundQ 24 (-126) (self.min_value_ : ℚ)) with hs
      have hspos : 0 < s := lt_of_lt_of_le (by positivity) hs1
      have hc1 : 0 < ⌈s⌉ := Int.ceil_pos.mpr hspos
      have hc2 : ⌈s⌉ ≤ 3 * 2 ^ 30 := by
        rw [Int.ceil_le]
        push_cast
        linarith
      rw [Flt.toUInt32_intCast hc1.le (by omega)]
      omega
    · have h24 : self.min_value_ ≤ 2 ^ 24 := by
        rcases hcfg with h | h
        · exact absurd h hle
        · exact h
      obtain ⟨b1, -⟩ := to_raw_inverted_bounds self h0 h1 hpos (not_le.mp hle) h24
      omega
  refine ⟨hraw, ?_⟩
  intro state hb dp hdp hty
  by_cases hflag : self.inhibit_next_send_ = true
  · simp [write_state, hflag] at hdp
  · rw [write_state_of_clear self state (by simpa using hflag)] at hdp
    rcases List.mem_append.mp hdp with h | h
    · cases hdim : self.dimmer_id_ with
      | none => rw [hdim] at h; simp at h
      | some d =>
        rw [hdim] at h
        simp only at h
        split at h
        · rw [List.mem_singleton] at h
          rw [h, hb]
          exact hraw
        · simp at h
    · cases hsw : self.switch_id_ with
      | none => rw [hsw] at h; simp at h
      | some s =>
        rw [hsw] at h
        simp only [List.mem_singleton] at h
        rw [h] at hty
        cases hty

theorem to_raw_ne_zero_witness :
    to_raw { invertedLight with min_value_ := 10, max_value_ := 5 } (Flt.fin (1 / 2)) ≠ 0 :=
  (to_raw_ne_zero { invertedLight with min_value_ := 10, max_value_ := 5 } (1 / 2)
    F32.roundQ_half (by norm_num) (by norm_num)
    (by decide) (by decide) (by decide) (by decide) (Or.inr (by decide))).1

/-! ## Monotonicity of the inbound mapping, in either order -/

theorem full_range_brightness_top (powf : Flt → Flt → Flt)
    (hpow : ∀ x, powf x (Flt.fin 1) = x) :
    to_brightness powf fullRangeLight (Flt.fin 1) 2147483647 = Flt.fin 1 := by
  have h1 : wrapInt32
      (min (max fullRangeLight.min_value_ fullRangeLight.max_value_)
        (max (min fullRangeLight.min_value_ fullRangeLight.max_value_)
          (wrapInt32 (2147483647 : ℕ))) -
        fullRangeLight.min_value_) = -1 := by decide
  have h2 : wrapInt32 (fullRangeLight.max_value_ - fullRangeLight.min_value_) = -1 := by
    decide
  have hlin : F32.div (F32.ofInt (-1)) (F32.ofInt (-1)) = Flt.fin 1 := by
    rw [F32.div_ofInt (by norm_num) (by norm_num) (by norm_num)]
    have : (((-1 : ℤ) : ℚ)) / ((-1 : ℤ) : ℚ) = 1 := by norm_num
    rw [this, F32.round_one]
  unfold to_brightness
  simp only
  rw [if_neg (fun h => absurd h.1 (by decide)), h1, h2, hlin, exponent_one, hpow]

/-- C10, as stated, fails.  With the range in inverted order (`min_value=10`,
`max_value=0`) and gamma 1 the received value 0 maps to brightness 1 and the
received value 10 to brightness 0.  With `min_value=1`, `max_value=16777220`
the received value 1 maps to the replacement value 16777213 / 2^48 and the
received value 2 to the smaller 16777212 / 2^48.  With `min_value=-2^31`,
`max_value=2^31-1` the subtractions overflow: the received value 0 maps to
`2^31` and the received value `2^31-1` to 1.  All hold for every `powf` with
`powf (x, 1) = x`. -/
theorem to_brightness_mono_counterexample :
    (¬ ∃ powf : Flt → Flt → Flt, (∀ x, powf x (Flt.fin 1) = x) ∧
        Flt.le (to_brightness powf invertedLight (Flt.fin 1) 0)
          (to_brightness powf invertedLight (Flt.fin 1) 10) = true) ∧
    (¬ ∃ powf : Flt → Flt → Flt, (∀ x, powf x (Flt.fin 1) = x) ∧
        Flt.le (to_brightness powf wideLight (Flt.fin 1) 1)
          (to_brightness powf wideLight (Flt.fin 1) 2) = true) ∧
    (¬ ∃ powf : Flt → Flt → Flt, (∀ x, powf x (Flt.fin 1) = x) ∧
        Flt.le (to_brightness powf fullRangeLight (Flt.fin 1) 0)
          (to_brightness powf fullRangeLight (Flt.fin 1) 2147483647) = true) := by
  refine ⟨?_, ?_, ?_⟩
  · rintro ⟨powf, hpow, h⟩
    rw [inverted_brightness_low powf hpow, inverted_brightness_high powf hpow] at h
    have : ¬ ((1 : ℚ) ≤ 0) := by norm_num
    exact this (of_decide_eq_true h)
  · rintro ⟨powf, hpow, h⟩
    rw [wide_brightness_low powf hpow, wide_brightness_step powf hpow] at h
    have : ¬ ((16777213 / 281474976710656 : ℚ) ≤ 16777212 / 281474976710656) := by norm_num
    exact this (of_decide_eq_true h)
  · rintro ⟨powf, hpow, h⟩
    rw [full_range_brightness powf hpow, full_range_brightness_top powf hpow] at h
    have : ¬ ((2147483648 : ℚ) ≤ 1) := by norm_num
    exact this (of_decide_eq_true h)

/-- The linear part and the replacement value on rationals: monotonicity of the
inbound mapping for gamma 1, in either order of the range.  `a1 <= a2` are the
clamped differences `value - min_value`, `b` is `max_value - min_value` and `d`
is `upper - lower`. -/
theorem brightness_mono_core {a1 a2 b d lower : ℤ}
    (hf1 : (0 ≤ a1 ∧ a1 ≤ b ∧ 1 ≤ b) ∨ (b ≤ a1 ∧ a1 ≤ 0 ∧ b ≤ -1))
    (hf2 : (0 ≤ a2 ∧ a2 ≤ b ∧ 1 ≤ b) ∨ (b ≤ a2 ∧ a2 ≤ 0 ∧ b ≤ -1))
    (h12 : a1 ≤ a2) (hd : d = |b|) (hcfg : lower ≤ 0 ∨ |b| ≤ 2 ^ 24) :
    let X := fun a : ℤ => Flt.roundQ 24 (-126)
      (Flt.roundQ 24 (-126) (a : ℚ) / Flt.roundQ 24 (-126) (b : ℚ))
    let C := Flt.roundQ 24 (-126) (Flt.roundQ 53 (-1022) (1 / (d : ℚ)))
    let Y := fun a : ℤ => if 0 < lower ∧ X a = 0 then C else X a
    (0 < b → Y a1 ≤ Y a2) ∧ (b < 0 → Y a2 ≤ Y a1) := by
  intro X C Y
  have hA12 := F32.roundQ_intCast_mono h12
  have hXzero : ∀ a : ℤ, a = 0 → X a = 0 := by
    intro a ha
    simp only [X, ha, Int.cast_zero, Flt.roundQ_zero, zero_div]
  constructor
  · -- in order
    intro hb
    have hb1 : 1 ≤ b := by omega
    have h0a1 : 0 ≤ a1 := by omega
    have hB : (1 : ℚ) ≤ Flt.roundQ 24 (-126) (b : ℚ) :=
      F32.roundQ_one_le (by exact_mod_cast hb1)
    have hBpos : (0 : ℚ) < Flt.roundQ 24 (-126) (b : ℚ) := by linarith
    have hA1 : 0 ≤ Flt.roundQ 24 (-126) (a1 : ℚ) := F32.roundQ_intCast_nonneg h0a1
    have hx12 : X a1 ≤ X a2 :=
      Flt.roundQ_mono 24 (by norm_num) (-126) (div_le_div_of_nonneg_right hA12 hBpos.le)
    have hx1 : 0 ≤ X a1 := Flt.roundQ_nonneg 24 (-126) (div_nonneg hA1 hBpos.le)
    show (if 0 < lower ∧ X a1 = 0 then C else X a1) ≤
      (if 0 < lower ∧ X a2 = 0 then C else X a2)
    split_ifs with c1 c2 c2
    · exact le_rfl
    · -- the replacement value against the first step above the lower bound
      have h24 : |b| ≤ 2 ^ 24 := by
        rcases hcfg with h | h
        · omega
        · exact h
      have hb24 : b ≤ 2 ^ 24 := by rw [abs_of_pos hb] at h24; exact h24
      have hdb : d = b := by rw [hd, abs_of_pos hb]
      have hBex : Flt.roundQ 24 (-126) (b : ℚ) = (b : ℚ) :=
        F32.roundQ_intCast_exact h24
      have hx2 : X a2 ≠ 0 := fun h => c2 ⟨c1.1, h⟩
      have ha2pos : 1 ≤ a2 := by
        by_contra hcon
        exact hx2 (hXzero a2 (by omega))
      have hA2 : 1 ≤ Flt.roundQ 24 (-126) (a2 : ℚ) :=
        F32.roundQ_one_le (by exact_mod_cast ha2pos)
      have hbq : (0 : ℚ) < (b : ℚ) := by exact_mod_cast hb
      have hstep : 1 / (b : ℚ) ≤ Flt.roundQ 24 (-126) (a2 : ℚ) / (b : ℚ) :=
        div_le_div_of_nonneg_right hA2 hbq.le
      have hdr := F32.double_round_recip hb1 hb24
      have hm := Flt.roundQ_mono 24 (by norm_num) (-126) hstep
      show Flt.roundQ 24 (-126) (Flt.roundQ 53 (-1022) (1 / (d : ℚ))) ≤
        Flt.roundQ 24 (-126)
          (Flt.roundQ 24 (-126) (a2 : ℚ) / Flt.roundQ 24 (-126) (b : ℚ))
      rw [hdb, hBex]
      exact le_trans hdr hm
    · exact absurd ⟨c2.1, le_antisymm (c2.2 ▸ hx12) hx1⟩ c1
    · exact hx12
  · -- inverted order
    intro hb
    have hb1 : b ≤ -1 := by omega
    have ha2 : a2 ≤ 0 := by omega
    have hB : Flt.roundQ 24 (-126) (b : ℚ) ≤ -1 :=
      F32.roundQ_le_neg_one (by exact_mod_cast hb1)
    have hBneg : Flt.roundQ 24 (-126) (b : ℚ) < 0 := by linarith
    have hA2 : Flt.roundQ 24 (-126) (a2 : ℚ) ≤ 0 := F32.roundQ_intCast_nonpos ha2
    have hx21 : X a2 ≤ X a1 :=
      Flt.roundQ_mono 24 (by norm_num) (-126) (div_le_div_of_nonpos_of_le hBneg.le hA12)
    have hx2 : 0 ≤ X a2 := Flt.roundQ_nonneg 24 (-126) (div_nonneg_of_nonpos hA2 hBneg.le)
    show (if 0 < lower ∧ X a2 = 0 then C else X a2) ≤
      (if 0 < lower ∧ X a1 = 0 then C else X a1)
    split_ifs with c2 c1 c1
    · exact le_rfl
    · -- the replacement value against the first step below the upper bound
      have h24 : |b| ≤ 2 ^ 24 := by
        rcases hcfg with h | h
        · omega
        · exact h
      have hb24 : -b ≤ 2 ^ 24 := by rw [abs_of_neg hb] at h24; exact h24
      have hdb : d = -b := by rw [hd, abs_of_neg hb]
      have hBex : Flt.roundQ 24 (-126) (b : ℚ) = (b : ℚ) :=
        F32.roundQ_intCast_exact h24
      have hx1 : X a1 ≠ 0 := fun h => c1 ⟨c2.1, h⟩
      have ha1neg : a1 ≤ -1 := by
        by_contra hcon
        exact hx1 (hXzero a1 (by omega))
      have hA1 : Flt.roundQ 24 (-126) (a1 : ℚ) ≤ -1 :=
        F32.roundQ_le_neg_one (by exact_mod_cast ha1neg)
      have hbq : (b : ℚ) < 0 := by exact_mod_cast hb
      have hstep : 1 / ((-b : ℤ) : ℚ) ≤ Flt.roundQ 24 (-126) (a1 : ℚ) / (b : ℚ) := by
        have e : (1 : ℚ) / ((-b : ℤ) : ℚ) = (-1) / (b : ℚ) := by
          push_cast
          rw [div_neg, neg_div]
        rw [e]
        exact div_le_div_of_nonpos_of_le hbq.le hA1
      have hdr := F32.double_round_recip (d := -b) (by omega) hb24
      have hm := Flt.roundQ_mono 24 (by norm_num) (-126) hstep
      show Flt.roundQ 24 (-126) (Flt.roundQ 53 (-1022) (1 / (d : ℚ))) ≤
        Flt.roundQ 24 (-126)
          (Flt.roundQ 24 (-126) (a1 : ℚ) / Flt.roundQ 24 (-126) (b : ℚ))
      rw [hdb, hBex]
      exact le_trans hdr hm
    · exact absurd ⟨c1.1, le_antisymm (c1.2 ▸ hx21) hx2⟩ c2
    · exact hx21

/-- C10, amended: for gamma 1 (where `powf (x, 1) = x`), `min_value !=
max_value` with a difference that does not overflow `int32_t`, and either
`lower <= 0` or `|max_value - min_value| <= 2^24`, the inbound mapping is
monotone in the received value read as `int32_t` (in `[lower, upper]` or not:
values are clamped): non-decreasing when `min_value < max_value`, and
non-increasing when `min_value > max_value`, because the code divides by the
signed difference. -/
theorem to_brightness_mono (powf : Flt → Flt → Flt)
    (hpow : ∀ x, powf x (Flt.fin 1) = x) (self : TuyaLight)
    (hne : self.min_value_ ≠ self.max_value_)
    (hno : |self.max_value_ - self.min_value_| < 2 ^ 31)
    (hcfg : min self.min_value_ self.max_value_ ≤ 0 ∨
      |self.max_value_ - self.min_value_| ≤ 2 ^ 24)
    (raw1 raw2 : ℕ) (h12 : wrapInt32 raw1 ≤ wrapInt32 raw2) :
    (self.min_value_ < self.max_value_ →
      Flt.le (to_brightness powf self (Flt.fin 1) raw1)
        (to_brightness powf self (Flt.fin 1) raw2) = true) ∧
    (self.max_value_ < self.min_value_ →
      Flt.le (to_brightness powf self (Flt.fin 1) raw2)
        (to_brightness powf self (Flt.fin 1) raw1) = true) := by
  have hf1 := clamp_sub_facts (r := wrapInt32 raw1) hne
  have hf2 := clamp_sub_facts (r := wrapInt32 raw2) hne
  have ha12 : min (max self.min_value_ self.max_value_)
        (max (min self.min_value_ self.max_value_) (wrapInt32 raw1)) - self.min_value_ ≤
      min (max self.min_value_ self.max_value_)
        (max (min self.min_value_ self.max_value_) (wrapInt32 raw2)) - self.min_value_ := by
    have := min_le_min_left (max self.min_value_ self.max_value_)
      (max_le_max_left (min self.min_value_ self.max_value_) h12)
    omega
  have hd : max self.min_value_ self.max_value_ - min self.min_value_ self.max_value_ =
      |self.max_value_ - self.min_value_| := by
    rcases le_total self.min_value_ self.max_value_ with h | h
    · rw [max_eq_right h, min_eq_left h, abs_of_nonneg (by omega)]
    · rw [max_eq_left h, min_eq_right h, abs_of_nonpos (by omega)]
      omega
  obtain ⟨c1, c2⟩ := brightness_mono_core hf1 hf2 ha12 hd hcfg
  rw [to_brightness_gamma_one_any powf hpow self hne hno raw1,
    to_brightness_gamma_one_any powf hpow self hne hno raw2]
  constructor
  · intro hlt
    exact decide_eq_true (c1 (by omega))
  · intro hgt
    exact decide_eq_true (c2 (by omega))

theorem to_brightness_mono_witness :
    Flt.le (to_brightness (fun x _ => x) boundaryLight (Flt.fin 1) 10)
      (to_brightness (fun x _ => x) boundaryLight (Flt.fin 1) 11) = true :=
  (to_brightness_mono (fun x _ => x) (fun _ => rfl) boundaryLight (by decide) (by decide)
    (Or.inl (by decide)) 10 11 (by decide)).1 (by decide)

/-! ## The dimmer value against the exact formula -/

/-- The `float` nearest to 0.1 is `13421773 / 2^27`; with `min_value=10`,
`max_value=1000` the product with 990 rounds to 99 and the value sent is 109. -/
theorem scenario_to_raw_tenth :
    to_raw scenarioLight (Flt.fin (13421773 / 134217728)) = 109 := by
  have hd : scenarioLight.max_value_ - scenarioLight.min_value_ = 990 := by decide
  have hm : scenarioLight.min_value_ = 10 := rfl
  rw [to_raw_fin scenarioLight (by norm_num) (by rw [abs_le]; constructor <;> norm_num)
    (by decide) (by rw [hd]; norm_num), hd, hm,
    F32.roundQ_intCast_exact (n := 990) (by norm_num),
    F32.roundQ_intCast_exact (n := 10) (by norm_num)]
  have h1 : Flt.roundQ 24 (-126) ((13421773 / 134217728 : ℚ) * ((990 : ℤ) : ℚ)) =
      ((99 : ℤ) : ℚ) := by
    rw [Flt.roundQ_eval 24 (-126) (e := 6) (by norm_num)
      (by rw [abs_of_pos (by norm_num)]; norm_num)
      (by rw [abs_of_pos (by norm_num)]; norm_num)]
    have hr : Flt.rne (((13421773 / 134217728 : ℚ) * ((990 : ℤ) : ℚ)) /
        2 ^ ((6 : ℤ) - (((24 : ℕ) : ℤ) - 1))) = 12976128 := by
      apply Flt.rne_eq_of_abs_sub_lt
      rw [abs_lt]
      constructor <;> norm_num
    rw [hr]
    norm_num
  rw [h1]
  have h2 : ((99 : ℤ) : ℚ) + ((10 : ℤ) : ℚ) = ((109 : ℤ) : ℚ) := by norm_num
  rw [h2, F32.roundQ_intCast_exact (n := 109) (by norm_num), Int.ceil_intCast,
    Flt.toUInt32_intCast (by norm_num) (by norm_num)]
  rfl

/-- C1, as stated, fails: the value is computed in `float`, not exactly.  With
`min_value=10`, `max_value=1000` and the brightness `0.1f = 13421773 / 2^27`
the exact `ceil (b * 990 + 10)` is 110, while the product rounds to 99 and
`write_state` sends 109.  With `min_value=0`, `max_value=16777219` and the
brightness 1 the exact value is 16777219, while the range converts to the
`float` 16777220 and that is the value sent. -/
theorem write_state_dimmer_value_counterexample :
    to_raw scenarioLight (Flt.fin (13421773 / 134217728)) = 109 ∧
    ⌈(13421773 / 134217728 : ℚ) *
        ((scenarioLight.max_value_ - scenarioLight.min_value_ : ℤ) : ℚ) +
      (scenarioLight.min_value_ : ℚ)⌉ = 110 ∧
    (write_state scenarioLight
        { scenarioState with brightness := Flt.fin (13421773 / 134217728) }).2 =
      [{ id := 1, type := TuyaDatapointType.INTEGER, value_bool := false,
         value_uint := 109 }] ∧
    to_raw wideZeroLight (Flt.fin 1) = 16777220 ∧
    ⌈(1 : ℚ) * ((wideZeroLight.max_value_ - wideZeroLight.min_value_ : ℤ) : ℚ) +
      (wideZeroLight.min_value_ : ℚ)⌉ = 16777219 := by
  refine ⟨scenario_to_raw_tenth, ?_, ?_, wide_zero_to_raw, ?_⟩
  · show ⌈(13421773 / 134217728 : ℚ) * (((1000 - 10 : ℤ)) : ℚ) + ((10 : ℤ) : ℚ)⌉ = 110
    rw [Int.ceil_eq_iff]
    constructor <;> norm_num
  · rw [write_state_of_clear _ _ rfl]
    have hz : (Flt.fin (13421773 / 134217728)).isZero = false := by simp [Flt.isZero]
    show (if (!(Flt.fin (13421773 / 134217728)).isZero || false) = true then
        [({ id := 1, type := TuyaDatapointType.INTEGER, value_bool := false,
            value_uint := to_raw scenarioLight (Flt.fin (13421773 / 134217728)) } :
              TuyaDatapoint)]
        else []) ++ [] = _
    rw [hz, scenario_to_raw_tenth]
    rfl
  · show ⌈(1 : ℚ) * (((16777219 - 0 : ℤ)) : ℚ) + ((0 : ℤ) : ℚ)⌉ = 16777219
    rw [Int.ceil_eq_iff]
    constructor <;> norm_num

/-! ## The inbound mapping against the exact formula -/

/-- The dimmer value against the exact formula: for `min_value` and `max_value`
of magnitude at most `2^24`, at most `2^24` apart, and a brightness in
`(0, 1]`, the value computed in `float` is the exact
`ceil (b * (max_value - min_value) + min_value)` or one less, provided the
conversion to `uint32_t` is not applied to a negative value: both bounds are
non-negative, or the exact value is at least 1. -/
theorem to_raw_exact_or_less (self : TuyaLight) {q : ℚ} (h0 : 0 < q) (h1 : q ≤ 1)
    (hmn : |self.min_value_| ≤ 2 ^ 24) (hmx : |self.max_value_| ≤ 2 ^ 24)
    (hD24 : |self.max_value_ - self.min_value_| ≤ 2 ^ 24)
    (hdef : (0 ≤ self.min_value_ ∧ 0 ≤ self.max_value_) ∨
      1 ≤ ⌈q * ((self.max_value_ - self.min_value_ : ℤ) : ℚ) + (self.min_value_ : ℚ)⌉) :
    (to_raw self (Flt.fin q) : ℤ) =
        ⌈q * ((self.max_value_ - self.min_value_ : ℤ) : ℚ) + (self.min_value_ : ℚ)⌉ ∨
      (to_raw self (Flt.fin q) : ℤ) =
        ⌈q * ((self.max_value_ - self.min_value_ : ℤ) : ℚ) + (self.min_value_ : ℚ)⌉ - 1 := by
  obtain ⟨hmn1, hmn2⟩ := abs_le.mp hmn
  obtain ⟨hmx1, hmx2⟩ := abs_le.mp hmx
  obtain ⟨hD1, hD2⟩ := abs_le.mp hD24
  rw [to_raw_fin self h0.ne' (by rw [abs_of_pos h0]; exact h1) ⟨by omega, by omega⟩
    (by rw [abs_lt]; constructor <;> omega)]
  have hDex : Flt.roundQ 24 (-126) ((self.max_value_ - self.min_value_ : ℤ) : ℚ) =
      ((self.max_value_ - self.min_value_ : ℤ) : ℚ) :=
    F32.roundQ_intCast_exact hD24
  rw [hDex, Int.ceil_add_int]
  rw [Int.ceil_add_int] at hdef
  set D : ℤ := self.max_value_ - self.min_value_ with hD
  set k : ℤ := ⌈q * (D : ℚ)⌉ with hk
  have hku : q * (D : ℚ) ≤ (k : ℚ) := Int.le_ceil _
  have hkl : ((k - 1 : ℤ) : ℚ) < q * (D : ℚ) := by
    have := Int.ceil_lt_add_one (q * (D : ℚ))
    push_cast
    linarith
  -- the product lies between `min 0 D` and `max 0 D`
  have hprod : ((min 0 D : ℤ) : ℚ) ≤ q * (D : ℚ) ∧ q * (D : ℚ) ≤ ((max 0 D : ℤ) : ℚ) := by
    rcases le_total 0 D with hD0 | hD0
    · have hDq : (0 : ℚ) ≤ (D : ℚ) := by exact_mod_cast hD0
      rw [min_eq_left hD0, max_eq_right hD0, Int.cast_zero]
      exact ⟨mul_nonneg h0.le hDq, by nlinarith⟩
    · have hDq : (D : ℚ) ≤ 0 := by exact_mod_cast hD0
      rw [min_eq_right hD0, max_eq_left hD0, Int.cast_zero]
      exact ⟨by nlinarith, mul_nonpos_of_nonneg_of_nonpos h0.le hDq⟩
  have hkU : k ≤ max 0 D := Int.ceil_le.mpr hprod.2
  have hkL : min 0 D ≤ k := by
    have : ((min 0 D : ℤ) : ℚ) ≤ (k : ℚ) := le_trans hprod.1 hku
    exact_mod_cast this
  -- facts on `min 0 D` and `max 0 D`
  have hfacts : -2 ^ 24 ≤ min 0 D ∧ max 0 D ≤ 2 ^ 24 ∧
      -2 ^ 24 ≤ min 0 D + self.min_value_ ∧ max 0 D + self.min_value_ ≤ 2 ^ 24 ∧
      (0 ≤ self.min_value_ ∧ 0 ≤ self.max_value_ → 0 ≤ min 0 D + self.min_value_) := by
    rw [hD]
    rcases le_total 0 (self.max_value_ - self.min_value_) with h | h
    · rw [min_eq_left h, max_eq_right h]
      refine ⟨by norm_num, by omega, by omega, by omega, fun hh => by omega⟩
    · rw [min_eq_right h, max_eq_left h]
      refine ⟨by omega, by norm_num, by omega, by omega, fun hh => by omega⟩
  obtain ⟨hL24, hU24, hLm, hUm, hLnn⟩ := hfacts
  by_cases hcase : min 0 D ≤ k - 1
  · obtain ⟨b1, b2⟩ := F32.value_sandwich (l := k - 1) (u := k) hmn
      (by rw [abs_le]; constructor <;> omega) (by rw [abs_le]; constructor <;> omega)
      (by rw [abs_le]; constructor <;> omega) (by rw [abs_le]; constructor <;> omega)
      hkl.le hku
    have hc0 : 0 ≤ ⌈Flt.roundQ 24 (-126)
        (Flt.roundQ 24 (-126) (q * (D : ℚ)) +
          Flt.roundQ 24 (-126) (self.min_value_ : ℚ))⌉ := by
      rcases hdef with hnn | hpos
      · have := hLnn hnn
        omega
      · omega
    rw [Flt.toUInt32_intCast hc0 (by omega), Int.toNat_of_nonneg hc0]
    omega
  · have hkeq : k = min 0 D := by omega
    obtain ⟨b1, b2⟩ := F32.value_sandwich (l := k) (u := k) hmn
      (by rw [abs_le]; constructor <;> omega) (by rw [abs_le]; constructor <;> omega)
      (by rw [abs_le]; constructor <;> omega) (by rw [abs_le]; constructor <;> omega)
      (by rw [hkeq]; exact hprod.1) hku
    have hc0 : 0 ≤ ⌈Flt.roundQ 24 (-126)
        (Flt.roundQ 24 (-126) (q * (D : ℚ)) +
          Flt.roundQ 24 (-126) (self.min_value_ : ℚ))⌉ := by
      rcases hdef with hnn | hpos
      · have := hLnn hnn
        omega
      · omega
    rw [Flt.toUInt32_intCast hc0 (by omega), Int.toNat_of_nonneg hc0]
    omega

/-- C1, amended: with `dimmer_id_` set, the flag `inhibit_next_send_` clear and a
snapshot brightness `b` that is not zero, `write_state` sends first an INTEGER
datapoint with id `dimmer_id_` whose value is
`ceil (b * (max_value - min_value) + min_value)` evaluated in `float` (the
product and the sum each rounded, `max_value - min_value` computed in
`int32_t`), and nothing else but the switch datapoint when `switch_id_` is
set.  The payload is the integer of the ceiling whenever that lies in
`[0, 2^31)`, and it does not depend on gamma.  For `min_value` and `max_value`
of magnitude at most `2^24`, at most `2^24` apart, and `0 < b <= 1`, the value
is the exact `ceil (b * (max_value - min_value) + min_value)` or one less,
when both bounds are non-negative or the exact value is at least 1 (so that no
negative value is converted to `uint32_t`).  For `min_value = 10`,
`max_value = 1000`, gamma 2.2 and `b = 0.5` it is 505. -/
theorem write_state_dimmer_value (self : TuyaLight) (state : LightState) (d : ℕ)
    (hd : self.dimmer_id_ = some d) (hflag : self.inhibit_next_send_ = false)
    (hb : state.brightness.isZero = false) :
    let raw :=
      Flt.ceil
        (F32.add
          (F32.mul state.brightness
            (F32.ofInt (wrapInt32 (self.max_value_ - self.min_value_))))
          (F32.ofInt self.min_value_))
    let dp : TuyaDatapoint :=
      { id := d, type := TuyaDatapointType.INTEGER, value_bool := false,
        value_uint := Flt.toUInt32 raw }
    (write_state self state).2 =
        dp :: (match self.switch_id_ with
          | some s =>
            [{ id := s, type := TuyaDatapointType.BOOLEAN, value_bool := true,
               value_uint := 0 }]
          | none => []) ∧
      (∀ c : ℤ, raw = Flt.fin (c : ℚ) → 0 ≤ c → c < 2 ^ 31 → dp.value_int = c) ∧
      (∀ gamma : Flt,
        write_state self { state with gamma_correct := gamma } = write_state self state) ∧
      (∀ q : ℚ, state.brightness = Flt.fin q → 0 < q → q ≤ 1 →
        |self.min_value_| ≤ 2 ^ 24 → |self.max_value_| ≤ 2 ^ 24 →
        |self.max_value_ - self.min_value_| ≤ 2 ^ 24 →
        ((0 ≤ self.min_value_ ∧ 0 ≤ self.max_value_) ∨
          1 ≤ ⌈q * ((self.max_value_ - self.min_value_ : ℤ) : ℚ) +
            (self.min_value_ : ℚ)⌉) →
        (dp.value_uint : ℤ) =
            ⌈q * ((self.max_value_ - self.min_value_ : ℤ) : ℚ) + (self.min_value_ : ℚ)⌉ ∨
          (dp.value_uint : ℤ) =
            ⌈q * ((self.max_value_ - self.min_value_ : ℤ) : ℚ) + (self.min_value_ : ℚ)⌉
              - 1) ∧
      (write_state scenarioLight scenarioState).2 =
        [{ id := 1, type := TuyaDatapointType.INTEGER, value_bool := false,
           value_uint := 505 }] := by
  intro raw dp
  have hraw : to_raw self state.brightness = Flt.toUInt32 raw := by
    simp only [to_raw, hb, Bool.not_false, if_true, raw]
  refine ⟨?_, ?_, ?_, ?_, ?_⟩
  · rw [write_state_of_clear self state hflag]
    simp only [hd, hb, hraw, Bool.not_false, Bool.true_or, if_true, List.singleton_append,
      dp]
  · intro c hc h0 h1
    simp only [dp, TuyaDatapoint.value_int, hc]
    rw [Flt.toUInt32_intCast h0 (by omega), Int.toNat_of_nonneg h0]
    exact wrapInt32_of_isInt32 ⟨by omega, h1⟩
  · intro gamma
    rw [write_state_of_clear self state hflag, write_state_of_clear self _ hflag]
  · intro q hq h0 h1 hmn hmx hD hdef
    have key := to_raw_exact_or_less self h0 h1 hmn hmx hD hdef
    rw [← hq, hraw] at key
    exact key
  · rw [write_state_of_clear scenarioLight scenarioState rfl]
    have hz : (Flt.fin (1 / 2)).isZero = false := by simp [Flt.isZero]
    show (if (!(Flt.fin (1 / 2)).isZero || false) = true then
        [({ id := 1, type := TuyaDatapointType.INTEGER, value_bool := false,
            value_uint := to_raw scenarioLight (Flt.fin (1 / 2)) } : TuyaDatapoint)]
        else []) ++ [] = _
    rw [hz, to_raw_scenario]
    rfl

theorem write_state_dimmer_value_witness :
    (write_state scenarioLight scenarioState).2 =
      [{ id := 1, type := TuyaDatapointType.INTEGER, value_bool := false,
         value_uint := 505 }] :=
  (write_state_dimmer_value scenarioLight scenarioState 1 rfl rfl
    (by simp [scenarioState, Flt.isZero])).2.2.2.2

end Tuya
